import Mathlib

/-!
# mengine / ecs : a shallow embedding of the Entity-Component-System core

The Go package `ecs` is translated function by function.

Conventions of the embedding
* Go `uint64` values (`Signature`, `EntityID`, the frame counter, type ids) are
  natural numbers; every arithmetic operation that can overflow is reduced
  modulo `2 ^ 64` explicitly.  Go `int` values (slot indices, counters) are
  natural numbers as well (they never reach `2 ^ 63`).
* A Go `map[K]V` is a function `K → Option V` (`none` = key absent); a
  `map[K]struct{}` is a function `K → Bool`.
* A Go slice is a `List`; `make([]T, n)` is `List.replicate n zero`.
* A Go type parameter `T` of a component or a system is represented by its
  `TypeID` (a natural number); the type parameter of a singleton is a `GoType`
  and its `TypeID` is computed by the embedding of util.go.  Component values
  and singleton pointers of all types live in one universe `V` whose `default`
  element plays the role of the zero value.
* A Go `panic` is the `Outcome.panic` constructor; since the Go code mutates
  its receivers in place, the constructor carries the state at the moment of
  the panic.
-/

namespace ecs

/-! ## Results of mutating calls -/

/-- The panics the package can raise.  The doc comment of each constructor
quotes the Go message. -/
inductive Panic where
  /-- entity %d already contains component %T -/
  | alreadyContains (e : Nat)
  /-- entity %d does not have component %T -/
  | doesNotHave (e : Nat)
  /-- component %v  is not registered with ComponentManager -/
  | notRegistered (t : Nat)
  /-- component %T is already registered -/
  | alreadyRegistered (t : Nat)
  /-- signature overflowed, too many registerd components -/
  | signatureOverflow
  /-- system %T is already registered to SystemManager -/
  | systemAlreadyRegistered (t : Nat)
  /-- singleton of type %T has not been registed; `t` names the type parameter
  of the call -/
  | singletonNotRegistered (t : Nat)
  /-- entity %d does not have component of type %T -/
  | mustGetFailed (e : Nat)
  /-- the Go runtime error: index out of range -/
  | indexOutOfRange
  /-- the Go runtime error: nil pointer dereference -/
  | nilDereference
  /-- not a Go panic: the iteration bound of the embedding of the compaction
  loop was used up.  It is never produced, see `prune_panicOf`. -/
  | outOfFuel
  deriving DecidableEq, Repr

/-- The result of a call that mutates a state of type `σ` in place: it either
returns normally, leaving state `s`, or panics, leaving the state `s` reached
when the panic was raised. -/
inductive Outcome (σ : Type) where
  | ok (s : σ)
  | panic (p : Panic) (s : σ)

namespace Outcome

variable {σ τ : Type}

/-- The state left behind by the call, whether it returned or panicked. -/
def state : Outcome σ → σ
  | ok s => s
  | panic _ s => s

/-- Did the call return normally? -/
def isOk : Outcome σ → Bool
  | ok _ => true
  | panic _ _ => false

/-- The panic raised by the call, if any. -/
def panicOf : Outcome σ → Option Panic
  | ok _ => none
  | panic p _ => some p

/-- Sequencing: run `f` on the state left by a normal return; a panic
propagates. -/
def bind (o : Outcome σ) (f : σ → Outcome σ) : Outcome σ :=
  match o with
  | ok s => f s
  | panic p s => panic p s

/-- Embed the outcome of a call on a part of the state into the whole. -/
def lift (o : Outcome σ) (f : σ → τ) : Outcome τ :=
  match o with
  | ok s => ok (f s)
  | panic p s => panic p (f s)

end Outcome

/-- A Go `for _, x := range xs` loop whose body mutates the state and may
panic. -/
def forEach {α σ : Type} (body : α → σ → Outcome σ) : List α → σ → Outcome σ
  | [], s => Outcome.ok s
  | x :: xs, s =>
    match body x s with
    | Outcome.ok s1 => forEach body xs s1
    | Outcome.panic p s1 => Outcome.panic p s1

/-! ## components.go : signatures -/

/-- The Go constant `initialEntityArraySize`. -/
def initialEntityArraySize : Nat := 512

/-- Go `type Signature uint64`. -/
abbrev Signature := Nat

/-- Go `type EntityID uint64`. -/
abbrev EntityID := Nat

/-- Go `Signature.Next`: shift left by one in 64 bits; `false` when the bit
falls off. -/
def Signature.Next (s : Signature) : Signature × Bool :=
  let next := (s <<< 1) % 2 ^ 64
  if next = 0 then (0, false) else (next, true)

/-! ## component_array.go -/

/-- Go `entityComponent[T]`: one slot of a dense array. -/
structure entityComponent (V : Type) where
  Id : EntityID
  Component : V
  Alive : Bool
  ChangedAt : Nat

/-- The zero value of `entityComponent[T]`, which fills a fresh array. -/
def entityComponent.zero (V : Type) [Inhabited V] : entityComponent V :=
  { Id := 0, Component := default, Alive := false, ChangedAt := 0 }

/-- Go `entityComponent.isAlive`. -/
def entityComponent.isAlive {V : Type} (e : entityComponent V) (frame : Nat) : Bool :=
  e.Alive || e.ChangedAt == frame

/-- Go `entityComponent.isDead`. -/
def entityComponent.isDead {V : Type} (e : entityComponent V) (frame : Nat) : Bool :=
  !e.Alive || e.ChangedAt == frame

/-- Go `componentArray[T]`. -/
structure componentArray (V : Type) where
  entities : List (entityComponent V)
  entityToIdx : EntityID → Option Nat
  idx : Nat
  deads : Nat

/-- Go `map[k] = v` on a map represented as a function. -/
def mapSet {β : Type} (m : Nat → Option β) (k : Nat) (v : β) : Nat → Option β :=
  fun x => if x = k then some v else m x

/-- Go `delete(map, k)`. -/
def mapDelete {β : Type} (m : Nat → Option β) (k : Nat) : Nat → Option β :=
  fun x => if x = k then none else m x

/-- The empty Go map. -/
def mapEmpty {β : Type} : Nat → Option β := fun _ => none

namespace componentArray

variable {V : Type}

/-- Go `componentArray.iter`: the entity ids yielded to a consumer that never
stops the iteration, in order. -/
def iter (ca : componentArray V) (frame : Nat) : List EntityID :=
  ca.entities.filterMap (fun e => if e.isDead frame then none else some e.Id)

/-- Go `componentArray.debug`; `fmt` renders a component as `%+v` does. -/
def debug (fmt : V → String) (ca : componentArray V) (frame : Nat) (e : EntityID) :
    Except Panic String :=
  match ca.entityToIdx e with
  | none => .ok "<nil>"
  | some idx =>
    match ca.entities[idx]? with
    | none => .error Panic.indexOutOfRange
    | some slot => if slot.isDead frame then .ok "<nil>" else .ok (fmt slot.Component)

/-- Go `newComponentArray`. -/
def new (V : Type) [Inhabited V] : componentArray V :=
  { entities := List.replicate initialEntityArraySize (entityComponent.zero V)
    entityToIdx := mapEmpty
    idx := 0
    deads := 0 }

/-- The part of Go `componentArray.add` after the presence check: grow the
array when it is full, write the new slot at `ca.idx`, index it. -/
def addSlot [Inhabited V] (ca : componentArray V) (frame : Nat) (e : EntityID) (c : V) :
    Outcome (componentArray V) :=
  let length := ca.entities.length
  let ents :=
    if ca.idx ≥ length then ca.entities ++ List.replicate length (entityComponent.zero V)
    else ca.entities
  if ca.idx < ents.length then
    Outcome.ok
      { entities := ents.set ca.idx { Id := e, Component := c, Alive := true, ChangedAt := frame }
        entityToIdx := mapSet ca.entityToIdx e ca.idx
        idx := ca.idx + 1
        deads := ca.deads }
  else Outcome.panic Panic.indexOutOfRange { ca with entities := ents }

/-- Go `componentArray.add`. -/
def add [Inhabited V] (ca : componentArray V) (frame : Nat) (e : EntityID) (c : V) :
    Outcome (componentArray V) :=
  match ca.entityToIdx e with
  | none => ca.addSlot frame e c
  | some idx =>
    match ca.entities[idx]? with
    | none => Outcome.panic Panic.indexOutOfRange ca
    | some slot =>
      if slot.Alive then Outcome.panic (Panic.alreadyContains e) ca
      else ca.addSlot frame e c

/-- Go `componentArray.remove`. -/
def remove (ca : componentArray V) (frame : Nat) (e : EntityID) : Outcome (componentArray V) :=
  match ca.entityToIdx e with
  | none => Outcome.panic (Panic.doesNotHave e) ca
  | some eIdx =>
    match ca.entities[eIdx]? with
    | none => Outcome.panic Panic.indexOutOfRange ca
    | some slot =>
      if !slot.Alive then Outcome.panic (Panic.doesNotHave e) ca
      else
        Outcome.ok
          { ca with
            entities := ca.entities.set eIdx { slot with Alive := false, ChangedAt := frame }
            deads := ca.deads + 1 }

/-- Go `componentArray.has`. -/
def has (ca : componentArray V) (frame : Nat) (e : EntityID) : Except Panic Bool :=
  match ca.entityToIdx e with
  | none => .ok false
  | some idx =>
    match ca.entities[idx]? with
    | none => .error Panic.indexOutOfRange
    | some slot => .ok (slot.isAlive frame)

/-- The pointer returned by Go `componentArray.Get`, as the position of the
slot it points into (`none` is the nil pointer). -/
def GetRef (ca : componentArray V) (frame : Nat) (e : EntityID) : Except Panic (Option Nat) :=
  match ca.entityToIdx e with
  | none => .ok none
  | some idx =>
    match ca.entities[idx]? with
    | none => .error Panic.indexOutOfRange
    | some slot => if slot.isDead frame then .ok none else .ok (some idx)

/-- Go `componentArray.Get`, dereferenced: the component value the returned
pointer points to (`none` is the nil pointer). -/
def Get (ca : componentArray V) (frame : Nat) (e : EntityID) : Except Panic (Option V) :=
  match ca.entityToIdx e with
  | none => .ok none
  | some idx =>
    match ca.entities[idx]? with
    | none => .error Panic.indexOutOfRange
    | some slot => if slot.isDead frame then .ok none else .ok (some slot.Component)

/-- The effect on the store of an assignment `*p = v` through a pointer `p`
that points to slot `ref` of the array the store has now. -/
def store (ca : componentArray V) (ref : Nat) (v : V) : componentArray V :=
  match ca.entities[ref]? with
  | none => ca
  | some slot => { ca with entities := ca.entities.set ref { slot with Component := v } }

/-- The first inner loop of Go `prune`, entered with `i < j`:
`for idx := j; i < j; idx-- { if entities[idx].Alive { j = idx; break } }`.
The result is the new `j`; `none` when `idx` runs below `0` (index out of
range). -/
def scanDown (ents : List (entityComponent V)) : Nat → Option Nat
  | 0 =>
    match ents[0]? with
    | some s => if s.Alive then some 0 else none
    | none => none
  | k + 1 =>
    match ents[k + 1]? with
    | some s => if s.Alive then some (k + 1) else scanDown ents k
    | none => none

/-- The second inner loop of Go `prune` on the slots from position `idx` on:
the position of the first slot that is not alive; `none` when the scan runs off
the end of the array (index out of range). -/
def scanUpFrom : List (entityComponent V) → Nat → Option Nat
  | [], _ => none
  | s :: rest, idx => if !s.Alive then some idx else scanUpFrom rest (idx + 1)

/-- The second inner loop of Go `prune`, entered with `i < j`:
`for idx := i; i < j; idx++ { if !entities[idx].Alive { i = idx; break } }`. -/
def scanUp (ents : List (entityComponent V)) (i : Nat) : Option Nat :=
  scanUpFrom (ents.drop i) i

/-- Go `entities[i], entities[j] = entities[j], entities[i]`. -/
def swapSlots (ents : List (entityComponent V)) (i j : Nat) : List (entityComponent V) :=
  match ents[i]?, ents[j]? with
  | some a, some b => (ents.set i b).set j a
  | _, _ => ents

/-- The outer `for { ... }` loop of Go `prune`, at most `fuel` iterations.
`some (ok (ents, i))` is the state at the `break`; `some (panic ..)` an index
out of range in an inner loop; `none` means the bound was used up. -/
def compactLoop : Nat → List (entityComponent V) → Nat → Nat →
    Option (Outcome (List (entityComponent V) × Nat))
  | 0, _, _, _ => none
  | fuel + 1, ents, i, j =>
    match (if i < j then scanDown ents j else some j) with
    | none => some (Outcome.panic Panic.indexOutOfRange (ents, i))
    | some j1 =>
      match (if i < j1 then scanUp ents i else some i) with
      | none => some (Outcome.panic Panic.indexOutOfRange (ents, i))
      | some i1 =>
        if i1 ≥ j1 then some (Outcome.ok (ents, i1))
        else compactLoop fuel (swapSlots ents i1 j1) i1 j1

/-- The last loop of Go `prune`:
`for idx := 0; idx < ca.idx; idx++ { ca.entityToIdx[ca.entities[idx].Id] = idx }`. -/
def reindex (ca : componentArray V) : Outcome (componentArray V) :=
  forEach
    (fun idx (c : componentArray V) =>
      match c.entities[idx]? with
      | some s => Outcome.ok { c with entityToIdx := mapSet c.entityToIdx s.Id idx }
      | none => Outcome.panic Panic.indexOutOfRange c)
    (List.range ca.idx) ca

/-- Go `componentArray.prune`.  With `j := len - 1` computed in `Nat`, an
empty array gives `j = 0` instead of `-1`; both skip the loops at `i = 0`. -/
def prune (ca : componentArray V) : Outcome (componentArray V) :=
  if ca.deads ≥ ca.entities.length / 2 ∧ ca.idx > initialEntityArraySize then
    let cleared : componentArray V := { ca with entityToIdx := mapEmpty }
    match compactLoop (2 * ca.entities.length + 2) ca.entities 0 (ca.entities.length - 1) with
    | none => Outcome.panic Panic.outOfFuel cleared
    | some (Outcome.panic p (ents, _)) => Outcome.panic p { cleared with entities := ents }
    | some (Outcome.ok (ents, i)) =>
      reindex { entities := ents, entityToIdx := mapEmpty, idx := i + 1, deads := 0 }
  else Outcome.ok ca

end componentArray

/-! ## components.go : the component manager -/

/-- Go `componentManager`.  `componentArray` holds the per-type stores behind
the interface `componentArrayType`; the type assertion
`.(*componentArray[T])` is the identity in the one-universe representation. -/
structure componentManager (V : Type) where
  componentArray : List (componentArray V)
  componentSignatures : List Signature
  componentToIdx : Nat → Option Nat
  entitySignatures : Nat → Option Signature
  deadEntities : Nat → Bool
  sig : Signature

/-- Go `newComponentManager`. -/
def newComponentManager (V : Type) : componentManager V :=
  { componentArray := []
    componentSignatures := []
    componentToIdx := mapEmpty
    entitySignatures := mapEmpty
    deadEntities := fun _ => false
    sig := 1 }

/-- Reading a Go `map[uint64]Signature` at a key: the zero value when the key
is absent. -/
def sigOf (m : Nat → Option Signature) (e : Nat) : Signature := (m e).getD 0

/-- The 64-bit complement `^s` of a signature. -/
def sigNot (s : Signature) : Signature := (2 ^ 64 - 1) ^^^ (s % 2 ^ 64)

section componentManagerOps

variable {V : Type}

/-- Go `componentManager.iterateEntities`: everything yielded to a consumer
that never stops the iteration; a panic when `componentSignatures` is shorter
than `componentArray`. -/
def componentManager.iterateEntities (cm : componentManager V) (frame : Nat)
    (sig : Signature) : Except Panic (List EntityID) :=
  (List.range cm.componentArray.length).foldlM
    (fun acc i =>
      match cm.componentSignatures[i]?, cm.componentArray[i]? with
      | some s, some ca => if s &&& sig = 0 then .ok acc else .ok (acc ++ ca.iter frame)
      | _, _ => .error Panic.indexOutOfRange)
    []

/-- The loop `for _, ca := range cm.componentArray { ca.prune() }`. -/
def pruneArrays : List (componentArray V) → Outcome (List (componentArray V))
  | [] => Outcome.ok []
  | ca :: rest =>
    match ca.prune with
    | Outcome.panic p ca1 => Outcome.panic p (ca1 :: rest)
    | Outcome.ok ca1 => (pruneArrays rest).lift (fun r => ca1 :: r)

/-- Go `componentManager.prune`. -/
def componentManager.prune (cm : componentManager V) : Outcome (componentManager V) :=
  let cm1 : componentManager V :=
    { cm with
      entitySignatures := fun e => if cm.deadEntities e then none else cm.entitySignatures e
      deadEntities := fun _ => false }
  (pruneArrays cm1.componentArray).lift (fun arrs => { cm1 with componentArray := arrs })

/-- Go `componentManager.removeEntity`. -/
def componentManager.removeEntity (cm : componentManager V) (frame : Nat) (e : EntityID) :
    Outcome (componentManager V) :=
  forEach
    (fun i (c : componentManager V) =>
      let c1 : componentManager V := { c with deadEntities := fun x => x = e || c.deadEntities x }
      match c1.componentArray[i]? with
      | none => Outcome.panic Panic.indexOutOfRange c1
      | some ca =>
        (ca.remove frame e).lift (fun ca1 => { c1 with componentArray := c1.componentArray.set i ca1 }))
    (List.range cm.componentArray.length) cm

/-- Go `hasComponentArray[T]`; `t` is `TypeID` of `T`. -/
def hasComponentArray (cm : componentManager V) (t : Nat) : Bool :=
  (cm.componentToIdx t).isSome

/-- Go `getComponentIdx[T]`. -/
def getComponentIdx (cm : componentManager V) (t : Nat) : Except Panic Nat :=
  match cm.componentToIdx t with
  | none => .error (Panic.notRegistered t)
  | some idx => .ok idx

/-- Go `addComponent[T]`. -/
def addComponent [Inhabited V] (frame : Nat) (cm : componentManager V) (t : Nat) (e : EntityID)
    (c : V) : Outcome (componentManager V) :=
  match getComponentIdx cm t with
  | .error p => Outcome.panic p cm
  | .ok idx =>
    match cm.componentArray[idx]?, cm.componentSignatures[idx]? with
    | some ca, some s =>
      let sig := sigOf cm.entitySignatures e ||| s
      let cm1 : componentManager V := { cm with entitySignatures := mapSet cm.entitySignatures e sig }
      (ca.add frame e c).lift (fun ca1 => { cm1 with componentArray := cm1.componentArray.set idx ca1 })
    | _, _ => Outcome.panic Panic.indexOutOfRange cm

/-- Go `debugPrintComponent[T]`. -/
def debugPrintComponent (fmt : V → String) (frame : Nat) (cm : componentManager V) (t : Nat)
    (e : EntityID) : Except Panic String :=
  match getComponentIdx cm t with
  | .error p => .error p
  | .ok idx =>
    match cm.componentArray[idx]? with
    | none => .error Panic.indexOutOfRange
    | some ca => ca.debug fmt frame e

/-- Go `removeComponent[T]`. -/
def removeComponent (frame : Nat) (cm : componentManager V) (t : Nat) (e : EntityID) :
    Outcome (componentManager V) :=
  match getComponentIdx cm t with
  | .error p => Outcome.panic p cm
  | .ok idx =>
    match cm.componentArray[idx]?, cm.componentSignatures[idx]? with
    | some ca, some s =>
      let sig := sigOf cm.entitySignatures e &&& sigNot s
      let cm1 : componentManager V := { cm with entitySignatures := mapSet cm.entitySignatures e sig }
      (ca.remove frame e).lift (fun ca1 => { cm1 with componentArray := cm1.componentArray.set idx ca1 })
    | _, _ => Outcome.panic Panic.indexOutOfRange cm

/-- Go `registerComponent[T]`. -/
def registerComponent [Inhabited V] (cm : componentManager V) (t : Nat) :
    Outcome (componentManager V) :=
  if hasComponentArray cm t then Outcome.panic (Panic.alreadyRegistered t) cm
  else
    let arrs := cm.componentArray ++ [componentArray.new V]
    let cm1 : componentManager V :=
      { cm with
        componentArray := arrs
        componentSignatures := cm.componentSignatures ++ [cm.sig]
        componentToIdx := mapSet cm.componentToIdx t (arrs.length - 1)
        sig := (Signature.Next cm.sig).1 }
    if (Signature.Next cm.sig).2 then Outcome.ok cm1
    else Outcome.panic Panic.signatureOverflow cm1

/-- Go `getComponent[T]`, dereferenced. -/
def getComponent (frame : Nat) (cm : componentManager V) (t : Nat) (e : EntityID) :
    Except Panic (Option V) :=
  match getComponentIdx cm t with
  | .error p => .error p
  | .ok idx =>
    match cm.componentArray[idx]? with
    | none => .error Panic.indexOutOfRange
    | some ca => ca.Get frame e

/-- A non-nil pointer `&ca.entities[slot].Component` returned by Go
`componentArray.Get`: `store` is the position of the store `ca` in
`cm.componentArray`, `slot` the position of the slot, and `cap` the length of
the backing array of `ca.entities` at the moment of the call.  The pointer
keeps pointing into that backing array.  `add` is the only function that
gives a store another backing array, and the new one is twice as long; so the
backing arrays a store has had differ in length, and `cap` tells which of them
the pointer points into. -/
structure componentRef where
  store : Nat
  cap : Nat
  slot : Nat
  deriving DecidableEq, Repr

/-- The pointer returned by Go `getComponent[T]` (`none` is the nil pointer). -/
def getComponentRef (frame : Nat) (cm : componentManager V) (t : Nat) (e : EntityID) :
    Except Panic (Option componentRef) :=
  match getComponentIdx cm t with
  | .error p => .error p
  | .ok idx =>
    match cm.componentArray[idx]? with
    | none => .error Panic.indexOutOfRange
    | some ca =>
      match ca.GetRef frame e with
      | .error p => .error p
      | .ok none => .ok none
      | .ok (some slot) => .ok (some { store := idx, cap := ca.entities.length, slot := slot })

/-- Go `hasComponent[T]`. -/
def hasComponent (frame : Nat) (cm : componentManager V) (t : Nat) (e : EntityID) :
    Except Panic Bool :=
  match getComponentIdx cm t with
  | .error p => .error p
  | .ok idx =>
    match cm.componentArray[idx]? with
    | none => .error Panic.indexOutOfRange
    | some ca => ca.has frame e

/-- Go `getComponentSignature[T]`. -/
def getComponentSignature (cm : componentManager V) (t : Nat) : Except Panic Signature :=
  match getComponentIdx cm t with
  | .error p => .error p
  | .ok idx =>
    match cm.componentSignatures[idx]? with
    | none => .error Panic.indexOutOfRange
    | some s => .ok s

end componentManagerOps

/-- Go `entityManager`. -/
structure entityManager where
  idx : Nat

/-- Go `entityManager.newEntity`: the id handed out and the manager after the
increment. -/
def entityManager.newEntity (em : entityManager) : EntityID × entityManager :=
  (em.idx, { idx := (em.idx + 1) % 2 ^ 64 })

/-! ## systems.go -/

/-- Go `systemManager`.  A registered system (a value of the interface
`SystemType`) is represented by the `TypeID` of its type; what its `Update`
method does is a parameter of `World.RunUpdate`. -/
structure systemManager where
  systems : List Nat
  systemEntities : List (List EntityID)
  systemEntitySet : List (Nat → Option Nat)
  systemSignatures : List Signature
  systemIdx : Nat → Option Nat

/-- Go `newSystemManager`. -/
def newSystemManager : systemManager :=
  { systems := []
    systemEntities := []
    systemEntitySet := []
    systemSignatures := []
    systemIdx := mapEmpty }

/-- Go `getSystemIdx[T]`. -/
def getSystemIdx (sm : systemManager) (t : Nat) : Except Panic Nat :=
  match sm.systemIdx t with
  | none => .error (Panic.notRegistered t)
  | some idx => .ok idx

/-- Go `registerSystem[T]`; `s` is the `TypeID` of the system. -/
def registerSystem (sm : systemManager) (s : Nat) (sig : Signature) : Outcome systemManager :=
  if (sm.systemIdx s).isSome then Outcome.panic (Panic.systemAlreadyRegistered s) sm
  else
    Outcome.ok
      { systems := sm.systems ++ [s]
        systemEntities := sm.systemEntities ++ [[]]
        systemSignatures := sm.systemSignatures ++ [sig]
        systemEntitySet := sm.systemEntitySet ++ [mapEmpty]
        systemIdx := mapSet sm.systemIdx s sm.systems.length }

/-- The body of the loop of Go `systemManager.addEntity` for system `i`. -/
def systemManager.addEntityAt (e : EntityID) (sig : Signature) (i : Nat) (sm : systemManager) :
    Outcome systemManager :=
  match sm.systemSignatures[i]? with
  | none => Outcome.panic Panic.indexOutOfRange sm
  | some s =>
    if s &&& sig ≠ s then Outcome.ok sm
    else
      match sm.systemEntitySet[i]? with
      | none => Outcome.panic Panic.indexOutOfRange sm
      | some set =>
        if (set e).isSome then Outcome.ok sm
        else
          match sm.systemEntities[i]? with
          | none => Outcome.panic Panic.indexOutOfRange sm
          | some ents =>
            Outcome.ok
              { sm with
                systemEntities := sm.systemEntities.set i (ents ++ [e])
                systemEntitySet := sm.systemEntitySet.set i (mapSet set e ents.length) }

/-- Go `systemManager.addEntity`. -/
def systemManager.addEntity (sm : systemManager) (e : EntityID) (sig : Signature) :
    Outcome systemManager :=
  forEach (systemManager.addEntityAt e sig) (List.range sm.systems.length) sm

/-- The body of the loop of Go `systemManager.removeEntity` for system `i`:
the reverse index entry of the last entity is overwritten with the position of
`e` and the list is cut by one; nothing else is written. -/
def systemManager.removeEntityAt (e : EntityID) (sig : Signature) (i : Nat)
    (sm : systemManager) : Outcome systemManager :=
  match sm.systemSignatures[i]? with
  | none => Outcome.panic Panic.indexOutOfRange sm
  | some s =>
    if s &&& sig ≠ s then Outcome.ok sm
    else
      match sm.systemEntitySet[i]? with
      | none => Outcome.panic Panic.indexOutOfRange sm
      | some set =>
        match set e with
        | none => Outcome.ok sm
        | some idx =>
          match sm.systemEntities[i]? with
          | none => Outcome.panic Panic.indexOutOfRange sm
          | some ents =>
            match ents.getLast? with
            | none => Outcome.panic Panic.indexOutOfRange sm
            | some lastEntity =>
              Outcome.ok
                { sm with
                  systemEntitySet := sm.systemEntitySet.set i (mapSet set lastEntity idx)
                  systemEntities := sm.systemEntities.set i ents.dropLast }

/-- Go `systemManager.removeEntity`. -/
def systemManager.removeEntity (sm : systemManager) (e : EntityID) (sig : Signature) :
    Outcome systemManager :=
  forEach (systemManager.removeEntityAt e sig) (List.range sm.systems.length) sm

/-! ## util.go -/

/-- A Go type as far as the package can tell types apart: `name` identifies
the type, `isInterface` says whether it is an interface type. -/
structure GoType where
  name : Nat
  isInterface : Bool
  deriving DecidableEq, Repr

/-- Go `reflect.TypeOf(t)` for `var t T`, the zero value of `T`.  The zero
value of an interface type is the nil interface, for which `reflect.TypeOf`
returns nil (`none`), whatever the interface type is; the zero value of any
other type has the dynamic type `T`. -/
def GoType.reflectTypeOfZero (T : GoType) : Option GoType :=
  if T.isInterface then none else some T

/-- The package-level variables of util.go: `typeIDCounter` and `typeIDCache`,
a `map[reflect.Type]uint64` (nil is a key like any other). -/
structure typeIDState where
  typeIDCounter : Nat
  typeIDCache : Option GoType → Option Nat

/-- The variables of util.go when the program starts. -/
def typeIDState.init : typeIDState :=
  { typeIDCounter := 0, typeIDCache := fun _ => none }

/-- Go `TypeID(v)`, where `typ` is `reflect.TypeOf(v)`: the id in the cache if
there is one, else the incremented counter, which is entered in the cache.
The result is the id and the variables after the call. -/
def TypeID (st : typeIDState) (typ : Option GoType) : Nat × typeIDState :=
  match st.typeIDCache typ with
  | some id => (id, st)
  | none =>
    let id := (st.typeIDCounter + 1) % 2 ^ 64
    (id, { typeIDCounter := id,
           typeIDCache := fun k => if k = typ then some id else st.typeIDCache k })

/-- The ids in the cache are positive, at most the counter, and no two keys
share an id. -/
structure typeIDState.Inv (st : typeIDState) : Prop where
  bound : ∀ k id, st.typeIDCache k = some id → 0 < id ∧ id ≤ st.typeIDCounter
  inj : ∀ k1 k2 id, st.typeIDCache k1 = some id → st.typeIDCache k2 = some id → k1 = k2

/-! ## singleton.go, init_systems.go -/

/-- Go `singletonManager`, a `map[uint64]any`.  An entry is a `singleton[T]`
for some type `T`: the pair of `T`, the dynamic type of the entry, and the
pointer that was registered. -/
structure singletonManager (V : Type) where
  values : Nat → Option (GoType × V)

/-- Go `newSingletonManager`. -/
def newSingletonManager (V : Type) : singletonManager V := { values := mapEmpty }

/-- Go `registerSingleton[T]`: `name := TypeID(t)` for the zero value `t` of
`T`, then `sm.values[name] = singleton[T]{value: s}`. -/
def registerSingleton {V : Type} (st : typeIDState) (sm : singletonManager V) (T : GoType)
    (s : V) : singletonManager V × typeIDState :=
  let name := TypeID st T.reflectTypeOfZero
  ({ values := mapSet sm.values name.1 (T, s) }, name.2)

/-- Go `getSingleton[T]`: `name := TypeID(t)` for the zero value `t` of `T`,
then the type assertion `sm.values[name].(singleton[T])`, which fails when the
key is absent and when the entry is a `singleton[U]` of another type `U`. -/
def getSingleton {V : Type} (st : typeIDState) (sm : singletonManager V) (T : GoType) :
    Except Panic V × typeIDState :=
  let name := TypeID st T.reflectTypeOfZero
  match sm.values name.1 with
  | none => (.error (Panic.singletonNotRegistered T.name), name.2)
  | some (U, v) =>
    if U = T then (.ok v, name.2)
    else (.error (Panic.singletonNotRegistered T.name), name.2)

/-- Go `initSystemManger`; an init system is represented by a handle, what its
`Init` method does is a parameter of `World.Init`. -/
structure initSystemManger where
  systems : List Nat

/-- Go `newInitSystemManager`. -/
def newInitSystemManager : initSystemManger := { systems := [] }

/-- Go `initSystemManger.registerSystem`. -/
def initSystemManger.registerSystem (ism : initSystemManger) (s : Nat) : initSystemManger :=
  { systems := ism.systems ++ [s] }

/-! ## core.go : the world -/

/-- Go `oplogKind`. -/
inductive oplogKind where
  | Delete
  | Add
  deriving DecidableEq, Repr

/-- Go `oplogEntry`. -/
structure oplogEntry where
  Kind : oplogKind
  Entity : EntityID
  Sig : Signature
  deriving DecidableEq, Repr

/-- Go `World`. -/
structure World (V : Type) where
  em : entityManager
  cm : componentManager V
  sm : systemManager
  ism : initSystemManger
  sing : singletonManager V
  oplog : List oplogEntry
  frame : Nat

/-- Go `UpdateState`; `DeltaTime` is the bit pattern of the `float32`. -/
structure UpdateState (V : Type) where
  World : World V
  Entities : List EntityID
  DeltaTime : Nat

/-- Go `New`. -/
def New (V : Type) : World V :=
  { em := { idx := 0 }
    cm := newComponentManager V
    sm := newSystemManager
    ism := newInitSystemManager
    sing := newSingletonManager V
    oplog := []
    frame := 0 }

namespace World

variable {V : Type}

/-- The loop over the oplog in Go `World.cleanup`. -/
def applyOplog (sm : systemManager) (oplog : List oplogEntry) : Outcome systemManager :=
  forEach
    (fun (op : oplogEntry) (m : systemManager) =>
      match op.Kind with
      | oplogKind.Add => m.addEntity op.Entity op.Sig
      | oplogKind.Delete => m.removeEntity op.Entity op.Sig)
    oplog sm

/-- Go `World.cleanup`. -/
def cleanup (w : World V) : Outcome (World V) :=
  match applyOplog w.sm w.oplog with
  | Outcome.panic p sm1 => Outcome.panic p { w with sm := sm1 }
  | Outcome.ok sm1 =>
    (w.cm.prune).lift (fun cm1 => { w with sm := sm1, oplog := [], cm := cm1 })

/-- The first two statements of Go `World.Init` and the last two of Go
`World.RunUpdate`: `w.cleanup(); w.frame++`. -/
def cleanupTick (w : World V) : Outcome (World V) :=
  match w.cleanup with
  | Outcome.panic p w1 => Outcome.panic p w1
  | Outcome.ok w1 => Outcome.ok { w1 with frame := (w1.frame + 1) % 2 ^ 64 }

/-- Go `World.Init`; `ini s w` is what `Init` of the init system `s` does to
the world. -/
def Init (ini : Nat → World V → Outcome (World V)) (w : World V) : Outcome (World V) :=
  match w.cleanupTick with
  | Outcome.panic p w1 => Outcome.panic p w1
  | Outcome.ok w1 => forEach ini w1.ism.systems w1

/-- The loop over the systems in Go `World.RunUpdate`, with a record of the
`Entities` field handed to each `Update` call (the second component, which is
not part of the program state).  `upd s us` is what `Update` of the system `s`
does to the world `us.World`. -/
def runSystems (upd : Nat → UpdateState V → Outcome (World V)) (dt : Nat) :
    List (Nat × Nat) → World V × List (Nat × List EntityID) →
    Outcome (World V × List (Nat × List EntityID))
  | [], st => Outcome.ok st
  | (i, s) :: rest, (w, calls) =>
    match w.sm.systemEntities[i]? with
    | none => Outcome.panic Panic.indexOutOfRange (w, calls)
    | some entities =>
      match upd s { World := w, Entities := entities, DeltaTime := dt } with
      | Outcome.panic p w1 => Outcome.panic p (w1, calls ++ [(s, entities)])
      | Outcome.ok w1 => runSystems upd dt rest (w1, calls ++ [(s, entities)])

/-- Go `World.RunUpdate`, together with the record of the `Update` calls made
(system, `Entities` handed to it). -/
def RunUpdateCalls (upd : Nat → UpdateState V → Outcome (World V)) (w : World V) (dt : Nat) :
    Outcome (World V × List (Nat × List EntityID)) :=
  match runSystems upd dt w.sm.systems.enum (w, []) with
  | Outcome.panic p st => Outcome.panic p st
  | Outcome.ok (w1, calls) => (cleanupTick w1).lift (fun w2 => (w2, calls))

/-- Go `World.RunUpdate`. -/
def RunUpdate (upd : Nat → UpdateState V → Outcome (World V)) (w : World V) (dt : Nat) :
    Outcome (World V) :=
  (RunUpdateCalls upd w dt).lift Prod.fst

/-- Go `NewEntity`: the id returned and the world afterwards. -/
def NewEntity (w : World V) : EntityID × World V :=
  (w.em.newEntity.1, { w with em := w.em.newEntity.2 })

/-- Go `RegisterComponent[T]`. -/
def RegisterComponent [Inhabited V] (w : World V) (t : Nat) : Outcome (World V) :=
  (registerComponent w.cm t).lift (fun cm1 => { w with cm := cm1 })

/-- Go `AddComponent[T]`. -/
def AddComponent [Inhabited V] (w : World V) (t : Nat) (e : EntityID) (c : V) :
    Outcome (World V) :=
  match addComponent w.frame w.cm t e c with
  | Outcome.panic p cm1 => Outcome.panic p { w with cm := cm1 }
  | Outcome.ok cm1 =>
    Outcome.ok
      { w with
        cm := cm1
        oplog := w.oplog ++
          [{ Kind := oplogKind.Add, Entity := e, Sig := sigOf cm1.entitySignatures e }] }

/-- Go `RemoveComponent[T]`. -/
def RemoveComponent (w : World V) (t : Nat) (e : EntityID) : Outcome (World V) :=
  let sig := sigOf w.cm.entitySignatures e
  match removeComponent w.frame w.cm t e with
  | Outcome.panic p cm1 => Outcome.panic p { w with cm := cm1 }
  | Outcome.ok cm1 =>
    Outcome.ok
      { w with
        cm := cm1
        oplog := w.oplog ++ [{ Kind := oplogKind.Delete, Entity := e, Sig := sig }] }

/-- Go `GetComponent[T]`, dereferenced (`none` is the nil pointer). -/
def GetComponent (w : World V) (t : Nat) (e : EntityID) : Except Panic (Option V) :=
  getComponent w.frame w.cm t e

/-- Go `MustGetComponent[T]`, dereferenced. -/
def MustGetComponent (w : World V) (t : Nat) (e : EntityID) : Except Panic V :=
  match getComponent w.frame w.cm t e with
  | .error p => .error p
  | .ok none => .error (Panic.mustGetFailed e)
  | .ok (some c) => .ok c

/-- The pointer returned by Go `GetComponent[T]` (`none` is the nil
pointer). -/
def GetComponentRef (w : World V) (t : Nat) (e : EntityID) : Except Panic (Option componentRef) :=
  getComponentRef w.frame w.cm t e

/-- An assignment `*p = c` made by a caller through a pointer `p` obtained
from `GetComponent` at some earlier moment.  When the store still has the
backing array the pointer points into, slot `p.slot` of the store receives
`c`, whichever entity the slot belongs to now.  When the store has grown
since, the value is written into the array the store has left behind and the
world does not change. -/
def WriteRef (w : World V) (p : componentRef) (c : V) : World V :=
  match w.cm.componentArray[p.store]? with
  | none => w
  | some ca =>
    if ca.entities.length = p.cap then
      { w with cm := { w.cm with componentArray := w.cm.componentArray.set p.store (ca.store p.slot c) } }
    else w

/-- Go `len(ca.entities)` for the store at position `i` of
`cm.componentArray`. -/
def capOf (w : World V) (i : Nat) : Option Nat :=
  (w.cm.componentArray[i]?).map (fun ca => ca.entities.length)

/-- The single statement `*ecs.GetComponent[T](w, e) = c` of a caller: the
pointer is fetched and written through at once; a nil pointer cannot be
written through. -/
def SetComponent (w : World V) (t : Nat) (e : EntityID) (c : V) : Outcome (World V) :=
  match w.GetComponentRef t e with
  | .error p => Outcome.panic p w
  | .ok none => Outcome.panic Panic.nilDereference w
  | .ok (some p) => Outcome.ok (w.WriteRef p c)

/-- Go `RemoveEntity`. -/
def RemoveEntity (w : World V) (e : EntityID) : Outcome (World V) :=
  let sig := sigOf w.cm.entitySignatures e
  match w.cm.removeEntity w.frame e with
  | Outcome.panic p cm1 => Outcome.panic p { w with cm := cm1 }
  | Outcome.ok cm1 =>
    Outcome.ok
      { w with
        cm := cm1
        oplog := w.oplog ++ [{ Kind := oplogKind.Delete, Entity := e, Sig := sig }] }

/-- Go `DebugComponent[T]`. -/
def DebugComponent (fmt : V → String) (w : World V) (t : Nat) (e : EntityID) :
    Except Panic String :=
  debugPrintComponent fmt w.frame w.cm t e

/-- Go `RegisterSystem[T]`; `s` is the `TypeID` of the system. -/
def RegisterSystem (w : World V) (s : Nat) (sig : Signature) : Outcome (World V) :=
  match registerSystem w.sm s sig with
  | Outcome.panic p sm1 => Outcome.panic p { w with sm := sm1 }
  | Outcome.ok sm1 =>
    match getSystemIdx sm1 s, w.cm.iterateEntities w.frame sig with
    | .ok idx, .ok seeds =>
      match sm1.systemEntities[idx]? with
      | none => Outcome.panic Panic.indexOutOfRange { w with sm := sm1 }
      | some ents =>
        Outcome.ok { w with sm := { sm1 with systemEntities := sm1.systemEntities.set idx (ents ++ seeds) } }
    | .error p, _ => Outcome.panic p { w with sm := sm1 }
    | _, .error p => Outcome.panic p { w with sm := sm1 }

/-- Go `HasComponent[T]`. -/
def HasComponent (w : World V) (t : Nat) (e : EntityID) : Except Panic Bool :=
  hasComponent w.frame w.cm t e

/-- Go `RegisterInitSystem`. -/
def RegisterInitSystem (w : World V) (s : Nat) : World V :=
  { w with ism := w.ism.registerSystem s }

/-- Go `RegisterSingleton[T]`; `st` holds the variables of util.go at the
call, the second component of the result the variables after it. -/
def RegisterSingleton (st : typeIDState) (w : World V) (T : GoType) (singleton : V) :
    World V × typeIDState :=
  let r := registerSingleton st w.sing T singleton
  ({ w with sing := r.1 }, r.2)

/-- Go `GetSingleton[T]`. -/
def GetSingleton (st : typeIDState) (w : World V) (T : GoType) :
    Except Panic V × typeIDState :=
  getSingleton st w.sing T

/-- Go `Sig[T]`. -/
def Sig (w : World V) (t : Nat) : Except Panic Signature :=
  getComponentSignature w.cm t

end World

/-! ## Programs over the public interface

Everything a client of the package can do to a world is a sequence of calls of
the exported functions.  `Init` and `RunUpdate` are `cleanup(); frame++`
surrounded by calls the registered systems make, so a run of a client is a
sequence of the calls below. -/

/-- One call of an exported function that changes the world, or one write
through a pointer that `GetComponent` returned: `setComponent` is the statement
`*ecs.GetComponent[T](w, e) = c`, `writeRef` an assignment `*p = c` through a
pointer fetched earlier (the pointers a client holds are those that earlier
`GetComponent` calls returned; `writeRef` takes any).  A call of
`RegisterSingleton[T]` carries the variables `st` of util.go at the call. -/
inductive Op (V : Type) where
  | registerComponent (t : Nat)
  | newEntity
  | addComponent (t : Nat) (e : EntityID) (c : V)
  | removeComponent (t : Nat) (e : EntityID)
  | setComponent (t : Nat) (e : EntityID) (c : V)
  | writeRef (p : componentRef) (c : V)
  | removeEntity (e : EntityID)
  | registerSystem (s : Nat) (sig : Signature)
  | registerInitSystem (s : Nat)
  | registerSingleton (st : typeIDState) (T : GoType) (v : V)
  | cleanupTick

/-- The effect of one call. -/
def Op.apply {V : Type} [Inhabited V] : Op V → World V → Outcome (World V)
  | Op.registerComponent t, w => w.RegisterComponent t
  | Op.newEntity, w => Outcome.ok w.NewEntity.2
  | Op.addComponent t e c, w => w.AddComponent t e c
  | Op.removeComponent t e, w => w.RemoveComponent t e
  | Op.setComponent t e c, w => w.SetComponent t e c
  | Op.writeRef p c, w => Outcome.ok (w.WriteRef p c)
  | Op.removeEntity e, w => w.RemoveEntity e
  | Op.registerSystem s sig, w => w.RegisterSystem s sig
  | Op.registerInitSystem s, w => Outcome.ok (w.RegisterInitSystem s)
  | Op.registerSingleton st T v, w => Outcome.ok (World.RegisterSingleton st w T v).1
  | Op.cleanupTick, w => w.cleanupTick

/-- A sequence of calls; the run ends at the first panic. -/
def runOps {V : Type} [Inhabited V] (ops : List (Op V)) (w : World V) : Outcome (World V) :=
  forEach Op.apply ops w

/-- The worlds a client can reach from `New()` by calls that return. -/
def Reachable {V : Type} [Inhabited V] (w : World V) : Prop :=
  ∃ ops : List (Op V), runOps ops (New V) = Outcome.ok w

/-- The ids returned by the `NewEntity` calls of a sequence of calls, in
order.  A call that panics leaves its state behind and the sequence goes on
from there (the client recovered). -/
def issuedIds {V : Type} [Inhabited V] : List (Op V) → World V → List EntityID
  | [], _ => []
  | Op.newEntity :: ops, w => w.NewEntity.1 :: issuedIds ops w.NewEntity.2
  | op :: ops, w => issuedIds ops (op.apply w).state

/-! ## The types of example_test.go -/

/-- The component values of the examples: `Player{X, Y}` and
`Inventory{Food}`; `zero` stands for the zero value of an unused slot. -/
inductive Val where
  | zero
  | Player (X Y : Int)
  | Inventory (Food : Int)
  deriving DecidableEq, Repr

instance : Inhabited Val := ⟨Val.zero⟩

/-- The `TypeID` of `Player` (the first type the registry sees). -/
def tPlayer : Nat := 1

/-- The `TypeID` of `Inventory`. -/
def tInventory : Nat := 2

/-! ## Registration state and client-side helpers -/

section helpers

variable {V : Type}

/-- The second manager has the registrations of the first. -/
structure SameShape (a b : componentManager V) : Prop where
  toIdx : b.componentToIdx = a.componentToIdx
  sigs : b.componentSignatures = a.componentSignatures
  len : b.componentArray.length = a.componentArray.length
  sig : b.sig = a.sig

/-- The component types registered by a sequence of calls, in order. -/
def regTypes : List (Op V) → List Nat
  | [] => []
  | Op.registerComponent t :: ops => t :: regTypes ops
  | _ :: ops => regTypes ops

/-- The registration state after the types `ts` were registered in this
order by calls that returned. -/
structure RegInv (cm : componentManager V) (ts : List Nat) : Prop where
  len : cm.componentArray.length = ts.length
  sigs : cm.componentSignatures = (List.range ts.length).map (fun i => 2 ^ i)
  toIdx : ∀ t i, cm.componentToIdx t = some i ↔ ts[i]? = some t
  nodup : ts.Nodup
  sig : cm.sig = 2 ^ ts.length
  lt : ts.length < 64

/-- The signature a client composes as `Sig[A](w) | Sig[B](w) | ...`,
starting from `acc`. -/
def composeSigsFrom (w : World V) : List Nat → Signature → Except Panic Signature
  | [], acc => .ok acc
  | u :: us, acc =>
    match w.Sig u with
    | .ok s => composeSigsFrom w us (acc ||| s)
    | .error p => .error p

/-- The signature a client composes as `Sig[A](w) | Sig[B](w) | ...`. -/
def composeSigs (w : World V) (us : List Nat) : Except Panic Signature :=
  composeSigsFrom w us 0

deriving instance DecidableEq for Except

/-- The rendering `%+v` of the example values. -/
def fmtVal : Val → String
  | Val.zero => "\x7b\x7d"
  | Val.Player x y => "\x7bX:" ++ toString x ++ " Y:" ++ toString y ++ "\x7d"
  | Val.Inventory f => "\x7bFood:" ++ toString f ++ "\x7d"

/-- The calls of `ExampleRemoveComponent` up to and including `w.Init()`. -/
def exampleRemoveOps : List (Op Val) :=
  [Op.registerComponent tPlayer, Op.registerComponent tInventory, Op.newEntity,
   Op.addComponent tPlayer 0 (Val.Player 200 400), Op.addComponent tInventory 0 (Val.Inventory 2),
   Op.cleanupTick]

/-- The world of `ExampleRemoveComponent` after `w.Init()`. -/
def exampleRemoveWorld : World Val := (runOps exampleRemoveOps (New Val)).state

/-- The calls of `ExampleGetComponent` up to and including `w.Init()`. -/
def exampleGetOps : List (Op Val) :=
  [Op.registerComponent tPlayer, Op.registerComponent tInventory, Op.newEntity,
   Op.addComponent tPlayer 0 (Val.Player 200 400), Op.cleanupTick]

/-- The world of `ExampleGetComponent` after `w.Init()`. -/
def exampleGetWorld : World Val := (runOps exampleGetOps (New Val)).state

/-- A system whose `Update` leaves the world alone. -/
def idleUpdate (_s : Nat) (us : UpdateState Val) : Outcome (World Val) := Outcome.ok us.World

/-- The `TypeID` of the system `PrintPlayerSystem` of example_test.go. -/
def tPrintPlayerSystem : Nat := 3

/-- Update barrier scenario: `PrintPlayerSystem` subscribes to
`Player | Inventory`; entity 0 holds `Player`, entity 1 holds both.  After
`Init`, in tick 1, `Inventory` is added to entity 0 and removed from entity 1. -/
def barrierSetup : Outcome (World Val) :=
  runOps
    [Op.registerComponent tPlayer, Op.registerComponent tInventory,
     Op.registerSystem tPrintPlayerSystem (1 ||| 2),
     Op.newEntity, Op.newEntity,
     Op.addComponent tPlayer 0 (Val.Player 200 400),
     Op.addComponent tPlayer 1 (Val.Player 300 500),
     Op.addComponent tInventory 1 (Val.Inventory 6),
     Op.cleanupTick,
     Op.addComponent tInventory 0 (Val.Inventory 10),
     Op.removeComponent tInventory 1]
    (New Val)

/-- The `RunUpdate` of tick 1 in the update barrier scenario. -/
def barrierTick1 : Outcome (World Val × List (Nat × List EntityID)) :=
  World.RunUpdateCalls idleUpdate barrierSetup.state 0

/-- The `RunUpdate` of tick 2 in the update barrier scenario. -/
def barrierTick2 : Outcome (World Val × List (Nat × List EntityID)) :=
  World.RunUpdateCalls idleUpdate barrierTick1.state.1 0

/-- Signature containment scenario: a system subscribes to `Player` alone;
entity 0 holds `Player` and `Inventory`; after `Init`, `Inventory` is removed
from entity 0 and one cleanup pass runs. -/
def containmentRun : Outcome (World Val) :=
  runOps
    [Op.registerComponent tPlayer, Op.registerComponent tInventory,
     Op.registerSystem tPrintPlayerSystem 1,
     Op.newEntity,
     Op.addComponent tPlayer 0 (Val.Player 200 400),
     Op.addComponent tInventory 0 (Val.Inventory 2),
     Op.cleanupTick,
     Op.removeComponent tInventory 0,
     Op.cleanupTick]
    (New Val)

/-- Entity removal scenario: `Player` and `Inventory` are registered, entity 0
holds `Player` only, `Init` has run. -/
def partialOwnerWorld : World Val := exampleGetWorld

/-- Registration of 63 distinct component types (type ids 1 to 63) on a fresh
world. -/
def register63 : List (Op Val) := (List.range 63).map (fun k => Op.registerComponent (k + 1))

/-! ## Worlds with a single store, and the compaction scenario -/

/-- A world without systems whose component manager holds exactly one store,
`ca`, registered for type `t` with mask 1, at frame `f`. -/
structure OneStoreW (w : World V) (t f : Nat) (ca : componentArray V) : Prop where
  frame : w.frame = f
  nosys : w.sm.systems = []
  toIdx : w.cm.componentToIdx t = some 0
  sigs : w.cm.componentSignatures = [1]
  arr : w.cm.componentArray = [ca]

/-- A pointwise description of a store: capacity `L`, `n` used slots, dead
counter `d`, slot contents `slot`, index map `m`. -/
structure StoreDesc (ca : componentArray V) (L n d : Nat)
    (slot : Nat → Option (entityComponent V)) (m : Nat → Option Nat) : Prop where
  len : ca.entities.length = L
  idx : ca.idx = n
  deads : ca.deads = d
  slots : ∀ k, ca.entities[k]? = slot k
  map : ∀ e, ca.entityToIdx e = m e

/-- The component value every entity of the compaction scenario starts with. -/
def startValue : Val := Val.Player 200 400

/-- The component value added in the last tick of the compaction scenario. -/
def lateValue : Val := Val.Player 7 7

/-- Compaction scenario, up to the moment before the late `AddComponent`:
`Player` is registered, entities 0 to 513 are created and each is given a
`Player` (slots 0 to 513, the array doubles to 1024 at the 513th add), `Init`
runs; in tick 1 `Player` is removed from the entities 3 to 513 and the tick
ends (511 dead slots: no compaction); in tick 2 `Player` is removed from
entity 1 (512 dead slots). -/
def compactionOps : List (Op Val) :=
  [Op.registerComponent tPlayer] ++ List.replicate 514 Op.newEntity ++
  (List.range 514).map (fun e => Op.addComponent tPlayer e startValue) ++ [Op.cleanupTick] ++
  (List.range 511).map (fun k => Op.removeComponent tPlayer (k + 3)) ++
  [Op.cleanupTick, Op.removeComponent tPlayer 1]

/-- The world of the compaction scenario in tick 2, before the late add. -/
def compactionWorld : World Val := (runOps compactionOps (New Val)).state

/-- Capacity of the store after `j` adds. -/
def capA (j : Nat) : Nat := if j ≤ 512 then 512 else 1024

/-- Slot contents after the first `j` adds of the compaction scenario. -/
def slotsA (j k : Nat) : Option (entityComponent Val) :=
  if k < j then some { Id := k, Component := startValue, Alive := true, ChangedAt := 0 }
  else if k < capA j then some (entityComponent.zero Val) else none

/-- Index map after the first `j` adds of the compaction scenario. -/
def mapA (j e : Nat) : Option Nat := if e < j then some e else none

/-- Slot contents after the first `r` removals of tick 1. -/
def slotsB (r k : Nat) : Option (entityComponent Val) :=
  if k < 514 then
    (if 3 ≤ k ∧ k < 3 + r then
      some { Id := k, Component := startValue, Alive := false, ChangedAt := 1 }
    else some { Id := k, Component := startValue, Alive := true, ChangedAt := 0 })
  else if k < 1024 then some (entityComponent.zero Val) else none

/-- Slot contents in tick 2 after the removal on entity 1 and the late add on
entity 3. -/
def slotsD (k : Nat) : Option (entityComponent Val) :=
  if k = 514 then some { Id := 3, Component := lateValue, Alive := true, ChangedAt := 2 }
  else if k = 1 then some { Id := 1, Component := startValue, Alive := false, ChangedAt := 2 }
  else slotsB 511 k

/-- Slot contents in tick 2 after the removal on entity 1. -/
def slotsC (k : Nat) : Option (entityComponent Val) :=
  if k = 1 then some { Id := 1, Component := startValue, Alive := false, ChangedAt := 2 }
  else slotsB 511 k

/-- One when slot `j` exists and is alive, else zero. -/
def aliveFlag (ents : List (entityComponent V)) (j : Nat) : Nat :=
  match ents[j]? with
  | some s => if s.Alive then 1 else 0
  | none => 0

/-! ## Index-map well-formedness -/

/-- Index-map well-formedness of a store: the used-slot count is within the
array, and every index entry points below the used-slot count at a slot
carrying the entity's id. -/
structure IdxInv (ca : componentArray V) : Prop where
  idx_le : ca.idx ≤ ca.entities.length
  map : ∀ e k, ca.entityToIdx e = some k → k < ca.idx ∧ ∃ s, ca.entities[k]? = some s ∧ s.Id = e

/-- The store holds the value `v` for entity `e`, fetchable in frame `f`: the
indexed slot is alive and was not touched in frame `f`. -/
def Holds (ca : componentArray V) (f e : Nat) (v : V) : Prop :=
  ∃ k slot, ca.entityToIdx e = some k ∧ ca.entities[k]? = some slot ∧ slot.Alive = true ∧
    slot.ChangedAt ≠ f ∧ slot.Component = v

/-- The store holds the value `v` for entity `e` in slot `k`, fetchable in
frame `f`. -/
def HoldsAt (ca : componentArray V) (f e : Nat) (v : V) (k : Nat) : Prop :=
  ∃ slot, ca.entityToIdx e = some k ∧ ca.entities[k]? = some slot ∧ slot.Alive = true ∧
    slot.ChangedAt ≠ f ∧ slot.Component = v

/-- In world `w` the component of type `C` of entity `e` has the value `v`,
fetchable in the current frame, and sits in the store and the slot the pointer
`p` names. -/
def Targets (w : World V) (C e : Nat) (p : componentRef) (v : V) : Prop :=
  w.cm.componentToIdx C = some p.store ∧
  ∃ ca, w.cm.componentArray[p.store]? = some ca ∧ HoldsAt ca w.frame e v p.slot

/-- Every store of the manager has a well-formed index map. -/
def StoresInv (cm : componentManager V) : Prop :=
  ∀ (i : Nat) (ca : componentArray V), cm.componentArray[i]? = some ca → IdxInv ca

/-- The calls that neither end the tick nor remove the component of type `C`
of entity `e`: no cleanup, no `RemoveComponent[C]` or `RemoveEntity` for
`e`. -/
def Op.stays (C e : Nat) : Op V → Bool
  | Op.cleanupTick => false
  | Op.removeComponent t e1 => !(t == C && e1 == e)
  | Op.removeEntity e1 => !(e1 == e)
  | _ => true

/-- The calls that neither end the tick nor remove or overwrite the component
of type `C` of entity `e`, to which the pointer `p` points: no cleanup, no
`RemoveComponent[C]` or `RemoveEntity` for `e`, no assignment
`*ecs.GetComponent[C](w, e) = c` and no assignment through a pointer to the
slot of `p`. -/
def Op.keeps (C e : Nat) (p : componentRef) : Op V → Bool
  | Op.cleanupTick => false
  | Op.removeComponent t e1 => !(t == C && e1 == e)
  | Op.removeEntity e1 => !(e1 == e)
  | Op.setComponent t e1 _ => !(t == C && e1 == e)
  | Op.writeRef q _ => !(q.store == p.store && q.slot == p.slot)
  | _ => true

/-- The struct type `WindowSettings` of the engine, registered as a
singleton. -/
def tWindowSettings : GoType := { name := 9, isInterface := false }

/-- The pointer `playerComponent` that `ExampleGetComponent` fetches after
`Init`: slot 0 of the store of `Player`, whose array has 512 slots. -/
def exampleGetRef : componentRef := { store := 0, cap := 512, slot := 0 }

/-- Calls made in the tick of `ExampleGetComponent` between the fetch of the
pointer and the write through it: another value is written to the player's
`Player`, an entity is created and receives a `Player`, which does not make
the store grow. -/
def exampleGetMid : List (Op Val) :=
  [Op.setComponent tPlayer 0 (Val.Player 1 1), Op.newEntity,
   Op.addComponent tPlayer 1 (Val.Player 1 1)]

/-- The world of `ExampleGetComponent` at the write through the pointer. -/
def exampleGetMidWorld : World Val := (runOps exampleGetMid exampleGetWorld).state

/-- Calls made in the tick of `ExampleGetComponent` after the player was
changed through the pointer: none of them ends the tick, removes the player's
`Player` or writes to it. -/
def exampleGetLater : List (Op Val) :=
  [Op.newEntity, Op.addComponent tPlayer 2 (Val.Player 2 2),
   Op.addComponent tInventory 0 (Val.Inventory 3),
   Op.registerSingleton typeIDState.init tWindowSettings (Val.Inventory 0),
   Op.registerSystem tPrintPlayerSystem (1 ||| 2)]

/-- The world of `ExampleGetComponent` after the write through the pointer
and the later calls of the tick. -/
def exampleGetLaterWorld : World Val :=
  (runOps exampleGetLater (exampleGetMidWorld.WriteRef exampleGetRef (Val.Player 220 200))).state

/-- The world of `ExampleGetComponent` after the write of `{220, 200}` through
the pointer, made right after the fetch, and a second write, of `{1, 1}`, by
the statement `*ecs.GetComponent[Player](w, player) = Player{1, 1}`. -/
def exampleGetOverwritten : World Val :=
  ((exampleGetWorld.WriteRef exampleGetRef (Val.Player 220 200)).SetComponent tPlayer 0
    (Val.Player 1 1)).state

/-- The world of `ExampleGetComponent` after the write through the pointer,
made right after the fetch, and a call `RemoveComponent[Player](w, player)` in
the same tick. -/
def exampleGetRemoved : World Val :=
  ((exampleGetWorld.WriteRef exampleGetRef (Val.Player 220 200)).RemoveComponent tPlayer 0).state

/-- Stale pointer scenario: `Player` is registered, entities 0 to 512 are
created, the entities 0 to 511 each receive a `Player` (the 512 slots of the
array are in use), `Init` runs. -/
def stalePointerOps : List (Op Val) :=
  [Op.registerComponent tPlayer] ++ List.replicate 513 Op.newEntity ++
  (List.range 512).map (fun e => Op.addComponent tPlayer e startValue) ++ [Op.cleanupTick]

/-- Second update barrier scenario: entities 0 and 1 hold `Player` and
`Inventory` and are members of `PrintPlayerSystem` after `Init`; `Inventory`
is removed from entity 0 in tick 1 and from entity 1 in tick 2; in tick 3 the
only call is `AddComponent(1, Inventory{10})`. -/
def staleSetup : Outcome (World Val) :=
  runOps
    [Op.registerComponent tPlayer, Op.registerComponent tInventory,
     Op.registerSystem tPrintPlayerSystem (1 ||| 2),
     Op.newEntity, Op.newEntity,
     Op.addComponent tPlayer 0 (Val.Player 200 400),
     Op.addComponent tPlayer 1 (Val.Player 300 500),
     Op.addComponent tInventory 0 (Val.Inventory 2),
     Op.addComponent tInventory 1 (Val.Inventory 6),
     Op.cleanupTick,
     Op.removeComponent tInventory 0,
     Op.cleanupTick,
     Op.removeComponent tInventory 1,
     Op.cleanupTick,
     Op.addComponent tInventory 1 (Val.Inventory 10)]
    (New Val)

/-- The `RunUpdate` of tick 3 in the second update barrier scenario. -/
def staleTick3 : Outcome (World Val × List (Nat × List EntityID)) :=
  World.RunUpdateCalls idleUpdate staleSetup.state 0

/-- The `RunUpdate` of tick 4 in the second update barrier scenario. -/
def staleTick4 : Outcome (World Val × List (Nat × List EntityID)) :=
  World.RunUpdateCalls idleUpdate staleTick3.state.1 0

/-- The store has an indexed slot for `e` whose liveness flag is set. -/
def liveIn (ca : componentArray V) (e : Nat) : Prop :=
  ∃ k s, ca.entityToIdx e = some k ∧ ca.entities[k]? = some s ∧ s.Alive = true

deriving instance DecidableEq for entityComponent

/-- A store right after its first `add`: entity 7 received `Player{200, 400}`
in tick 0. -/
def storeAfterAdd : componentArray Val :=
  ((componentArray.new Val).add 0 7 (Val.Player 200 400)).state

/-- A fresh world in which `Player` is registered and `NewEntity` was never
called. -/
def noEntityWorld : World Val := (runOps [Op.registerComponent tPlayer] (New Val)).state

/-- Failed removal scenario: `Player` is the only registered type, entity 0
holds it, `Init` has run, and `RemoveEntity(w, 0)` has returned (tick 1). -/
def removedEntityWorld : World Val :=
  (runOps
    [Op.registerComponent tPlayer, Op.newEntity, Op.addComponent tPlayer 0 (Val.Player 200 400),
     Op.cleanupTick, Op.removeEntity 0]
    (New Val)).state

/-- Re-add scenario: `Player` is the only registered type and entity 0 holds
it after `Init`; in tick 1 `RemoveEntity(w, 0)` is followed by
`AddComponent(w, 0, Player{7, 7})`, and the tick ends. -/
def readdWorld : World Val :=
  (runOps
    [Op.registerComponent tPlayer, Op.newEntity, Op.addComponent tPlayer 0 (Val.Player 200 400),
     Op.cleanupTick, Op.removeEntity 0, Op.addComponent tPlayer 0 (Val.Player 7 7),
     Op.cleanupTick]
    (New Val)).state

/-- The world `w` with the signature-table entry of entity `e` overwritten by
`s`, everything else as in `w`. -/
def World.withSig (w : World V) (e : EntityID) (s : Signature) : World V :=
  { w with cm := { w.cm with entitySignatures := mapSet w.cm.entitySignatures e s } }

/-! ## Systems as programs -/

/-- The calls a system issues from `Update`: the structural mutations
(`AddComponent`, `RemoveComponent`, `RemoveEntity`), writes through a pointer
obtained from `GetComponent`, and `NewEntity`. -/
def Op.inUpdate : Op V → Bool
  | Op.addComponent _ _ _ => true
  | Op.removeComponent _ _ => true
  | Op.removeEntity _ => true
  | Op.setComponent _ _ _ => true
  | Op.writeRef _ _ => true
  | Op.newEntity => true
  | _ => false

/-- The `TypeID` of the system `ModifyPlayerSystem` of example_test.go. -/
def tModifyPlayerSystem : Nat := 4

/-- The calls of `ModifyPlayerSystem.Update` of example_test.go on the
entities handed to it: `AddComponent(e, Inventory{Food: 10})` for every entity
for which `HasComponent[Inventory]` is false at that moment. -/
def modifyPlayerCalls : World Val → List EntityID → List (Op Val)
  | _, [] => []
  | w, e :: es =>
    if w.HasComponent tInventory e = .ok true then modifyPlayerCalls w es
    else
      Op.addComponent tInventory e (Val.Inventory 10) ::
        modifyPlayerCalls (w.AddComponent tInventory e (Val.Inventory 10)).state es

/-- The calls the systems of `ExampleRegisterSystem_updateBarrier` issue from
`Update`; `PrintPlayerSystem` only reads. -/
def barrierCalls (s : Nat) (us : UpdateState Val) : List (Op Val) :=
  if s = tModifyPlayerSystem then modifyPlayerCalls us.World us.Entities else []

/-- The world of `ExampleRegisterSystem_updateBarrier` after `w.Init()`. -/
def barrierExampleWorld : World Val :=
  (runOps
    [Op.registerComponent tPlayer, Op.registerComponent tInventory, Op.newEntity,
     Op.addComponent tPlayer 0 (Val.Player 200 400),
     Op.registerSystem tModifyPlayerSystem 1,
     Op.registerSystem tPrintPlayerSystem (1 ||| 2),
     Op.cleanupTick]
    (New Val)).state

/-- The first `RunUpdate` of `ExampleRegisterSystem_updateBarrier`, with the
record of the `Update` calls made. -/
def barrierRun : Outcome (World Val × List (Nat × List EntityID)) :=
  World.RunUpdateCalls (fun s us => runOps (barrierCalls s us) us.World) barrierExampleWorld 0

/-- The world of `ExampleRegisterSystem` with the registration of the system
left out, after `w.Init()`: entity 0 holds `Player`, entity 1 holds `Player`
and `Inventory`, the tick counter is 1 and the oplog is empty. -/
def seedWorld : World Val :=
  (runOps
    [Op.registerComponent tPlayer, Op.registerComponent tInventory, Op.newEntity,
     Op.addComponent tPlayer 0 (Val.Player 200 400), Op.newEntity,
     Op.addComponent tPlayer 1 (Val.Player 300 500),
     Op.addComponent tInventory 1 (Val.Inventory 6), Op.cleanupTick]
    (New Val)).state

/-- The calls of `ExampleRegisterSystem` up to and including `w.Init()`: the
system is registered before `Init`. -/
def exampleRegisterOps : List (Op Val) :=
  [Op.registerComponent tPlayer, Op.registerComponent tInventory, Op.newEntity,
   Op.addComponent tPlayer 0 (Val.Player 200 400), Op.newEntity,
   Op.addComponent tPlayer 1 (Val.Player 300 500),
   Op.addComponent tInventory 1 (Val.Inventory 6),
   Op.registerSystem tPrintPlayerSystem (1 ||| 2), Op.cleanupTick]

/-- Swap-remove scenario: a system subscribes to `Player` (signature 1), the
entities 0, 1 and 2 hold `Player`, and `Init` has run. -/
def swapWorld : World Val :=
  (runOps
    [Op.registerComponent tPlayer, Op.registerSystem tPrintPlayerSystem 1,
     Op.newEntity, Op.newEntity, Op.newEntity,
     Op.addComponent tPlayer 0 (Val.Player 200 400),
     Op.addComponent tPlayer 1 (Val.Player 300 500),
     Op.addComponent tPlayer 2 (Val.Player 400 600), Op.cleanupTick]
    (New Val)).state

/-! ## Consistency of the membership index -/

/-- Consistency of the membership index: the per-system lists have one entry
for each registered system, and the reverse index of every system maps exactly
the entities of its list to their positions (so no entity is listed twice). -/
structure SysInv (sm : systemManager) : Prop where
  ents_len : sm.systemEntities.length = sm.systems.length
  set_len : sm.systemEntitySet.length = sm.systems.length
  sig_len : sm.systemSignatures.length = sm.systems.length
  index : ∀ (i : Nat) (ents : List EntityID) (set : Nat → Option Nat),
    sm.systemEntities[i]? = some ents → sm.systemEntitySet[i]? = some set →
    ∀ (e k : Nat), set e = some k ↔ ents[k]? = some e

/-- Two registered systems: `PrintPlayerSystem` subscribed to `Player`
(signature 1) and `ModifyPlayerSystem` subscribed to `Inventory`
(signature 2). -/
def twoSystems : systemManager :=
  (forEach (fun (p : Nat × Signature) (m : systemManager) => registerSystem m p.1 p.2)
    [(tPrintPlayerSystem, 1), (tModifyPlayerSystem, 2)] newSystemManager).state

/-- The membership index of `twoSystems` after the entities 0 and 1, both with
signature 1, were added, as cleanup does for two `Add` entries. -/
def memberIdx : systemManager :=
  (forEach (fun (e : EntityID) (m : systemManager) => m.addEntity e 1) [0, 1] twoSystems).state

/-- A membership index reached from a system registration by one `addEntity`
and one `removeEntity`: a system subscribed to signature 1 is registered,
entity 0 (signature 1) is added and removed again. -/
def emptiedIdx : systemManager :=
  (forEach
    (fun (op : oplogEntry) (m : systemManager) =>
      match op.Kind with
      | oplogKind.Add => m.addEntity op.Entity op.Sig
      | oplogKind.Delete => m.removeEntity op.Entity op.Sig)
    [{ Kind := oplogKind.Add, Entity := 0, Sig := 1 },
     { Kind := oplogKind.Delete, Entity := 0, Sig := 1 }]
    (registerSystem newSystemManager tPrintPlayerSystem 1).state).state

/-- Double removal scenario: a system subscribes to `Inventory` (signature 2),
entity 0 holds `Player` and `Inventory`, `Init` has run; in tick 1 both
components are removed from entity 0, `Player` first. -/
def doubleRemoveWorld : World Val :=
  (runOps
    [Op.registerComponent tPlayer, Op.registerComponent tInventory,
     Op.registerSystem tPrintPlayerSystem 2, Op.newEntity,
     Op.addComponent tPlayer 0 (Val.Player 200 400),
     Op.addComponent tInventory 0 (Val.Inventory 2),
     Op.cleanupTick, Op.removeComponent tPlayer 0, Op.removeComponent tInventory 0]
    (New Val)).state

/-- All-dead scenario: `Player` is registered, entities 0 to 513 are created
and each is given a `Player` (the array doubles to 1024 slots), `Init` runs;
in tick 1 `Player` is removed from every entity, first from the entities 3 to
513, then from 0, 1 and 2. -/
def allDeadOps : List (Op Val) :=
  [Op.registerComponent tPlayer] ++ List.replicate 514 Op.newEntity ++
  (List.range 514).map (fun e => Op.addComponent tPlayer e startValue) ++ [Op.cleanupTick] ++
  (List.range 511).map (fun k => Op.removeComponent tPlayer (k + 3)) ++
  [Op.removeComponent tPlayer 0, Op.removeComponent tPlayer 1, Op.removeComponent tPlayer 2]

/-- The world of the all-dead scenario in tick 1, after the last removal. -/
def allDeadWorld : World Val := (runOps allDeadOps (New Val)).state

/-- Slot contents in the all-dead scenario after the last removal: the slots
of the entities 3 to 513 were marked dead first, then those of 0, 1 and 2. -/
def slotsE (k : Nat) : Option (entityComponent Val) :=
  if k = 2 then some { Id := 2, Component := startValue, Alive := false, ChangedAt := 1 }
  else if k = 1 then some { Id := 1, Component := startValue, Alive := false, ChangedAt := 1 }
  else if k = 0 then some { Id := 0, Component := startValue, Alive := false, ChangedAt := 1 }
  else slotsB 511 k

/-! ## Calls on a single store -/

/-- One call of a method of `componentArray` that changes the store. -/
inductive StoreOp (V : Type) where
  | add (frame : Nat) (e : EntityID) (c : V)
  | remove (frame : Nat) (e : EntityID)
  | prune

/-- The effect of one call on the store. -/
def StoreOp.apply [Inhabited V] : StoreOp V → componentArray V → Outcome (componentArray V)
  | StoreOp.add frame e c, ca => ca.add frame e c
  | StoreOp.remove frame e, ca => ca.remove frame e
  | StoreOp.prune, ca => ca.prune

/-- A sequence of calls on a store; the run ends at the first panic. -/
def runStoreOps [Inhabited V] (ops : List (StoreOp V)) (ca : componentArray V) :
    Outcome (componentArray V) :=
  forEach StoreOp.apply ops ca

/-- The stores reachable from `newComponentArray` by calls of `add`, `remove`
and `prune` that return. -/
def StoreReachable [Inhabited V] (ca : componentArray V) : Prop :=
  ∃ ops : List (StoreOp V), runStoreOps ops (componentArray.new V) = Outcome.ok ca

/-- An interface type, such as `io.Reader`. -/
def tReader : GoType := { name := 20, isInterface := true }

/-- Another interface type, such as `io.Writer`. -/
def tWriter : GoType := { name := 21, isInterface := true }

/-- The world and the variables of util.go after `w := New()` and
`RegisterSingleton[io.Reader](w, r)` in a program that has not called `TypeID`
before; the pointer `r` is represented by `Inventory{1}`. -/
def readerRegistered : World Val × typeIDState :=
  World.RegisterSingleton typeIDState.init (New Val) tReader (Val.Inventory 1)

/-- The world and the variables of util.go after the call
`RegisterSingleton[io.Writer](w, r2)` that follows; the pointer `r2` is
represented by `Inventory{2}`. -/
def writerRegistered : World Val × typeIDState :=
  World.RegisterSingleton readerRegistered.2 readerRegistered.1 tWriter (Val.Inventory 2)

end helpers

/-! # Theorems -/

section lemmas

variable {V : Type} {σ τ α : Type}

theorem Outcome.eq_ok_of_isOk (o : Outcome σ) (h : o.isOk = true) : o = Outcome.ok o.state := by
  cases o with
  | ok s => rfl
  | panic p s => simp [Outcome.isOk] at h

@[simp] theorem Outcome.state_ok (s : σ) : (Outcome.ok s).state = s := rfl
@[simp] theorem Outcome.state_panic (p : Panic) (s : σ) : (Outcome.panic p s).state = s := rfl
@[simp] theorem Outcome.state_lift (o : Outcome σ) (f : σ → τ) : (o.lift f).state = f o.state := by
  cases o <;> rfl

theorem Outcome.lift_eq_ok {o : Outcome σ} {f : σ → τ} {t : τ} (h : o.lift f = Outcome.ok t) :
    ∃ s, o = Outcome.ok s ∧ t = f s := by
  cases o with
  | ok s => exact ⟨s, rfl, by simpa [Outcome.lift] using h.symm⟩
  | panic p s => simp [Outcome.lift] at h

/-- A property kept by every iteration is kept by the loop, whether it
returns or panics. -/
theorem forEach_state_inv (body : α → σ → Outcome σ) (P : σ → Prop)
    (hbody : ∀ x s, P s → P (body x s).state) :
    ∀ (xs : List α) (s : σ), P s → P (forEach body xs s).state := by
  intro xs
  induction xs with
  | nil => intro s hs; simpa [forEach] using hs
  | cons x xs ih =>
    intro s hs
    have hx := hbody x s hs
    unfold forEach
    cases hb : body x s with
    | ok s1 => rw [hb] at hx; exact ih s1 hx
    | panic p s1 => rw [hb] at hx; exact hx

theorem forEach_append (body : α → σ → Outcome σ) (xs ys : List α) (s : σ) :
    forEach body (xs ++ ys) s = (forEach body xs s).bind (forEach body ys) := by
  induction xs generalizing s with
  | nil => rfl
  | cons x xs ih =>
    simp only [List.cons_append, forEach]
    cases body x s with
    | ok s1 => exact ih s1
    | panic p s1 => rfl

theorem SameShape.refl (a : componentManager V) : SameShape a a := ⟨rfl, rfl, rfl, rfl⟩

theorem SameShape.trans {a b c : componentManager V} (h1 : SameShape a b) (h2 : SameShape b c) :
    SameShape a c :=
  ⟨h2.toIdx.trans h1.toIdx, h2.sigs.trans h1.sigs, h2.len.trans h1.len, h2.sig.trans h1.sig⟩

theorem addComponent_shape [Inhabited V] (frame : Nat) (cm : componentManager V) (t e : Nat)
    (c : V) : SameShape cm (addComponent frame cm t e c).state := by
  unfold addComponent
  split
  · exact SameShape.refl cm
  · split
    · exact ⟨by simp, by simp, by simp, by simp⟩
    · exact SameShape.refl cm

theorem removeComponent_shape (frame : Nat) (cm : componentManager V) (t e : Nat) :
    SameShape cm (removeComponent frame cm t e).state := by
  unfold removeComponent
  split
  · exact SameShape.refl cm
  · split
    · exact ⟨by simp, by simp, by simp, by simp⟩
    · exact SameShape.refl cm

theorem removeEntity_shape (frame : Nat) (cm : componentManager V) (e : Nat) :
    SameShape cm (cm.removeEntity frame e).state := by
  unfold componentManager.removeEntity
  apply forEach_state_inv _ (fun c => SameShape cm c)
  · intro i c hc
    refine hc.trans ?_
    dsimp only
    split
    · exact ⟨rfl, rfl, rfl, rfl⟩
    · exact ⟨by simp, by simp, by simp, by simp⟩
  · exact SameShape.refl cm

theorem pruneArrays_length (l : List (componentArray V)) :
    (pruneArrays l).state.length = l.length := by
  induction l with
  | nil => rfl
  | cons ca rest ih =>
    unfold pruneArrays
    cases ca.prune with
    | panic p ca1 => rfl
    | ok ca1 => simp [ih]

theorem prune_shape (cm : componentManager V) : SameShape cm cm.prune.state := by
  unfold componentManager.prune
  exact ⟨by simp, by simp, by simp [pruneArrays_length], by simp⟩

theorem RegInv.of_shape {a b : componentManager V} {ts : List Nat} (h : RegInv a ts)
    (hs : SameShape a b) : RegInv b ts :=
  ⟨hs.len.trans h.len, hs.sigs.trans h.sigs, fun t i => by rw [hs.toIdx]; exact h.toIdx t i,
    h.nodup, hs.sig.trans h.sig, h.lt⟩

theorem RegInv.new : RegInv (newComponentManager V) [] :=
  ⟨rfl, rfl, fun t i => by simp [newComponentManager, mapEmpty], List.nodup_nil, rfl, by decide⟩

theorem Signature.Next_two_pow (n : Nat) :
    Signature.Next (2 ^ n) = if n + 1 < 64 then (2 ^ (n + 1), true) else (0, false) := by
  unfold Signature.Next
  have h1 : (2 ^ n) <<< 1 = 2 ^ (n + 1) := by
    rw [Nat.shiftLeft_eq]; ring
  simp only [h1]
  by_cases hn : n + 1 < 64
  · have hlt : 2 ^ (n + 1) < 2 ^ 64 := Nat.pow_lt_pow_right (by decide) hn
    rw [Nat.mod_eq_of_lt hlt, if_pos hn, if_neg (Nat.pos_pow_of_pos _ (by decide)).ne']
  · have hdvd : 2 ^ 64 ∣ 2 ^ (n + 1) := Nat.pow_dvd_pow 2 (by omega)
    rw [Nat.mod_eq_zero_of_dvd hdvd, if_neg hn]
    simp

theorem registerComponent_regInv [Inhabited V] {cm cm1 : componentManager V} {ts : List Nat}
    (h : RegInv cm ts) (t : Nat) (hok : registerComponent cm t = Outcome.ok cm1) :
    RegInv cm1 (ts ++ [t]) := by
  unfold registerComponent at hok
  by_cases hhas : hasComponentArray cm t = true
  · simp [hhas] at hok
  · simp only [hhas, Bool.false_eq_true, if_false] at hok
    rw [h.sig, Signature.Next_two_pow] at hok
    by_cases hn : ts.length + 1 < 64
    · simp only [hn, if_true] at hok
      cases hok
      have hnot : t ∉ ts := by
        intro hmem
        obtain ⟨i, hi, hget⟩ := List.getElem_of_mem hmem
        have : cm.componentToIdx t = some i := (h.toIdx t i).2 (by simp [hi, hget])
        simp [hasComponentArray, this] at hhas
      refine ⟨by simp [h.len], ?_, ?_, ?_, by simp, by simpa using hn⟩
      · simp [h.sigs, h.sig, List.range_succ]
      · intro u i
        simp only [List.length_append, List.length_singleton, Nat.add_sub_cancel, h.len, mapSet]
        by_cases hu : u = t
        · rw [hu]
          simp only [if_true]
          constructor
          · intro hi
            cases hi
            simp
          · intro hi
            rcases Nat.lt_trichotomy i ts.length with hlt | heq | hgt
            · rw [List.getElem?_append_left hlt] at hi
              exact absurd (List.getElem?_mem hi) hnot
            · rw [heq]
            · have h1 : (ts ++ [t])[i]? = none :=
                List.getElem?_eq_none (by rw [List.length_append, List.length_singleton]; omega)
              rw [h1] at hi
              cases hi
        · simp only [hu, if_false]
          rw [h.toIdx u i]
          rcases Nat.lt_trichotomy i ts.length with hlt | heq | hgt
          · rw [List.getElem?_append_left hlt]
          · subst heq
            simp [Ne.symm hu]
          · have h1 : (ts ++ [t])[i]? = none :=
              List.getElem?_eq_none (by rw [List.length_append, List.length_singleton]; omega)
            have h2 : ts[i]? = none := List.getElem?_eq_none (by omega)
            rw [h1, h2]
      · exact List.nodup_append.2 ⟨h.nodup, List.nodup_singleton t, by simpa using hnot⟩
    · simp [hn] at hok

theorem World.AddComponent_state_cm [Inhabited V] (w : World V) (t e : Nat) (c : V) :
    (w.AddComponent t e c).state.cm = (addComponent w.frame w.cm t e c).state := by
  unfold World.AddComponent
  cases addComponent w.frame w.cm t e c <;> rfl

theorem World.RemoveComponent_state_cm (w : World V) (t e : Nat) :
    (w.RemoveComponent t e).state.cm = (removeComponent w.frame w.cm t e).state := by
  unfold World.RemoveComponent
  cases removeComponent w.frame w.cm t e <;> rfl

theorem World.RemoveEntity_state_cm (w : World V) (e : Nat) :
    (w.RemoveEntity e).state.cm = (w.cm.removeEntity w.frame e).state := by
  unfold World.RemoveEntity
  cases w.cm.removeEntity w.frame e <;> rfl

theorem World.cleanup_state_cm (w : World V) :
    w.cleanup.state.cm = w.cm ∨ w.cleanup.state.cm = w.cm.prune.state := by
  unfold World.cleanup
  cases applyOplog w.sm w.oplog with
  | panic p sm1 => exact Or.inl rfl
  | ok sm1 => right; simp

theorem World.cleanupTick_state_cm (w : World V) : w.cleanupTick.state.cm = w.cleanup.state.cm := by
  unfold World.cleanupTick
  cases w.cleanup <;> rfl

/-- A write through a pointer changes at most one store of the world, and of
that store at most the value of one slot. -/
theorem World.WriteRef_cases (w : World V) (p : componentRef) (c : V) :
    w.WriteRef p c = w ∨
    ∃ ca, w.cm.componentArray[p.store]? = some ca ∧ ca.entities.length = p.cap ∧
      w.WriteRef p c =
        { w with
          cm := { w.cm with componentArray := w.cm.componentArray.set p.store (ca.store p.slot c) } } := by
  unfold World.WriteRef
  split
  · exact Or.inl rfl
  · rename_i ca hca
    split
    · rename_i hlen
      exact Or.inr ⟨ca, hca, hlen, rfl⟩
    · exact Or.inl rfl

theorem World.WriteRef_fields (w : World V) (p : componentRef) (c : V) :
    (w.WriteRef p c).em = w.em ∧ (w.WriteRef p c).sm = w.sm ∧ (w.WriteRef p c).ism = w.ism ∧
    (w.WriteRef p c).sing = w.sing ∧ (w.WriteRef p c).oplog = w.oplog ∧
    (w.WriteRef p c).frame = w.frame := by
  rcases World.WriteRef_cases w p c with h | ⟨ca, _, _, h⟩ <;> rw [h] <;>
    exact ⟨rfl, rfl, rfl, rfl, rfl, rfl⟩

theorem World.WriteRef_shape (w : World V) (p : componentRef) (c : V) :
    SameShape w.cm (w.WriteRef p c).cm := by
  rcases World.WriteRef_cases w p c with h | ⟨ca, _, _, h⟩ <;> rw [h]
  · exact SameShape.refl _
  · exact ⟨rfl, rfl, by simp, rfl⟩

/-- The statement `*ecs.GetComponent[T](w, e) = c` either panics, leaving the
world as it is, or is a write through the pointer just fetched. -/
theorem World.SetComponent_cases (w : World V) (t e : Nat) (c : V) :
    (w.SetComponent t e c).state = w ∨
    ∃ p, w.GetComponentRef t e = .ok (some p) ∧
      w.SetComponent t e c = Outcome.ok (w.WriteRef p c) := by
  unfold World.SetComponent
  split
  · exact Or.inl rfl
  · exact Or.inl rfl
  · rename_i p hp
    exact Or.inr ⟨p, hp, rfl⟩

theorem World.SetComponent_fields (w : World V) (t e : Nat) (c : V) :
    (w.SetComponent t e c).state.em = w.em ∧ (w.SetComponent t e c).state.sm = w.sm ∧
    (w.SetComponent t e c).state.ism = w.ism ∧ (w.SetComponent t e c).state.sing = w.sing ∧
    (w.SetComponent t e c).state.oplog = w.oplog ∧
    (w.SetComponent t e c).state.frame = w.frame := by
  rcases World.SetComponent_cases w t e c with h | ⟨p, _, h⟩ <;> rw [h]
  · exact ⟨rfl, rfl, rfl, rfl, rfl, rfl⟩
  · exact World.WriteRef_fields w p c

theorem World.SetComponent_shape (w : World V) (t e : Nat) (c : V) :
    SameShape w.cm (w.SetComponent t e c).state.cm := by
  rcases World.SetComponent_cases w t e c with h | ⟨p, _, h⟩ <;> rw [h]
  · exact SameShape.refl _
  · exact World.WriteRef_shape w p c

theorem World.RegisterSystem_state_cm (w : World V) (s : Nat) (sig : Signature) :
    (w.RegisterSystem s sig).state.cm = w.cm := by
  unfold World.RegisterSystem
  split
  · rfl
  · split
    · split <;> rfl
    · rfl
    · rfl

/-- A call other than `RegisterComponent` leaves the registrations alone,
whether it returns or panics. -/
theorem Op.apply_shape [Inhabited V] (op : Op V) (w : World V)
    (h : ∀ t, op ≠ Op.registerComponent t) : SameShape w.cm (op.apply w).state.cm := by
  cases op with
  | registerComponent t => exact absurd rfl (h t)
  | newEntity => exact SameShape.refl _
  | addComponent t e c =>
    show SameShape w.cm (w.AddComponent t e c).state.cm
    rw [World.AddComponent_state_cm]; exact addComponent_shape _ _ _ _ _
  | removeComponent t e =>
    show SameShape w.cm (w.RemoveComponent t e).state.cm
    rw [World.RemoveComponent_state_cm]; exact removeComponent_shape _ _ _ _
  | setComponent t e c => exact World.SetComponent_shape w t e c
  | writeRef p c => exact World.WriteRef_shape w p c
  | removeEntity e =>
    show SameShape w.cm (w.RemoveEntity e).state.cm
    rw [World.RemoveEntity_state_cm]; exact removeEntity_shape _ _ _
  | registerSystem s sig =>
    show SameShape w.cm (w.RegisterSystem s sig).state.cm
    rw [World.RegisterSystem_state_cm]; exact SameShape.refl _
  | registerInitSystem s => exact SameShape.refl _
  | registerSingleton st T v => exact SameShape.refl _
  | cleanupTick =>
    show SameShape w.cm w.cleanupTick.state.cm
    rw [World.cleanupTick_state_cm]
    rcases World.cleanup_state_cm w with h1 | h1 <;> rw [h1]
    · exact SameShape.refl _
    · exact prune_shape _

theorem World.RegisterComponent_eq_ok [Inhabited V] {w w1 : World V} {t : Nat}
    (h : w.RegisterComponent t = Outcome.ok w1) : registerComponent w.cm t = Outcome.ok w1.cm := by
  unfold World.RegisterComponent at h
  obtain ⟨cm1, h1, h2⟩ := Outcome.lift_eq_ok h
  rw [h1, h2]

/-- The registration state along a run: the types registered by the calls are
appended in order. -/
theorem runOps_regInv [Inhabited V] (ops : List (Op V)) :
    ∀ (w w1 : World V) (ts : List Nat), RegInv w.cm ts → runOps ops w = Outcome.ok w1 →
      RegInv w1.cm (ts ++ regTypes ops) := by
  induction ops with
  | nil =>
    intro w w1 ts h hrun
    simp only [runOps, forEach] at hrun
    cases hrun
    simpa [regTypes] using h
  | cons op ops ih =>
    intro w w1 ts h hrun
    simp only [runOps, forEach] at hrun
    cases hop : op.apply w with
    | panic p s => rw [hop] at hrun; cases hrun
    | ok s =>
      rw [hop] at hrun
      by_cases hreg : ∃ t, op = Op.registerComponent t
      · obtain ⟨t, rfl⟩ := hreg
        have h1 := registerComponent_regInv h t (World.RegisterComponent_eq_ok hop)
        have h2 := ih s w1 _ h1 hrun
        simpa [regTypes] using h2
      · have hne : ∀ t, op ≠ Op.registerComponent t := fun t ht => hreg ⟨t, ht⟩
        have h1 : RegInv s.cm ts := by
          have := Op.apply_shape op w hne
          rw [hop] at this
          exact h.of_shape this
        have h2 := ih s w1 _ h1 hrun
        have hrt : regTypes (op :: ops) = regTypes ops := by
          cases op <;> first | rfl | exact absurd rfl (hne _)
        rw [hrt]; exact h2

theorem RegInv.sig_eq {w : World V} {ts : List Nat} (h : RegInv w.cm ts) {i t : Nat}
    (hi : ts[i]? = some t) : w.Sig t = .ok (2 ^ i) := by
  have hidx : w.cm.componentToIdx t = some i := (h.toIdx t i).2 hi
  have hlt : i < ts.length := by
    rcases List.getElem?_eq_some.1 hi with ⟨hlt, _⟩
    exact hlt
  have hs : w.cm.componentSignatures[i]? = some (2 ^ i) := by
    rw [h.sigs]
    simp [hlt]
  simp [World.Sig, getComponentSignature, getComponentIdx, hidx, hs]

theorem and_two_pow_eq_iff (x i : Nat) : x &&& 2 ^ i = 2 ^ i ↔ x.testBit i = true := by
  constructor
  · intro h
    have := congrArg (fun y => Nat.testBit y i) h
    simpa [Nat.testBit_two_pow_self] using this
  · intro h
    apply Nat.eq_of_testBit_eq
    intro k
    rw [Nat.testBit_and, Nat.testBit_two_pow]
    by_cases hk : i = k
    · subst hk; simp [h]
    · simp [hk]

theorem composeSigsFrom_spec {w : World V} {ts : List Nat} (h : RegInv w.cm ts) :
    ∀ (us : List Nat) (acc : Signature), (∀ u ∈ us, u ∈ ts) →
      ∃ s, composeSigsFrom w us acc = .ok s ∧
        ∀ k, s.testBit k = true ↔ (acc.testBit k = true ∨ ∃ u ∈ us, ts[k]? = some u) := by
  intro us
  induction us with
  | nil => intro acc _; exact ⟨acc, rfl, fun k => by simp⟩
  | cons u us ih =>
    intro acc hus
    obtain ⟨j, hj, hget⟩ := List.getElem_of_mem (hus u (List.mem_cons_self _ _))
    have hju : ts[j]? = some u := by simp [hj, hget]
    have hsig := h.sig_eq hju
    obtain ⟨s, hs, hbits⟩ := ih (acc ||| 2 ^ j) (fun v hv => hus v (List.mem_cons_of_mem _ hv))
    refine ⟨s, by simp [composeSigsFrom, hsig, hs], ?_⟩
    intro k
    rw [hbits k, Nat.testBit_or, Nat.testBit_two_pow]
    constructor
    · rintro (h1 | ⟨v, hv, hk⟩)
      · simp only [Bool.or_eq_true, decide_eq_true_eq] at h1
        rcases h1 with h1 | h1
        · exact Or.inl h1
        · exact Or.inr ⟨u, List.mem_cons_self _ _, by rw [← h1]; exact hju⟩
      · exact Or.inr ⟨v, List.mem_cons_of_mem _ hv, hk⟩
    · rintro (h1 | ⟨v, hv, hk⟩)
      · exact Or.inl (by simp [h1])
      · rcases List.mem_cons.1 hv with rfl | hv
        · left
          have hjk : j = k := by
            rcases List.getElem?_eq_some.1 hju with ⟨h1, h2⟩
            rcases List.getElem?_eq_some.1 hk with ⟨h3, h4⟩
            exact (List.Nodup.getElem_inj_iff h.nodup).1 (h2.trans h4.symm)
          simp [hjk]
        · exact Or.inr ⟨v, hv, hk⟩

theorem World.cleanup_em_sing (w : World V) :
    w.cleanup.state.em = w.em ∧ w.cleanup.state.sing = w.sing := by
  unfold World.cleanup
  split
  · exact ⟨rfl, rfl⟩
  · simp

theorem World.cleanupTick_em_sing (w : World V) :
    w.cleanupTick.state.em = w.em ∧ w.cleanupTick.state.sing = w.sing := by
  have h := World.cleanup_em_sing w
  unfold World.cleanupTick
  cases hc : w.cleanup with
  | ok s => rw [hc] at h; exact h
  | panic p s => rw [hc] at h; exact h

/-- Only `NewEntity` touches the entity manager and only `RegisterSingleton`
the singleton registry, whether the call returns or panics. -/
theorem Op.apply_em_sing [Inhabited V] (op : Op V) (w : World V) :
    (op ≠ Op.newEntity → (op.apply w).state.em = w.em) ∧
    ((∀ st T v, op ≠ Op.registerSingleton st T v) → (op.apply w).state.sing = w.sing) := by
  cases op with
  | registerComponent t =>
    refine ⟨fun _ => ?_, fun _ => ?_⟩ <;> simp [Op.apply, World.RegisterComponent]
  | newEntity => exact ⟨fun h => absurd rfl h, fun _ => rfl⟩
  | addComponent t e c =>
    refine ⟨fun _ => ?_, fun _ => ?_⟩ <;>
      (simp only [Op.apply, World.AddComponent]; split <;> rfl)
  | removeComponent t e =>
    refine ⟨fun _ => ?_, fun _ => ?_⟩ <;>
      (simp only [Op.apply, World.RemoveComponent]; split <;> rfl)
  | setComponent t e c =>
    exact ⟨fun _ => (World.SetComponent_fields w t e c).1,
      fun _ => (World.SetComponent_fields w t e c).2.2.2.1⟩
  | writeRef p c =>
    exact ⟨fun _ => (World.WriteRef_fields w p c).1, fun _ => (World.WriteRef_fields w p c).2.2.2.1⟩
  | removeEntity e =>
    refine ⟨fun _ => ?_, fun _ => ?_⟩ <;>
      (simp only [Op.apply, World.RemoveEntity]; split <;> rfl)
  | registerSystem s sig =>
    refine ⟨fun _ => ?_, fun _ => ?_⟩ <;>
      (simp only [Op.apply, World.RegisterSystem]; repeat' split) <;> rfl
  | registerInitSystem s => exact ⟨fun _ => rfl, fun _ => rfl⟩
  | registerSingleton st T v => exact ⟨fun _ => rfl, fun h => absurd rfl (h st T v)⟩
  | cleanupTick => exact ⟨fun _ => (World.cleanupTick_em_sing w).1, fun _ => (World.cleanupTick_em_sing w).2⟩

theorem issuedIds_bounds [Inhabited V] (ops : List (Op V)) :
    ∀ w : World V, w.em.idx + (issuedIds ops w).length ≤ 2 ^ 64 →
      (issuedIds ops w).Pairwise (· < ·) ∧ ∀ x ∈ issuedIds ops w, w.em.idx ≤ x := by
  induction ops with
  | nil => intro w _; simp [issuedIds]
  | cons op ops ih =>
    intro w hw
    by_cases hop : op = Op.newEntity
    · subst hop
      simp only [issuedIds, List.length_cons] at hw ⊢
      have hidx : w.NewEntity.1 = w.em.idx := rfl
      have hnext : w.NewEntity.2.em.idx = (w.em.idx + 1) % 2 ^ 64 := rfl
      by_cases hrest : (issuedIds ops w.NewEntity.2).length = 0
      · have hnil : issuedIds ops w.NewEntity.2 = [] := List.length_eq_zero.1 hrest
        rw [hnil]
        simp [hidx]
      · have hlt : w.em.idx + 1 < 2 ^ 64 := by omega
        rw [Nat.mod_eq_of_lt hlt] at hnext
        obtain ⟨h1, h2⟩ := ih w.NewEntity.2 (by rw [hnext]; omega)
        have hle : ∀ x ∈ issuedIds ops w.NewEntity.2, w.em.idx + 1 ≤ x := by
          intro x hx
          have := h2 x hx
          rw [hnext] at this
          exact this
        refine ⟨List.pairwise_cons.2 ⟨fun x hx => ?_, h1⟩, ?_⟩
        · show w.em.idx < x
          exact hle x hx
        · intro x hx
          rcases List.mem_cons.1 hx with rfl | hx
          · exact Nat.le_refl _
          · exact Nat.le_of_succ_le (hle x hx)
    · have hem := (Op.apply_em_sing op w).1 hop
      have hids : issuedIds (op :: ops) w = issuedIds ops (op.apply w).state := by
        cases op <;> first | rfl | exact absurd rfl hop
      rw [hids] at hw ⊢
      have := ih (op.apply w).state (by rw [hem]; exact hw)
      rw [hem] at this
      exact this

theorem runOps_cons [Inhabited V] (op : Op V) (ops : List (Op V)) (w : World V) :
    runOps (op :: ops) w = (op.apply w).bind (runOps ops) := by
  simp only [runOps, forEach, Outcome.bind]

/-- The singleton registry along a run: the key `n` has no entry at the end
exactly when it had none at the start and no call registered a singleton whose
type got the id `n`. -/
theorem runOps_singleton [Inhabited V] (ops : List (Op V)) :
    ∀ (w w1 : World V), runOps ops w = Outcome.ok w1 → ∀ n : Nat,
      (w1.sing.values n = none ↔
        (w.sing.values n = none ∧
          ∀ st T v, Op.registerSingleton st T v ∈ ops →
            (TypeID st T.reflectTypeOfZero).1 ≠ n)) := by
  induction ops with
  | nil =>
    intro w w1 hrun n
    simp only [runOps, forEach] at hrun
    cases hrun
    simp
  | cons op ops ih =>
    intro w w1 hrun n
    rw [runOps_cons] at hrun
    cases hop : op.apply w with
    | panic p s => rw [hop] at hrun; cases hrun
    | ok s =>
      rw [hop] at hrun
      have h1 := ih s w1 hrun n
      rw [h1]
      by_cases hreg : ∃ st T v, op = Op.registerSingleton st T v
      · obtain ⟨st, T, v, rfl⟩ := hreg
        have hs : s = (World.RegisterSingleton st w T v).1 := by
          simp only [Op.apply] at hop
          cases hop; rfl
        subst hs
        by_cases hn : (TypeID st T.reflectTypeOfZero).1 = n
        · constructor
          · rintro ⟨h, _⟩
            simp [World.RegisterSingleton, registerSingleton, mapSet, hn] at h
          · rintro ⟨_, h⟩
            exact absurd hn (h st T v (List.mem_cons_self _ _))
        · have hn1 : ¬ n = (TypeID st T.reflectTypeOfZero).1 := fun h => hn h.symm
          constructor
          · rintro ⟨h, hrest⟩
            refine ⟨?_, ?_⟩
            · simpa [World.RegisterSingleton, registerSingleton, mapSet, hn1] using h
            · intro st1 T1 v1 hmem
              rcases List.mem_cons.1 hmem with heq | hmem1
              · cases heq
                exact hn
              · exact hrest st1 T1 v1 hmem1
          · rintro ⟨h, hrest⟩
            refine ⟨?_, fun st1 T1 v1 hmem => hrest st1 T1 v1 (List.mem_cons_of_mem _ hmem)⟩
            simpa [World.RegisterSingleton, registerSingleton, mapSet, hn1] using h
      · have hne : ∀ st T v, op ≠ Op.registerSingleton st T v :=
          fun st T v h => hreg ⟨st, T, v, h⟩
        have hsing := (Op.apply_em_sing op w).2 hne
        rw [hop] at hsing
        simp only [Outcome.state_ok] at hsing
        rw [hsing]
        constructor
        · rintro ⟨h, hrest⟩
          refine ⟨h, ?_⟩
          intro st1 T1 v1 hmem
          rcases List.mem_cons.1 hmem with heq | hmem1
          · exact absurd heq.symm (hne st1 T1 v1)
          · exact hrest st1 T1 v1 hmem1
        · rintro ⟨h, hrest⟩
          exact ⟨h, fun st1 T1 v1 hmem => hrest st1 T1 v1 (List.mem_cons_of_mem _ hmem)⟩

theorem Reachable.regInv [Inhabited V] {w : World V} (hw : Reachable w) :
    ∃ ts, RegInv w.cm ts := by
  obtain ⟨ops, hrun⟩ := hw
  exact ⟨[] ++ regTypes ops, runOps_regInv ops (New V) w [] RegInv.new hrun⟩

/-- The call `Get` returns a component exactly for an indexed slot that is alive and
was not touched in the current frame. -/
theorem getComponent_eq_some (frame : Nat) (cm : componentManager V) (t e : Nat) (a : V) :
    getComponent frame cm t e = .ok (some a) ↔
      ∃ i ca k slot, cm.componentToIdx t = some i ∧ cm.componentArray[i]? = some ca ∧
        ca.entityToIdx e = some k ∧ ca.entities[k]? = some slot ∧ slot.Alive = true ∧
        slot.ChangedAt ≠ frame ∧ slot.Component = a := by
  constructor
  · intro h
    unfold getComponent getComponentIdx at h
    cases h1 : cm.componentToIdx t with
    | none => simp [h1] at h
    | some i =>
      simp only [h1] at h
      cases h2 : cm.componentArray[i]? with
      | none => simp [h2] at h
      | some ca =>
        simp only [h2, componentArray.Get] at h
        cases h3 : ca.entityToIdx e with
        | none => simp [h3] at h
        | some k =>
          simp only [h3] at h
          cases h4 : ca.entities[k]? with
          | none => simp [h4] at h
          | some slot =>
            simp only [h4, entityComponent.isDead] at h
            by_cases h5 : slot.Alive = true <;> by_cases h6 : slot.ChangedAt = frame <;>
              simp [h5, h6] at h
            exact ⟨i, ca, k, slot, rfl, h2, h3, h4, h5, h6, h⟩
  · rintro ⟨i, ca, k, slot, h1, h2, h3, h4, h5, h6, h7⟩
    simp [getComponent, getComponentIdx, h1, h2, componentArray.Get, h3, h4,
      entityComponent.isDead, h5, h6, h7]

/-! ## C4 : removing one component leaves the others -/

/-- C4.  In every world reachable through the exported functions, if entity
`e` stably holds the distinct component types `A` and `B` (`GetComponent`
returns the values `a` and `b`), then `RemoveComponent[B](w, e)` returns, and in
the world it leaves `GetComponent[B]` is nil, `DebugComponent[B]` is `<nil>`
and `GetComponent[A]` is still `a`. -/
theorem RemoveComponent_keeps_others [Inhabited V] (fmt : V → String) (w : World V)
    (hw : Reachable w) (A B e : Nat) (a b : V) (hAB : A ≠ B)
    (hA : w.GetComponent A e = .ok (some a)) (hB : w.GetComponent B e = .ok (some b)) :
    (w.RemoveComponent B e).isOk = true ∧
    (w.RemoveComponent B e).state.GetComponent B e = .ok none ∧
    (w.RemoveComponent B e).state.DebugComponent fmt B e = .ok "<nil>" ∧
    (w.RemoveComponent B e).state.GetComponent A e = .ok (some a) := by
  obtain ⟨ts, hinv⟩ := hw.regInv
  obtain ⟨i, caA, kA, sA, hiA, hcaA, hkA, hsA, haA, hfA, hvA⟩ :=
    (getComponent_eq_some _ _ _ _ _).1 hA
  obtain ⟨j, caB, kB, sB, hjB, hcaB, hkB, hsB, haB, hfB, hvB⟩ :=
    (getComponent_eq_some _ _ _ _ _).1 hB
  have hij : j ≠ i := by
    intro h
    subst h
    have h1 := (hinv.toIdx A j).1 hiA
    have h2 := (hinv.toIdx B j).1 hjB
    rw [h1] at h2
    exact hAB (Option.some.inj h2)
  have hjlt : j < w.cm.componentArray.length := (List.getElem?_eq_some.1 hcaB).1
  have hklt : kB < caB.entities.length := (List.getElem?_eq_some.1 hsB).1
  have hs : w.cm.componentSignatures[j]? = some (2 ^ j) := by
    rw [hinv.sigs]
    have : j < ts.length := by rw [← hinv.len]; exact hjlt
    simp [this]
  have hR : w.RemoveComponent B e = Outcome.ok
      { w with
        cm :=
          { w.cm with
            entitySignatures :=
              mapSet w.cm.entitySignatures e (sigOf w.cm.entitySignatures e &&& sigNot (2 ^ j))
            componentArray := w.cm.componentArray.set j
              { caB with
                entities := caB.entities.set kB { sB with Alive := false, ChangedAt := w.frame }
                deads := caB.deads + 1 } }
        oplog := w.oplog ++
          [{ Kind := oplogKind.Delete, Entity := e, Sig := sigOf w.cm.entitySignatures e }] } := by
    simp [World.RemoveComponent, removeComponent, getComponentIdx, hjB, hcaB, hs,
      componentArray.remove, hkB, hsB, haB, Outcome.lift]
  rw [hR]
  refine ⟨rfl, ?_, ?_, ?_⟩
  · simp [World.GetComponent, getComponent, getComponentIdx, hjB, hjlt, componentArray.Get, hkB,
      hklt, entityComponent.isDead]
  · simp [World.DebugComponent, debugPrintComponent, getComponentIdx, hjB, hjlt,
      componentArray.debug, hkB, hklt, entityComponent.isDead]
  · apply (getComponent_eq_some _ _ _ _ _).2
    exact ⟨i, caA, kA, sA, hiA, by simp [hij, hcaA], hkA, hsA, haA, hfA, hvA⟩

/-- C4 at `ExampleRemoveComponent`: after `Init`, removing `Inventory` from the
player leaves `Player{200, 400}` in place. -/
theorem RemoveComponent_keeps_others_witness :
    (exampleRemoveWorld.RemoveComponent tInventory 0).isOk = true ∧
    (exampleRemoveWorld.RemoveComponent tInventory 0).state.GetComponent tInventory 0 = .ok none ∧
    (exampleRemoveWorld.RemoveComponent tInventory 0).state.DebugComponent fmtVal tInventory 0
      = .ok "<nil>" ∧
    (exampleRemoveWorld.RemoveComponent tInventory 0).state.GetComponent tPlayer 0
      = .ok (some (Val.Player 200 400)) :=
  RemoveComponent_keeps_others fmtVal exampleRemoveWorld
    ⟨exampleRemoveOps, Outcome.eq_ok_of_isOk _ (by decide!)⟩ tPlayer tInventory 0
    (Val.Player 200 400) (Val.Inventory 2) (by decide) (by decide!) (by decide!)

/-- A value written through the pointer returned by `GetComponent` is what
`GetComponent` returns right after the write; the write neither advances the
frame nor touches the oplog. -/
theorem SetComponent_now (w : World V) (C e : Nat) (a v : V)
    (hget : w.GetComponent C e = .ok (some a)) :
    (w.SetComponent C e v).isOk = true ∧
    (w.SetComponent C e v).state.frame = w.frame ∧
    (w.SetComponent C e v).state.oplog = w.oplog ∧
    (w.SetComponent C e v).state.GetComponent C e = .ok (some v) := by
  obtain ⟨i, ca, k, slot, hC, hca, hk, hslot, halive, hne, _⟩ :=
    (getComponent_eq_some _ _ _ _ _).1 hget
  have hilt : i < w.cm.componentArray.length := (List.getElem?_eq_some.1 hca).1
  have hklt : k < ca.entities.length := (List.getElem?_eq_some.1 hslot).1
  have hS : w.SetComponent C e v = Outcome.ok
      { w with
        cm :=
          { w.cm with
            componentArray := w.cm.componentArray.set i
              { ca with entities := ca.entities.set k { slot with Component := v } } } } := by
    simp [World.SetComponent, World.GetComponentRef, getComponentRef, World.WriteRef,
      getComponentIdx, hC, hca, componentArray.GetRef, hk, hslot,
      entityComponent.isDead, halive, hne, componentArray.store]
  rw [hS]
  refine ⟨rfl, rfl, rfl, ?_⟩
  simp [World.GetComponent, getComponent, getComponentIdx, hC, hilt, componentArray.Get, hk,
    hklt, entityComponent.isDead, halive, hne]

/-! ## C8 : unique single-bit masks -/

/-- C8.  After any run of calls that all returned on a fresh world, the `i`-th
component type `t` registered by the run (counted from 0) has `Sig = 2 ^ i`,
a 64-bit value whose only set bit is bit `i`; any other registered type has a
different signature; and a signature composed by OR-ing the signatures of
registered types `us` contains the mask of `t` exactly when `t` is among
`us`. -/
theorem Sig_unique_single_bit [Inhabited V] (ops : List (Op V)) (w : World V)
    (hrun : runOps ops (New V) = Outcome.ok w) (i t : Nat)
    (hi : (regTypes ops)[i]? = some t) :
    w.Sig t = .ok (2 ^ i) ∧ 2 ^ i < 2 ^ 64 ∧
    (∀ k, (2 ^ i).testBit k = decide (i = k)) ∧
    (∀ j u : Nat, (regTypes ops)[j]? = some u → u ≠ t → w.Sig u ≠ w.Sig t) ∧
    (∀ us : List Nat, (∀ u ∈ us, u ∈ regTypes ops) →
      ∃ s, composeSigs w us = .ok s ∧ (s &&& 2 ^ i = 2 ^ i ↔ t ∈ us)) := by
  have hinv : RegInv w.cm (regTypes ops) := by
    have := runOps_regInv ops (New V) w [] RegInv.new hrun
    simpa using this
  have hilt : i < (regTypes ops).length := (List.getElem?_eq_some.1 hi).1
  refine ⟨hinv.sig_eq hi, ?_, fun k => Nat.testBit_two_pow, ?_, ?_⟩
  · exact Nat.pow_lt_pow_right (by decide) (Nat.lt_trans hilt hinv.lt)
  · intro j u hj hne
    rw [hinv.sig_eq hj, hinv.sig_eq hi]
    intro h
    have h2 : (2 : Nat) ^ j = 2 ^ i := Except.ok.inj h
    have hji : j = i := Nat.pow_right_injective (Nat.le_refl 2) h2
    subst hji
    rw [hi] at hj
    exact hne (Option.some.inj hj).symm
  · intro us hus
    obtain ⟨s, hs, hbits⟩ := composeSigsFrom_spec hinv us 0 hus
    refine ⟨s, hs, ?_⟩
    rw [and_two_pow_eq_iff, hbits i]
    constructor
    · rintro (h0 | ⟨u, hu, hiu⟩)
      · simp at h0
      · rw [hi] at hiu
        rw [Option.some.inj hiu]; exact hu
    · intro ht
      exact Or.inr ⟨t, ht, hi⟩

/-- C8 at the two registrations of `ExampleRemoveComponent`: `Inventory` is
the type registered second and gets the mask `2 ^ 1`. -/
theorem Sig_unique_single_bit_witness :
    exampleRemoveWorld.Sig tInventory = .ok (2 ^ 1) ∧ 2 ^ 1 < 2 ^ 64 :=
  ⟨(Sig_unique_single_bit exampleRemoveOps exampleRemoveWorld
      (Outcome.eq_ok_of_isOk _ (by decide!)) 1 tInventory (by decide)).1,
   (Sig_unique_single_bit exampleRemoveOps exampleRemoveWorld
      (Outcome.eq_ok_of_isOk _ (by decide!)) 1 tInventory (by decide)).2.1⟩

/-! ## C9 : entity ids are never reused -/

/-- C9.  For every sequence of calls on a fresh world (component and entity
removals and cleanups included, panicking calls included) in which `NewEntity`
is called fewer than `2 ^ 64` times, the ids returned by the `NewEntity` calls
are strictly increasing in call order, hence pairwise distinct. -/
theorem NewEntity_ids_increasing [Inhabited V] (ops : List (Op V))
    (h : (issuedIds ops (New V)).length < 2 ^ 64) :
    (issuedIds ops (New V)).Pairwise (· < ·) ∧ (issuedIds ops (New V)).Nodup := by
  have h1 := (issuedIds_bounds ops (New V) (by
    have : (New V).em.idx = 0 := rfl
    rw [this]; omega)).1
  exact ⟨h1, h1.imp (fun hab => Nat.ne_of_lt hab)⟩

/-- C9 at a run that creates two entities, removes the first one, cleans up
and creates a third: the ids are increasing. -/
theorem NewEntity_ids_increasing_witness :
    (issuedIds
      [Op.registerComponent tPlayer, Op.newEntity, Op.newEntity,
       Op.addComponent tPlayer 0 (Val.Player 200 400), Op.cleanupTick, Op.removeEntity 0,
       Op.cleanupTick, Op.newEntity] (New Val)).Pairwise (· < ·) :=
  (NewEntity_ids_increasing
    [Op.registerComponent tPlayer, Op.newEntity, Op.newEntity,
     Op.addComponent tPlayer 0 (Val.Player 200 400), Op.cleanupTick, Op.removeEntity 0,
     Op.cleanupTick, Op.newEntity] (by decide!)).1

/-! ## C10 : the singleton registry -/

/-- A second `TypeID` call for the same `reflect.Type` returns the same id and
leaves the variables as they are. -/
theorem TypeID_again (st : typeIDState) (k : Option GoType) :
    TypeID (TypeID st k).2 k = ((TypeID st k).1, (TypeID st k).2) := by
  unfold TypeID
  cases h : st.typeIDCache k with
  | some id => simp [h]
  | none => simp

/-- The variables of util.go at the start satisfy the invariant. -/
theorem typeIDState.Inv.of_init : typeIDState.init.Inv :=
  ⟨fun k id h => by simp [typeIDState.init] at h,
   fun k1 k2 id h => by simp [typeIDState.init] at h⟩

/-- The invariant of the cache is kept by `TypeID` as long as the counter does
not wrap around. -/
theorem TypeID_inv (st : typeIDState) (k : Option GoType) (hst : st.Inv)
    (hlt : st.typeIDCounter + 1 < 2 ^ 64) : (TypeID st k).2.Inv := by
  unfold TypeID
  cases h : st.typeIDCache k with
  | some id => exact hst
  | none =>
    simp only [Nat.mod_eq_of_lt hlt]
    constructor
    · intro k1 id hk1
      simp only at hk1
      split at hk1
      · cases hk1
        exact ⟨Nat.succ_pos _, le_refl _⟩
      · have := hst.bound k1 id hk1
        exact ⟨this.1, by simp only; omega⟩
    · intro k1 k2 id h1 h2
      simp only at h1 h2
      split at h1 <;> split at h2
      · rename_i a b
        rw [a, b]
      · cases h1
        have := (hst.bound k2 _ h2).2
        omega
      · cases h2
        have := (hst.bound k1 _ h1).2
        omega
      · exact hst.inj k1 k2 id h1 h2

/-- As long as the counter does not wrap around, `TypeID` gives types whose
zero values have distinct `reflect.Type`s distinct ids. -/
theorem TypeID_ne (st : typeIDState) (k1 k2 : Option GoType) (hst : st.Inv)
    (hlt : st.typeIDCounter + 2 < 2 ^ 64) (hne : k1 ≠ k2) :
    (TypeID (TypeID st k1).2 k2).1 ≠ (TypeID st k1).1 := by
  have hinv : (TypeID st k1).2.Inv := TypeID_inv st k1 hst (by omega)
  have hhit : (TypeID st k1).2.typeIDCache k1 = some (TypeID st k1).1 := by
    unfold TypeID
    cases h : st.typeIDCache k1 with
    | some id => simpa using h
    | none => simp
  have hcnt : (TypeID st k1).2.typeIDCounter ≤ st.typeIDCounter + 1 := by
    unfold TypeID
    cases h : st.typeIDCache k1 with
    | some id => simp
    | none => simp only; exact Nat.mod_le _ _
  intro heq
  generalize TypeID st k1 = r at hinv hhit hcnt heq
  unfold TypeID at heq
  cases h : r.2.typeIDCache k2 with
  | some id =>
    simp only [h] at heq
    rw [heq] at h
    exact hne (hinv.inj k1 k2 _ hhit h)
  | none =>
    simp only [h] at heq
    have hb := (hinv.bound k1 _ hhit).2
    rw [Nat.mod_eq_of_lt (by omega)] at heq
    omega

/-- After `RegisterSingleton[T](w, v)`, `GetSingleton[T](w)` returns `v`,
whatever was registered before. -/
theorem GetSingleton_registered (st : typeIDState) (w : World V) (T : GoType) (v : V) :
    (World.GetSingleton (World.RegisterSingleton st w T v).2
      (World.RegisterSingleton st w T v).1 T).1 = .ok v := by
  simp [World.GetSingleton, World.RegisterSingleton, getSingleton, registerSingleton,
    TypeID_again, mapSet]

/-- For types `T` and `U` whose zero values have distinct `reflect.Type`s (two
distinct types that are not interface types, say), and as long as the counter
of `TypeID` does not wrap around, `RegisterSingleton[T](w, v)` leaves the
result of `GetSingleton[U](w)` as it was. -/
theorem GetSingleton_other (st : typeIDState) (w : World V) (T U : GoType) (v : V)
    (hst : st.Inv) (hlt : st.typeIDCounter + 2 < 2 ^ 64)
    (hne : T.reflectTypeOfZero ≠ U.reflectTypeOfZero) :
    (World.GetSingleton (World.RegisterSingleton st w T v).2
      (World.RegisterSingleton st w T v).1 U).1 =
    (World.GetSingleton (World.RegisterSingleton st w T v).2 w U).1 := by
  have h := TypeID_ne st _ _ hst hlt hne
  simp only [World.GetSingleton, World.RegisterSingleton, getSingleton, registerSingleton,
    mapSet, if_neg h]

/-- C10 at two interface types.  In a program that has not called `TypeID`
before, `RegisterSingleton[io.Reader](w, r)` on a fresh world is followed by
`RegisterSingleton[io.Writer](w, r2)`.  The two types are distinct, yet
`TypeID` gives both the id 1, the id of the nil `reflect.Type`.  After the
first call `GetSingleton[io.Reader](w)` returns `r` and
`GetSingleton[io.Writer](w)` panics; after the second call
`GetSingleton[io.Writer](w)` returns `r2` and `GetSingleton[io.Reader](w)`
panics, though a value was registered for `io.Reader`. -/
theorem singleton_at_failing_input :
    tReader ≠ tWriter ∧
    (TypeID typeIDState.init tReader.reflectTypeOfZero).1 = 1 ∧
    (TypeID readerRegistered.2 tWriter.reflectTypeOfZero).1 = 1 ∧
    (World.GetSingleton readerRegistered.2 readerRegistered.1 tReader).1
      = .ok (Val.Inventory 1) ∧
    (World.GetSingleton readerRegistered.2 readerRegistered.1 tWriter).1
      = .error (Panic.singletonNotRegistered 21) ∧
    (World.GetSingleton writerRegistered.2 writerRegistered.1 tWriter).1
      = .ok (Val.Inventory 2) ∧
    (World.GetSingleton writerRegistered.2 writerRegistered.1 tReader).1
      = .error (Panic.singletonNotRegistered 20) := by
  decide!

/-! ## C2, C3, C6, C7 : the code at the failing inputs -/

/-- C2 at the update barrier scenario.  `Inventory` is added to entity 0 in
tick 1; in tick 2 entity 0 holds `Player` and `Inventory`, both fetchable, yet
the `Update` of the system subscribed to `Player | Inventory` is handed the
list `[1]`: the cleanup appended entity 0 and then, for the removal on entity
1, cut the last element off the list. -/
theorem updateBarrier_at_failing_input :
    barrierSetup.isOk = true ∧ barrierSetup.state.frame = 1 ∧
    barrierTick1.isOk = true ∧ barrierTick1.state.2 = [(tPrintPlayerSystem, [1])] ∧
    barrierTick1.state.1.frame = 2 ∧
    barrierTick1.state.1.GetComponent tPlayer 0 = .ok (some (Val.Player 200 400)) ∧
    barrierTick1.state.1.GetComponent tInventory 0 = .ok (some (Val.Inventory 10)) ∧
    barrierTick1.state.1.GetComponent tInventory 1 = .ok none ∧
    barrierTick2.isOk = true ∧ barrierTick2.state.2 = [(tPrintPlayerSystem, [1])] := by
  decide!

/-- C3 at the signature containment scenario.  After `Inventory` was removed
from entity 0 and one cleanup pass ran, the entity's signature still contains
the signature `1` of the system, the entity still holds `Player`, and the
system's membership list is empty. -/
theorem containment_at_failing_input :
    containmentRun.isOk = true ∧
    containmentRun.state.sm.systemSignatures = [1] ∧
    sigOf containmentRun.state.cm.entitySignatures 0 &&& 1 = 1 ∧
    containmentRun.state.GetComponent tPlayer 0 = .ok (some (Val.Player 200 400)) ∧
    containmentRun.state.sm.systemEntities = [[]] := by
  decide!

/-- C6 at the entity removal scenario.  Entity 0 holds `Player` and not
`Inventory`; `RemoveEntity` panics with "entity 0 does not have component
Inventory", after the `Player` slot was already marked dead. -/
theorem RemoveEntity_at_failing_input :
    partialOwnerWorld.GetComponent tPlayer 0 = .ok (some (Val.Player 200 400)) ∧
    partialOwnerWorld.HasComponent tInventory 0 = .ok false ∧
    (partialOwnerWorld.RemoveEntity 0).isOk = false ∧
    (partialOwnerWorld.RemoveEntity 0).panicOf = some (Panic.doesNotHave 0) ∧
    (partialOwnerWorld.RemoveEntity 0).state.GetComponent tPlayer 0 = .ok none := by
  decide!

/-- C7 at 64 registrations on a fresh world.  The first 63 return; the 64th
panics with "signature overflowed, too many registerd components". -/
theorem RegisterComponent_at_failing_input :
    (runOps register63 (New Val)).isOk = true ∧
    ((runOps register63 (New Val)).state.RegisterComponent 64).isOk = false ∧
    ((runOps register63 (New Val)).state.RegisterComponent 64).panicOf
      = some Panic.signatureOverflow := by
  decide!

/-! ## C1 : a component added before a compacting cleanup -/

theorem StoreDesc.congr {ca : componentArray V} {L n d : Nat}
    {slot slot1 : Nat → Option (entityComponent V)} {m m1 : Nat → Option Nat}
    (h : StoreDesc ca L n d slot m) (hs : ∀ k, slot k = slot1 k) (hm : ∀ e, m e = m1 e) :
    StoreDesc ca L n d slot1 m1 :=
  ⟨h.len, h.idx, h.deads, fun k => (h.slots k).trans (hs k), fun e => (h.map e).trans (hm e)⟩

/-- The call `add` for an entity without a live slot, on a store with `idx ≤ len` and a
non-empty array: the new slot is written at `idx`, after doubling a full
array. -/
theorem StoreDesc.add [Inhabited V] {ca : componentArray V} {L n d : Nat}
    {slot : Nat → Option (entityComponent V)} {m : Nat → Option Nat}
    (h : StoreDesc ca L n d slot m) (f e : Nat) (c : V)
    (hfree : m e = none ∨ ∃ k s, m e = some k ∧ slot k = some s ∧ s.Alive = false)
    (hL : 0 < L) (hn : n ≤ L) :
    ∃ ca1, ca.add f e c = Outcome.ok ca1 ∧
      StoreDesc ca1 (if n = L then 2 * L else L) (n + 1) d
        (fun k =>
          if k = n then some { Id := e, Component := c, Alive := true, ChangedAt := f }
          else if k < L then slot k
          else if n = L ∧ k < 2 * L then some (entityComponent.zero V) else none)
        (mapSet m e n) := by
  have hadd : ca.add f e c = ca.addSlot f e c := by
    unfold componentArray.add
    rcases hfree with h0 | ⟨k, s, h1, h2, h3⟩
    · rw [h.map e, h0]
    · rw [h.map e, h1]
      simp only
      rw [h.slots k, h2]
      simp [h3]
  rw [hadd]
  unfold componentArray.addSlot
  simp only [h.len, h.idx]
  by_cases hfull : n = L
  · subst hfull
    have hlt : n < (ca.entities ++ List.replicate n (entityComponent.zero V)).length := by
      simp [h.len]; omega
    simp only [ge_iff_le, Nat.le_refl, if_true, hlt]
    refine ⟨_, rfl, ?_⟩
    refine ⟨by simp [h.len]; omega, rfl, h.deads, ?_, ?_⟩
    · intro k
      simp only [List.getElem?_set, hlt, if_true]
      by_cases hk : k = n
      · simp [hk]
      · have hk' : ¬ n = k := fun h' => hk h'.symm
        simp only [hk, hk', if_false]
        rw [List.getElem?_append, h.len]
        by_cases hkL : k < n
        · simp [hkL, h.slots k]
        · simp only [hkL, if_false, List.getElem?_replicate]
          by_cases hk2 : k < 2 * n
          · have : k - n < n := by omega
            simp [this, hk2]
          · have : ¬ k - n < n := by omega
            simp [this, hk2]
    · intro x
      simp [mapSet, h.map x]
  · have hlt : n < L := by omega
    have hge : ¬ n ≥ L := by omega
    have hlt' : n < ca.entities.length := by rw [h.len]; exact hlt
    simp only [hge, if_false, h.len, hlt, if_true, hfull]
    refine ⟨_, rfl, ?_⟩
    refine ⟨by simp [h.len], rfl, h.deads, ?_, ?_⟩
    · intro k
      simp only [List.getElem?_set, hlt', if_true]
      by_cases hk : k = n
      · simp [hk]
      · have hk' : ¬ n = k := fun h' => hk h'.symm
        simp only [hk, hk', if_false, false_and]
        by_cases hkL : k < L
        · simp [hkL, h.slots k]
        · simp only [hkL, if_false]
          exact List.getElem?_eq_none (by rw [h.len]; omega)
    · intro x
      simp [mapSet, h.map x]

/-- The call `remove` for an entity whose indexed slot is alive. -/
theorem StoreDesc.remove {ca : componentArray V} {L n d : Nat}
    {slot : Nat → Option (entityComponent V)} {m : Nat → Option Nat}
    (h : StoreDesc ca L n d slot m) (f e k : Nat) (s : entityComponent V)
    (hm : m e = some k) (hs : slot k = some s) (halive : s.Alive = true) :
    ∃ ca1, ca.remove f e = Outcome.ok ca1 ∧
      StoreDesc ca1 L n (d + 1)
        (fun x => if x = k then some { s with Alive := false, ChangedAt := f } else slot x) m := by
  have hk : ca.entities[k]? = some s := (h.slots k).trans hs
  have hklt : k < ca.entities.length := (List.getElem?_eq_some.1 hk).1
  unfold componentArray.remove
  rw [h.map e, hm]
  simp only [hk, halive, Bool.not_true, Bool.false_eq_true, if_false]
  refine ⟨_, rfl, ?_⟩
  refine ⟨by simp [h.len], h.idx, by simp [h.deads], ?_, h.map⟩
  intro x
  simp only [List.getElem?_set, hklt, if_true]
  by_cases hx : x = k
  · simp [hx]
  · have hx' : ¬ k = x := fun h' => hx h'.symm
    simp [hx, hx', h.slots x]

theorem OneStoreW.add_ok [Inhabited V] {w : World V} {t f : Nat} {ca ca1 : componentArray V}
    (h : OneStoreW w t f ca) (e : Nat) (c : V) (hadd : ca.add f e c = Outcome.ok ca1) :
    ∃ w1, w.AddComponent t e c = Outcome.ok w1 ∧ OneStoreW w1 t f ca1 := by
  unfold World.AddComponent addComponent getComponentIdx
  simp only [h.toIdx, h.arr, h.sigs, h.frame, List.getElem?_cons_zero, hadd, Outcome.lift]
  exact ⟨_, rfl, rfl, h.nosys, h.toIdx, rfl, by simp⟩

theorem OneStoreW.remove_ok {w : World V} {t f : Nat} {ca ca1 : componentArray V}
    (h : OneStoreW w t f ca) (e : Nat) (hrm : ca.remove f e = Outcome.ok ca1) :
    ∃ w1, w.RemoveComponent t e = Outcome.ok w1 ∧ OneStoreW w1 t f ca1 := by
  unfold World.RemoveComponent removeComponent getComponentIdx
  simp only [h.toIdx, h.arr, h.sigs, h.frame, List.getElem?_cons_zero, hrm, Outcome.lift]
  exact ⟨_, rfl, rfl, h.nosys, h.toIdx, rfl, by simp⟩

theorem OneStoreW.newEntity_ok {w : World V} {t f : Nat} {ca : componentArray V}
    (h : OneStoreW w t f ca) : OneStoreW w.NewEntity.2 t f ca :=
  ⟨h.frame, h.nosys, h.toIdx, h.sigs, h.arr⟩

/-- Without systems the oplog is applied without effect. -/
theorem applyOplog_nosys (sm : systemManager) (h : sm.systems = []) (oplog : List oplogEntry) :
    World.applyOplog sm oplog = Outcome.ok sm := by
  have hadd : ∀ e sig, sm.addEntity e sig = Outcome.ok sm := by
    intro e sig; simp [systemManager.addEntity, h, forEach]
  have hrm : ∀ e sig, sm.removeEntity e sig = Outcome.ok sm := by
    intro e sig; simp [systemManager.removeEntity, h, forEach]
  unfold World.applyOplog
  induction oplog with
  | nil => rfl
  | cons op rest ih =>
    unfold forEach
    cases hk : op.Kind
    · simp only [hrm]; exact ih
    · simp only [hadd]; exact ih

theorem OneStoreW.tick_ok {w : World V} {t f : Nat} {ca ca1 : componentArray V}
    (h : OneStoreW w t f ca) (hp : ca.prune = Outcome.ok ca1) (hf : f + 1 < 2 ^ 64) :
    ∃ w1, w.cleanupTick = Outcome.ok w1 ∧ OneStoreW w1 t (f + 1) ca1 := by
  unfold World.cleanupTick World.cleanup componentManager.prune
  simp only [applyOplog_nosys w.sm h.nosys, h.arr, pruneArrays, hp, Outcome.lift, h.frame,
    Nat.mod_eq_of_lt hf]
  exact ⟨_, rfl, rfl, h.nosys, h.toIdx, h.sigs, rfl⟩

theorem OneStoreW.register_ok [Inhabited V] (t : Nat) :
    ∃ w1, (New V).RegisterComponent t = Outcome.ok w1 ∧ OneStoreW w1 t 0 (componentArray.new V) := by
  have hnext : (Signature.Next 1) = (2, true) := by decide
  unfold World.RegisterComponent registerComponent
  simp only [hasComponentArray, New, newComponentManager, mapEmpty, Option.isSome_none,
    Bool.false_eq_true, if_false, Outcome.lift, hnext, if_true]
  exact ⟨_, rfl, rfl, rfl, by simp [mapSet], rfl, rfl⟩

theorem scanDown_eq (ents : List (entityComponent V)) (a : Nat) (s : entityComponent V)
    (ha : ents[a]? = some s) (hs : s.Alive = true) :
    ∀ j, a ≤ j → (∀ k, a < k → k ≤ j → ∃ s1, ents[k]? = some s1 ∧ s1.Alive = false) →
      componentArray.scanDown ents j = some a := by
  intro j
  induction j with
  | zero =>
    intro haj _
    have : a = 0 := by omega
    subst this
    simp [componentArray.scanDown, ha, hs]
  | succ j ih =>
    intro haj hdead
    unfold componentArray.scanDown
    by_cases hEq : a = j + 1
    · subst hEq
      simp [ha, hs]
    · obtain ⟨s1, h1, h2⟩ := hdead (j + 1) (by omega) (Nat.le_refl _)
      simp only [h1, h2, Bool.false_eq_true, if_false]
      exact ih (by omega) (fun k hk1 hk2 => hdead k hk1 (by omega))

theorem scanUp_eq (ents : List (entityComponent V)) (b : Nat) (s : entityComponent V)
    (hb : ents[b]? = some s) (hs : s.Alive = false) :
    ∀ d i, i + d = b → (∀ k, i ≤ k → k < b → ∃ s1, ents[k]? = some s1 ∧ s1.Alive = true) →
      componentArray.scanUp ents i = some b := by
  intro d
  induction d with
  | zero =>
    intro i hi _
    have : i = b := by omega
    subst this
    obtain ⟨hlt, hget⟩ := List.getElem?_eq_some.1 hb
    unfold componentArray.scanUp
    rw [List.drop_eq_getElem_cons hlt, hget]
    simp [componentArray.scanUpFrom, hs]
  | succ d ih =>
    intro i hi halive
    obtain ⟨s1, h1, h2⟩ := halive i (Nat.le_refl _) (by omega)
    obtain ⟨hlt, hget⟩ := List.getElem?_eq_some.1 h1
    unfold componentArray.scanUp
    rw [List.drop_eq_getElem_cons hlt, hget]
    simp only [componentArray.scanUpFrom, h2, Bool.not_true, Bool.false_eq_true, if_false]
    exact ih (i + 1) (by omega) (fun k hk1 hk2 => halive k (by omega) hk2)

theorem swapSlots_getElem? (ents : List (entityComponent V)) (i j : Nat)
    (a b : entityComponent V) (hi : ents[i]? = some a) (hj : ents[j]? = some b) (k : Nat) :
    (componentArray.swapSlots ents i j)[k]? =
      if k = j then some a else if k = i then some b else ents[k]? := by
  have hil : i < ents.length := (List.getElem?_eq_some.1 hi).1
  have hjl : j < ents.length := (List.getElem?_eq_some.1 hj).1
  unfold componentArray.swapSlots
  simp only [hi, hj, List.getElem?_set, List.length_set, hil, hjl, if_true]
  by_cases hkj : k = j
  · simp [hkj]
  · have hjk : ¬ j = k := fun h => hkj h.symm
    simp only [hkj, hjk, if_false]
    by_cases hki : k = i
    · simp [hki]
    · have hik : ¬ i = k := fun h => hki h.symm
      simp [hki, hik]

theorem prune_noop (ca : componentArray V)
    (h : ¬ (ca.deads ≥ ca.entities.length / 2 ∧ ca.idx > initialEntityArraySize)) :
    ca.prune = Outcome.ok ca := by
  unfold componentArray.prune
  rw [if_neg h]

theorem Outcome.bind_ok {σ : Type} (s : σ) (f : σ → Outcome σ) :
    (Outcome.ok s).bind f = f s := rfl

theorem runOps_append {V : Type} [Inhabited V] (a b : List (Op V)) (w : World V) :
    runOps (a ++ b) w = (runOps a w).bind (runOps b) :=
  forEach_append Op.apply a b w

theorem StoreDesc.cast {V : Type} {ca : componentArray V} {L L1 n n1 d d1 : Nat}
    {slot slot1 : Nat → Option (entityComponent V)} {m m1 : Nat → Option Nat}
    (h : StoreDesc ca L n d slot m) (hL : L = L1) (hn : n = n1) (hd : d = d1)
    (hs : ∀ k, slot k = slot1 k) (hm : ∀ e, m e = m1 e) : StoreDesc ca L1 n1 d1 slot1 m1 := by
  subst hL hn hd
  exact h.congr hs hm

theorem phaseNew {V : Type} [Inhabited V] (t f : Nat) (ca : componentArray V) (n : Nat) :
    ∀ w : World V, OneStoreW w t f ca →
      ∃ w1, runOps (List.replicate n Op.newEntity) w = Outcome.ok w1 ∧ OneStoreW w1 t f ca := by
  induction n with
  | zero => intro w h; exact ⟨w, rfl, h⟩
  | succ n ih =>
    intro w h
    obtain ⟨w1, h1, h2⟩ := ih w.NewEntity.2 h.newEntity_ok
    exact ⟨w1, by rw [List.replicate_succ, runOps_cons]; exact h1, h2⟩

theorem phaseA (j : Nat) (hj : j ≤ 514) (w : World Val) (ca : componentArray Val)
    (hw : OneStoreW w tPlayer 0 ca) (hca : StoreDesc ca 512 0 0 (slotsA 0) (mapA 0)) :
    ∃ w1 ca1,
      runOps ((List.range j).map (fun e => Op.addComponent tPlayer e startValue)) w = Outcome.ok w1 ∧
      OneStoreW w1 tPlayer 0 ca1 ∧ StoreDesc ca1 (capA j) j 0 (slotsA j) (mapA j) := by
  induction j with
  | zero => exact ⟨w, ca, rfl, hw, hca⟩
  | succ j ih =>
    obtain ⟨w1, ca1, h1, h2, h3⟩ := ih (by omega)
    have hcap : 0 < capA j := by unfold capA; split <;> omega
    have hle : j ≤ capA j := by unfold capA; split <;> omega
    obtain ⟨ca2, hadd, hdesc⟩ :=
      h3.add 0 j startValue (Or.inl (by simp [mapA])) hcap hle
    obtain ⟨w2, hw2, hone⟩ := h2.add_ok j startValue hadd
    refine ⟨w2, ca2, ?_, hone, ?_⟩
    · rw [List.range_succ, List.map_append, runOps_append, h1]
      simp only [Outcome.bind, List.map_cons, List.map_nil, runOps_cons, Op.apply, hw2]
      rfl
    · refine hdesc.cast ?_ rfl rfl ?_ ?_
      · unfold capA; split_ifs <;> omega
      · intro k
        clear hcap hle hdesc h3 ih
        simp only [slotsA, capA]
        split_ifs <;> first | rfl | omega | simp [*]
      · intro e
        clear hcap hle hdesc h3 ih
        simp only [mapSet, mapA]
        split_ifs <;> first | rfl | omega | simp [*]

theorem phaseB (r : Nat) (hr : r ≤ 511) (w : World Val) (ca : componentArray Val)
    (hw : OneStoreW w tPlayer 1 ca) (hca : StoreDesc ca 1024 514 0 (slotsB 0) (mapA 514)) :
    ∃ w1 ca1,
      runOps ((List.range r).map (fun k => Op.removeComponent tPlayer (k + 3))) w
        = Outcome.ok w1 ∧
      OneStoreW w1 tPlayer 1 ca1 ∧ StoreDesc ca1 1024 514 r (slotsB r) (mapA 514) := by
  induction r with
  | zero => exact ⟨w, ca, rfl, hw, hca⟩
  | succ r ih =>
    obtain ⟨w1, ca1, h1, h2, h3⟩ := ih (by omega)
    obtain ⟨ca2, hrm, hdesc⟩ :=
      h3.remove 1 (r + 3) (r + 3)
        { Id := r + 3, Component := startValue, Alive := true, ChangedAt := 0 }
        (by simp only [mapA]; rw [if_pos (by omega)])
        (by simp only [slotsB]; rw [if_pos (by omega), if_neg (by omega)]) rfl
    obtain ⟨w2, hw2, hone⟩ := h2.remove_ok (r + 3) hrm
    refine ⟨w2, ca2, ?_, hone, ?_⟩
    · rw [List.range_succ, List.map_append, runOps_append, h1]
      simp only [Outcome.bind, List.map_cons, List.map_nil, runOps_cons, Op.apply, hw2]
      rfl
    · refine hdesc.cast rfl rfl rfl ?_ (fun _ => rfl)
      intro k
      clear hdesc h3 ih
      simp only [slotsB]
      split_ifs <;> first | rfl | omega | simp [*]

theorem OneStoreW.get_eq {V : Type} {w : World V} {t f : Nat} {ca : componentArray V}
    (h : OneStoreW w t f ca) (e : Nat) :
    w.GetComponent t e = ca.Get f e ∧ w.HasComponent t e = ca.has f e := by
  simp [World.GetComponent, World.HasComponent, getComponent, hasComponent, getComponentIdx,
    h.toIdx, h.arr, h.frame]

/-- The compaction scenario runs without a panic and ends in tick 2 with one
store of capacity 1024, 514 used slots and 512 in the dead counter. -/
theorem compaction_pre :
    ∃ ca, runOps compactionOps (New Val) = Outcome.ok compactionWorld ∧
      OneStoreW compactionWorld tPlayer 2 ca ∧ StoreDesc ca 1024 514 512 slotsC (mapA 514) := by
  obtain ⟨w1, hreg, hone1⟩ := OneStoreW.register_ok (V := Val) tPlayer
  have desc0 : StoreDesc (componentArray.new Val) 512 0 0 (slotsA 0) (mapA 0) :=
    ⟨List.length_replicate _ _, rfl, rfl,
      fun k => by
        show (List.replicate initialEntityArraySize (entityComponent.zero Val))[k]? = slotsA 0 k
        rw [List.getElem?_replicate]
        simp only [slotsA, capA, initialEntityArraySize]
        split_ifs <;> first | rfl | omega,
      fun e => rfl⟩
  obtain ⟨w2, hrun2, hone2⟩ := phaseNew tPlayer 0 (componentArray.new Val) 514 w1 hone1
  obtain ⟨w3, ca3, hrun3, hone3, desc3⟩ := phaseA 514 (Nat.le_refl _) w2 _ hone2 desc0
  have hprune3 : ca3.prune = Outcome.ok ca3 := by
    apply prune_noop
    rw [desc3.deads, desc3.len, desc3.idx]
    decide
  obtain ⟨w4, hrun4, hone4⟩ := hone3.tick_ok hprune3 (by decide)
  have desc4 : StoreDesc ca3 1024 514 0 (slotsB 0) (mapA 514) := by
    refine desc3.cast (by decide) rfl rfl ?_ (fun _ => rfl)
    intro k
    simp only [slotsA, slotsB, capA]
    split_ifs <;> first | rfl | omega
  obtain ⟨w5, ca5, hrun5, hone5, desc5⟩ := phaseB 511 (Nat.le_refl _) w4 ca3 hone4 desc4
  have hprune5 : ca5.prune = Outcome.ok ca5 := by
    apply prune_noop
    rw [desc5.deads, desc5.len, desc5.idx]
    decide
  obtain ⟨w6, hrun6, hone6⟩ := hone5.tick_ok hprune5 (by decide)
  obtain ⟨ca7, hrm7, desc7⟩ :=
    desc5.remove 2 1 1 { Id := 1, Component := startValue, Alive := true, ChangedAt := 0 }
      rfl rfl rfl
  obtain ⟨w7, hrun7, hone7⟩ := hone6.remove_ok 1 hrm7
  have e1 : runOps [Op.registerComponent tPlayer] (New Val) = Outcome.ok w1 := by
    rw [runOps_cons]
    show ((New Val).RegisterComponent tPlayer).bind _ = _
    rw [hreg]; rfl
  have e4 : runOps [Op.cleanupTick] w3 = Outcome.ok w4 := by
    rw [runOps_cons]
    show (w3.cleanupTick).bind _ = _
    rw [hrun4]; rfl
  have e7 : runOps [Op.cleanupTick, Op.removeComponent tPlayer 1] w5 = Outcome.ok w7 := by
    rw [runOps_cons]
    show (w5.cleanupTick).bind _ = _
    rw [hrun6, Outcome.bind_ok, runOps_cons]
    show (w6.RemoveComponent tPlayer 1).bind _ = _
    rw [hrun7]; rfl
  have hrun : runOps compactionOps (New Val) = Outcome.ok w7 := by
    simp only [compactionOps, runOps_append, e1, hrun2, hrun3, e4, hrun5, e7, Outcome.bind_ok]
  have hw : compactionWorld = w7 := by
    unfold compactionWorld
    rw [hrun]
    rfl
  rw [hw]
  exact ⟨ca7, hrun, hone7, desc7.cast rfl rfl rfl (fun _ => rfl) (fun _ => rfl)⟩

theorem slotsD_tail (k : Nat) (h1 : 514 < k) (h2 : k < 1024) :
    slotsD k = some (entityComponent.zero Val) := by
  simp only [slotsD, slotsB]
  rw [if_neg (by omega), if_neg (by omega), if_neg (by omega), if_pos h2]

theorem slotsD_mid (k : Nat) (h1 : 3 ≤ k) (h2 : k < 514) :
    slotsD k = some { Id := k, Component := startValue, Alive := false, ChangedAt := 1 } := by
  simp only [slotsD, slotsB]
  rw [if_neg (by omega), if_neg (by omega), if_pos h2, if_pos (by omega)]

/-- The compaction of the store of the scenario: the loop swaps slots 1 and
514 and stops with `i = 3`, a dead slot of entity 3, so the used prefix
`[0, 4)` ends with that dead slot; re-indexing the prefix in order maps
entity 3 first to slot 1 (its live component) and then to slot 3. -/
theorem compaction_prune (ca : componentArray Val) (m : Nat → Option Nat)
    (h : StoreDesc ca 1024 515 512 slotsD m) :
    ∃ ca1, ca.prune = Outcome.ok ca1 ∧ ca1.entityToIdx 3 = some 3 ∧
      ca1.entities[3]? = some { Id := 3, Component := startValue, Alive := false, ChangedAt := 1 } ∧
      ca1.entities[1]? = some { Id := 3, Component := lateValue, Alive := true, ChangedAt := 2 } := by
  have hD : ∀ k, ca.entities[k]? = slotsD k := h.slots
  have down1 : componentArray.scanDown ca.entities 1023 = some 514 :=
    scanDown_eq ca.entities 514 _ (hD 514) rfl 1023 (by omega)
      (fun k h1 h2 => ⟨_, (hD k).trans (slotsD_tail k h1 (by omega)), rfl⟩)
  have up1 : componentArray.scanUp ca.entities 0 = some 1 :=
    scanUp_eq ca.entities 1 _ (hD 1) rfl 1 0 rfl
      (fun k h1 h2 => ⟨_, (by
        have : k = 0 := by omega
        subst this
        exact hD 0), rfl⟩)
  have hS : ∀ k, (componentArray.swapSlots ca.entities 1 514)[k]? =
      if k = 514 then some { Id := 1, Component := startValue, Alive := false, ChangedAt := 2 }
      else if k = 1 then some { Id := 3, Component := lateValue, Alive := true, ChangedAt := 2 }
      else slotsD k := by
    intro k
    rw [swapSlots_getElem? ca.entities 1 514 _ _ (hD 1) (hD 514) k, hD k]
  have down2 : componentArray.scanDown (componentArray.swapSlots ca.entities 1 514) 514 = some 2 :=
    scanDown_eq _ 2 _ ((hS 2).trans rfl) rfl 514 (by omega)
      (fun k h1 h2 => by
        by_cases hk : k = 514
        · subst hk
          exact ⟨_, (hS 514).trans rfl, rfl⟩
        · refine ⟨{ Id := k, Component := startValue, Alive := false, ChangedAt := 1 },
            (hS k).trans ?_, rfl⟩
          rw [if_neg hk, if_neg (by omega)]
          exact slotsD_mid k (by omega) (by omega))
  have up2 : componentArray.scanUp (componentArray.swapSlots ca.entities 1 514) 1 = some 3 :=
    scanUp_eq _ 3 _ ((hS 3).trans rfl) rfl 2 1 rfl
      (fun k h1 h2 => by
        have hk : k = 1 ∨ k = 2 := by omega
        rcases hk with rfl | rfl
        · exact ⟨_, (hS 1).trans rfl, rfl⟩
        · exact ⟨_, (hS 2).trans rfl, rfl⟩)
  have hloop : componentArray.compactLoop (2 * ca.entities.length + 2) ca.entities 0
      (ca.entities.length - 1)
      = some (Outcome.ok (componentArray.swapSlots ca.entities 1 514, 3)) := by
    rw [h.len]
    show componentArray.compactLoop (2048 + 1 + 1) ca.entities 0 1023 = _
    rw [componentArray.compactLoop]
    simp only [show (0 : Nat) < 1023 by decide, if_true, down1, show (0 : Nat) < 514 by decide,
      up1, show ¬ (1 ≥ 514) by decide, if_false]
    rw [componentArray.compactLoop]
    simp only [show (1 : Nat) < 514 by decide, if_true, down2, show (1 : Nat) < 2 by decide, up2,
      show (3 : Nat) ≥ 2 by decide]
  have h0 := (hS 0).trans (rfl : _ = some
    ({ Id := 0, Component := startValue, Alive := true, ChangedAt := 0 } : entityComponent Val))
  have h1 := (hS 1).trans (rfl : _ = some
    ({ Id := 3, Component := lateValue, Alive := true, ChangedAt := 2 } : entityComponent Val))
  have h2 := (hS 2).trans (rfl : _ = some
    ({ Id := 2, Component := startValue, Alive := true, ChangedAt := 0 } : entityComponent Val))
  have h3 := (hS 3).trans (rfl : _ = some
    ({ Id := 3, Component := startValue, Alive := false, ChangedAt := 1 } : entityComponent Val))
  unfold componentArray.prune
  rw [if_pos (by rw [h.deads, h.len, h.idx]; decide), hloop]
  simp only [componentArray.reindex, show List.range (3 + 1) = [0, 1, 2, 3] by decide, forEach,
    h0, h1, h2, h3]
  exact ⟨_, rfl, rfl, h3, h1⟩

/-- C1 at the compaction scenario.  In tick 2 entity 3 does not hold `Player`
(`GetComponent` is nil, `HasComponent` is false).  `AddComponent` gives it
`Player{7, 7}`; for the rest of tick 2 `GetComponent` is nil and
`HasComponent` is true, as claimed.  The tick then ends (`cleanup(); frame++`,
as in `RunUpdate`), the cleanup compacts the store, and in tick 3
`GetComponent` still returns nil instead of the added value. -/
theorem AddComponent_at_failing_input :
    (runOps compactionOps (New Val)).isOk = true ∧
    compactionWorld.frame = 2 ∧
    compactionWorld.GetComponent tPlayer 3 = .ok none ∧
    compactionWorld.HasComponent tPlayer 3 = .ok false ∧
    (compactionWorld.AddComponent tPlayer 3 lateValue).isOk = true ∧
    (compactionWorld.AddComponent tPlayer 3 lateValue).state.GetComponent tPlayer 3 = .ok none ∧
    (compactionWorld.AddComponent tPlayer 3 lateValue).state.HasComponent tPlayer 3 = .ok true ∧
    (compactionWorld.AddComponent tPlayer 3 lateValue).state.cleanupTick.isOk = true ∧
    (compactionWorld.AddComponent tPlayer 3 lateValue).state.cleanupTick.state.frame = 3 ∧
    (compactionWorld.AddComponent tPlayer 3 lateValue).state.cleanupTick.state.GetComponent
      tPlayer 3 = .ok none := by
  obtain ⟨ca, hrun, hone, desc⟩ := compaction_pre
  have hm3 : ca.entityToIdx 3 = some 3 := (desc.map 3).trans rfl
  have hs3 : ca.entities[3]? = some
      { Id := 3, Component := startValue, Alive := false, ChangedAt := 1 } :=
    (desc.slots 3).trans rfl
  obtain ⟨ca1, hadd, desc1⟩ := desc.add 2 3 lateValue
    (Or.inr ⟨3, _, rfl, rfl, rfl⟩) (by decide) (by decide)
  obtain ⟨w1, hw1, hone1⟩ := hone.add_ok 3 lateValue hadd
  have desc1' : StoreDesc ca1 1024 515 512 slotsD (mapSet (mapA 514) 3 514) := by
    refine desc1.cast (by decide) rfl rfl ?_ (fun _ => rfl)
    intro k
    simp only [slotsD, slotsC, slotsB]
    split_ifs <;> first | rfl | omega
  have hm1 : ca1.entityToIdx 3 = some 514 := (desc1'.map 3).trans rfl
  have hs1 : ca1.entities[514]? = some
      { Id := 3, Component := lateValue, Alive := true, ChangedAt := 2 } :=
    (desc1'.slots 514).trans rfl
  obtain ⟨ca2, hprune, hm2, hs2, _⟩ := compaction_prune ca1 _ desc1'
  obtain ⟨w2, hw2, hone2⟩ := hone1.tick_ok hprune (by decide)
  rw [hrun, hw1]
  simp only [Outcome.state_ok, hw2]
  refine ⟨rfl, hone.frame, ?_, ?_, rfl, ?_, ?_, rfl, hone2.frame, ?_⟩
  · rw [(hone.get_eq 3).1]
    simp [componentArray.Get, hm3, hs3, entityComponent.isDead]
  · rw [(hone.get_eq 3).2]
    simp [componentArray.has, hm3, hs3, entityComponent.isAlive]
  · rw [(hone1.get_eq 3).1]
    simp [componentArray.Get, hm1, hs1, entityComponent.isDead]
  · rw [(hone1.get_eq 3).2]
    simp [componentArray.has, hm1, hs1, entityComponent.isAlive]
  · rw [(hone2.get_eq 3).1]
    simp [componentArray.Get, hm2, hs2, entityComponent.isDead]

/-! ## The compaction loop terminates -/

theorem scanDown_some (ents : List (entityComponent V)) :
    ∀ j a, componentArray.scanDown ents j = some a →
      a ≤ j ∧ ∃ s, ents[a]? = some s ∧ s.Alive = true := by
  intro j
  induction j with
  | zero =>
    intro a h
    unfold componentArray.scanDown at h
    cases h0 : ents[0]? with
    | none => simp [h0] at h
    | some s =>
      simp only [h0] at h
      by_cases hs : s.Alive = true
      · simp only [hs, if_true] at h
        cases h
        exact ⟨Nat.le_refl _, s, h0, hs⟩
      · simp [hs] at h
  | succ j ih =>
    intro a h
    unfold componentArray.scanDown at h
    cases h0 : ents[j + 1]? with
    | none => simp [h0] at h
    | some s =>
      simp only [h0] at h
      by_cases hs : s.Alive = true
      · simp only [hs, if_true] at h
        cases h
        exact ⟨Nat.le_refl _, s, h0, hs⟩
      · simp only [hs, Bool.false_eq_true, if_false] at h
        obtain ⟨h1, h2⟩ := ih a h
        exact ⟨Nat.le_succ_of_le h1, h2⟩

theorem scanUpFrom_some :
    ∀ (l : List (entityComponent V)) (i b : Nat), componentArray.scanUpFrom l i = some b →
      i ≤ b ∧ ∃ s, l[b - i]? = some s ∧ s.Alive = false := by
  intro l
  induction l with
  | nil => intro i b h; simp [componentArray.scanUpFrom] at h
  | cons x rest ih =>
    intro i b h
    unfold componentArray.scanUpFrom at h
    by_cases hx : x.Alive = true
    · simp only [hx, Bool.not_true, Bool.false_eq_true, if_false] at h
      obtain ⟨h1, s, h2, h3⟩ := ih (i + 1) b h
      refine ⟨by omega, s, ?_, h3⟩
      have : b - i = (b - (i + 1)) + 1 := by omega
      rw [this, List.getElem?_cons_succ]
      exact h2
    · have hx' : x.Alive = false := by simpa using hx
      simp only [hx', Bool.not_false, if_true] at h
      cases h
      exact ⟨Nat.le_refl _, x, by simp, hx'⟩

theorem scanUp_some (ents : List (entityComponent V)) (i b : Nat)
    (h : componentArray.scanUp ents i = some b) :
    i ≤ b ∧ ∃ s, ents[b]? = some s ∧ s.Alive = false := by
  unfold componentArray.scanUp at h
  obtain ⟨h1, s, h2, h3⟩ := scanUpFrom_some _ i b h
  refine ⟨h1, s, ?_, h3⟩
  rw [List.getElem?_drop] at h2
  have : i + (b - i) = b := by omega
  rw [this] at h2
  exact h2

/-- The compaction loop ends within `2 * (j - i) + 2` iterations: after every
swap slot `j` is dead, so the next downward scan moves `j`. -/
theorem compactLoop_total :
    ∀ (fuel : Nat) (ents : List (entityComponent V)) (i j : Nat),
      2 * (j - i) + aliveFlag ents j < fuel →
      componentArray.compactLoop fuel ents i j ≠ none := by
  intro fuel
  induction fuel with
  | zero => intro ents i j h; omega
  | succ fuel ih =>
    intro ents i j h
    unfold componentArray.compactLoop
    by_cases hij : i < j
    · simp only [hij, if_true]
      cases hd : componentArray.scanDown ents j with
      | none => simp
      | some j1 =>
        obtain ⟨hj1, sj, hsj, hsjA⟩ := scanDown_some ents j j1 hd
        simp only
        by_cases hij1 : i < j1
        · simp only [hij1, if_true]
          cases hu : componentArray.scanUp ents i with
          | none => simp
          | some i1 =>
            obtain ⟨hi1, si, hsi, hsiA⟩ := scanUp_some ents i i1 hu
            simp only
            by_cases hdone : i1 ≥ j1
            · simp [hdone]
            · simp only [hdone, if_false]
              apply ih
              have hflag' : aliveFlag (componentArray.swapSlots ents i1 j1) j1 = 0 := by
                unfold aliveFlag
                rw [swapSlots_getElem? ents i1 j1 si sj hsi hsj j1]
                simp [hsiA]
              rw [hflag']
              by_cases hsame : j1 = j ∧ i1 = i
              · obtain ⟨rfl, rfl⟩ := hsame
                have : aliveFlag ents j1 = 1 := by
                  unfold aliveFlag
                  rw [hsj]
                  simp [hsjA]
                omega
              · omega
        · simp only [hij1, if_false]
          have : i ≥ j1 := by omega
          simp [this]
    · simp only [hij, if_false]
      have : i ≥ j := by omega
      simp [this]

theorem compactLoop_panic :
    ∀ (fuel : Nat) (ents : List (entityComponent V)) (i j : Nat) (p : Panic)
      (st : List (entityComponent V) × Nat),
      componentArray.compactLoop fuel ents i j = some (Outcome.panic p st) →
      p = Panic.indexOutOfRange := by
  intro fuel
  induction fuel with
  | zero => intro ents i j p st h; simp [componentArray.compactLoop] at h
  | succ fuel ih =>
    intro ents i j p st h
    unfold componentArray.compactLoop at h
    split at h
    · cases h; rfl
    · split at h
      · cases h; rfl
      · split at h
        · cases h
        · exact ih _ _ _ p st h

theorem reindex_panicOf (ca : componentArray V) :
    ca.reindex.panicOf = none ∨ ca.reindex.panicOf = some Panic.indexOutOfRange := by
  unfold componentArray.reindex
  generalize List.range ca.idx = l
  induction l generalizing ca with
  | nil => left; rfl
  | cons x rest ih =>
    unfold forEach
    cases hx : ca.entities[x]? with
    | none => right; rfl
    | some s => exact ih _

/-- The bound of the embedding of the compaction loop is never reached: `prune`
returns or panics with an index out of range. -/
theorem prune_panicOf (ca : componentArray V) :
    ca.prune.panicOf = none ∨ ca.prune.panicOf = some Panic.indexOutOfRange := by
  unfold componentArray.prune
  split
  · have htot := compactLoop_total (2 * ca.entities.length + 2) ca.entities 0
      (ca.entities.length - 1) (by
        have : aliveFlag ca.entities (ca.entities.length - 1) ≤ 1 := by
          unfold aliveFlag
          split
          · split <;> omega
          · omega
        omega)
    split
    · rename_i h; exact absurd h htot
    · rename_i p ents i h
      right
      rw [compactLoop_panic _ _ _ _ p _ h]
      rfl
    · exact reindex_panicOf _
  · left; rfl

/-! ## `Init` and `RunUpdate` stay within the reachable worlds -/

theorem Reachable.step [Inhabited V] {w w1 : World V} (hw : Reachable w) (op : Op V)
    (h : op.apply w = Outcome.ok w1) : Reachable w1 := by
  obtain ⟨ops, hrun⟩ := hw
  refine ⟨ops ++ [op], ?_⟩
  rw [runOps_append, hrun, Outcome.bind_ok, runOps_cons, h]
  rfl

theorem runSystems_reachable [Inhabited V] (upd : Nat → UpdateState V → Outcome (World V))
    (hupd : ∀ s us w1, Reachable us.World → upd s us = Outcome.ok w1 → Reachable w1)
    (dt : Nat) :
    ∀ (l : List (Nat × Nat)) (st st1 : World V × List (Nat × List EntityID)),
      Reachable st.1 → World.runSystems upd dt l st = Outcome.ok st1 → Reachable st1.1 := by
  intro l
  induction l with
  | nil =>
    intro st st1 hst h
    simp only [World.runSystems] at h
    cases h
    exact hst
  | cons x rest ih =>
    intro st st1 hst h
    obtain ⟨i, s⟩ := x
    obtain ⟨w, calls⟩ := st
    unfold World.runSystems at h
    split at h
    · cases h
    · rename_i entities hents
      split at h
      · cases h
      · rename_i w1 hw1
        exact ih _ st1 (hupd s _ w1 hst hw1) h

/-- The call `RunUpdate` stays within the worlds reachable by calls of the exported
functions, provided the `Update` methods do (as code outside the package
must). -/
theorem RunUpdate_reachable [Inhabited V] (upd : Nat → UpdateState V → Outcome (World V))
    (hupd : ∀ s us w1, Reachable us.World → upd s us = Outcome.ok w1 → Reachable w1)
    (w w2 : World V) (dt : Nat) (hw : Reachable w) (h : w.RunUpdate upd dt = Outcome.ok w2) :
    Reachable w2 := by
  unfold World.RunUpdate at h
  obtain ⟨st, hst, rfl⟩ := Outcome.lift_eq_ok h
  unfold World.RunUpdateCalls at hst
  split at hst
  · cases hst
  · rename_i w1 calls hsys
    obtain ⟨w3, hw3, rfl⟩ := Outcome.lift_eq_ok hst
    have hr1 : Reachable w1 := runSystems_reachable upd hupd dt _ (w, []) (w1, calls) hw hsys
    exact hr1.step Op.cleanupTick hw3

theorem forEach_reachable [Inhabited V] (ini : Nat → World V → Outcome (World V))
    (hini : ∀ s w w1, Reachable w → ini s w = Outcome.ok w1 → Reachable w1) :
    ∀ (l : List Nat) (w w1 : World V), Reachable w → forEach ini l w = Outcome.ok w1 →
      Reachable w1 := by
  intro l
  induction l with
  | nil => intro w w1 hw h; simp only [forEach] at h; cases h; exact hw
  | cons s rest ih =>
    intro w w1 hw h
    unfold forEach at h
    split at h
    · rename_i w2 hw2
      exact ih w2 w1 (hini s w w2 hw hw2) h
    · cases h

/-- The call `Init` stays within the worlds reachable by calls of the exported
functions, provided the `Init` methods of the init systems do. -/
theorem Init_reachable [Inhabited V] (ini : Nat → World V → Outcome (World V))
    (hini : ∀ s w w1, Reachable w → ini s w = Outcome.ok w1 → Reachable w1)
    (w w2 : World V) (hw : Reachable w) (h : w.Init ini = Outcome.ok w2) : Reachable w2 := by
  unfold World.Init at h
  split at h
  · cases h
  · rename_i w1 hw1
    exact forEach_reachable ini hini _ w1 w2 (hw.step Op.cleanupTick hw1) h

/-! ## Index-map well-formedness is kept by every call -/

theorem IdxInv.of_new [Inhabited V] : IdxInv (componentArray.new V) :=
  ⟨Nat.zero_le _, fun e k h => by simp [componentArray.new, mapEmpty] at h⟩

theorem addSlot_eq_ok [Inhabited V] {ca ca1 : componentArray V} {f e : Nat} {c : V}
    (h : ca.addSlot f e c = Outcome.ok ca1) :
    ∃ ents : List (entityComponent V),
      (∀ k, k < ca.entities.length → ents[k]? = ca.entities[k]?) ∧
      ca.entities.length ≤ ents.length ∧ ca.idx < ents.length ∧
      ca1 = { entities := ents.set ca.idx { Id := e, Component := c, Alive := true, ChangedAt := f }
              entityToIdx := mapSet ca.entityToIdx e ca.idx
              idx := ca.idx + 1
              deads := ca.deads } := by
  unfold componentArray.addSlot at h
  by_cases hfull : ca.idx ≥ ca.entities.length
  · simp only [hfull, if_true] at h
    by_cases hlt : ca.idx <
        (ca.entities ++ List.replicate ca.entities.length (entityComponent.zero V)).length
    · simp only [hlt, if_true] at h
      cases h
      exact ⟨_, fun k hk => List.getElem?_append_left hk, by simp, hlt, rfl⟩
    · simp only [hlt, if_false] at h
      cases h
  · simp only [hfull, if_false] at h
    by_cases hlt : ca.idx < ca.entities.length
    · simp only [hlt, if_true] at h
      cases h
      exact ⟨_, fun k _ => rfl, Nat.le_refl _, hlt, rfl⟩
    · simp only [hlt, if_false] at h
      cases h

theorem add_eq_ok [Inhabited V] {ca ca1 : componentArray V} {f e : Nat} {c : V}
    (h : ca.add f e c = Outcome.ok ca1) :
    ca.addSlot f e c = Outcome.ok ca1 ∧
      ∀ k s, ca.entityToIdx e = some k → ca.entities[k]? = some s → s.Alive = false := by
  unfold componentArray.add at h
  split at h
  · rename_i hnone
    exact ⟨h, fun k s hk => by rw [hnone] at hk; cases hk⟩
  · rename_i idx hidx
    split at h
    · cases h
    · rename_i slot hslot
      split at h
      · cases h
      · rename_i hdead
        refine ⟨h, fun k s hk hs => ?_⟩
        rw [hidx] at hk
        cases hk
        rw [hslot] at hs
        cases hs
        simpa using hdead

theorem IdxInv.after_add [Inhabited V] {ca ca1 : componentArray V} {f e : Nat} {c : V}
    (hinv : IdxInv ca) (h : ca.add f e c = Outcome.ok ca1) : IdxInv ca1 := by
  obtain ⟨ents, hsame, hlen, hlt, rfl⟩ := addSlot_eq_ok (add_eq_ok h).1
  refine ⟨by simp; omega, ?_⟩
  intro x k hk
  simp only [mapSet] at hk
  by_cases hx : x = e
  · simp only [hx, if_true] at hk
    cases hk
    exact ⟨Nat.lt_succ_self _, { Id := e, Component := c, Alive := true, ChangedAt := f },
      by simp [hlt], hx.symm⟩
  · simp only [hx, if_false] at hk
    obtain ⟨h1, s, h2, h3⟩ := hinv.map x k hk
    refine ⟨Nat.lt_succ_of_lt h1, s, ?_, h3⟩
    have hne : ca.idx ≠ k := by omega
    rw [List.getElem?_set_ne hne, hsame k (by have := hinv.idx_le; omega)]
    exact h2

theorem remove_eq_ok {ca ca1 : componentArray V} {f e : Nat}
    (h : ca.remove f e = Outcome.ok ca1) :
    ∃ k slot, ca.entityToIdx e = some k ∧ ca.entities[k]? = some slot ∧ slot.Alive = true ∧
      ca1 = { ca with
              entities := ca.entities.set k { slot with Alive := false, ChangedAt := f }
              deads := ca.deads + 1 } := by
  unfold componentArray.remove at h
  split at h
  · cases h
  · rename_i k hk
    split at h
    · cases h
    · rename_i slot hslot
      split at h
      · cases h
      · rename_i halive
        cases h
        exact ⟨k, slot, hk, hslot, by simpa using halive, rfl⟩

theorem IdxInv.after_remove {ca ca1 : componentArray V} {f e : Nat}
    (hinv : IdxInv ca) (h : ca.remove f e = Outcome.ok ca1) : IdxInv ca1 := by
  obtain ⟨k, slot, hk, hslot, _, rfl⟩ := remove_eq_ok h
  refine ⟨by simp only [List.length_set]; exact hinv.idx_le, ?_⟩
  intro x kx hx
  obtain ⟨h1, s, h2, h3⟩ := hinv.map x kx hx
  refine ⟨h1, ?_⟩
  by_cases hkk : k = kx
  · subst hkk
    rw [hslot] at h2
    cases h2
    exact ⟨{ slot with Alive := false, ChangedAt := f },
      by simp [(List.getElem?_eq_some.1 hslot).1], h3⟩
  · exact ⟨s, by simp [List.getElem?_set_ne hkk, h2], h3⟩

/-- A property kept by every iteration that returns is kept by a loop that
returns. -/
theorem forEach_ok_inv (body : α → σ → Outcome σ) (P : σ → Prop)
    (hbody : ∀ x s s1, P s → body x s = Outcome.ok s1 → P s1) :
    ∀ (xs : List α) (s s1 : σ), P s → forEach body xs s = Outcome.ok s1 → P s1 := by
  intro xs
  induction xs with
  | nil => intro s s1 hs h; simp only [forEach] at h; cases h; exact hs
  | cons x xs ih =>
    intro s s1 hs h
    unfold forEach at h
    split at h
    · rename_i s2 hs2
      exact ih s2 s1 (hbody x s s2 hs hs2) h
    · cases h

theorem IdxInv.after_store {ca : componentArray V} (hinv : IdxInv ca) (ref : Nat) (v : V) :
    IdxInv (ca.store ref v) := by
  unfold componentArray.store
  split
  · exact hinv
  · rename_i slot hslot
    refine ⟨by simp only [List.length_set]; exact hinv.idx_le, ?_⟩
    intro x kx hx
    obtain ⟨h1, s, h2, h3⟩ := hinv.map x kx hx
    refine ⟨h1, ?_⟩
    by_cases hkk : ref = kx
    · subst hkk
      rw [hslot] at h2
      cases h2
      exact ⟨{ slot with Component := v },
        by simp [(List.getElem?_eq_some.1 hslot).1], h3⟩
    · exact ⟨s, by simp [List.getElem?_set_ne hkk, h2], h3⟩

theorem reindexLoop_ok (l : List Nat) :
    ∀ (c c1 : componentArray V),
      forEach
        (fun idx (c : componentArray V) =>
          match c.entities[idx]? with
          | some s => Outcome.ok { c with entityToIdx := mapSet c.entityToIdx s.Id idx }
          | none => Outcome.panic Panic.indexOutOfRange c) l c = Outcome.ok c1 →
      c1.entities = c.entities ∧ c1.idx = c.idx ∧ c1.deads = c.deads ∧
      (∀ x ∈ l, x < c.entities.length) ∧
      ∀ e k, c1.entityToIdx e = some k →
        c.entityToIdx e = some k ∨ (k ∈ l ∧ ∃ s, c.entities[k]? = some s ∧ s.Id = e) := by
  induction l with
  | nil =>
    intro c c1 h
    simp only [forEach] at h
    cases h
    exact ⟨rfl, rfl, rfl, by simp, fun e k hk => Or.inl hk⟩
  | cons x rest ih =>
    intro c c1 h
    unfold forEach at h
    cases hx : c.entities[x]? with
    | none => simp [hx] at h
    | some s =>
      simp only [hx] at h
      obtain ⟨h1, h2, h3, h4, h5⟩ := ih _ c1 h
      refine ⟨h1, h2, h3, ?_, ?_⟩
      · intro y hy
        rcases List.mem_cons.1 hy with rfl | hy
        · exact (List.getElem?_eq_some.1 hx).1
        · exact h4 y hy
      · intro e k hk
        rcases h5 e k hk with h6 | ⟨h6, h7⟩
        · simp only [mapSet] at h6
          by_cases he : e = s.Id
          · simp only [he, if_true] at h6
            cases h6
            exact Or.inr ⟨List.mem_cons_self _ _, s, hx, he.symm⟩
          · simp only [he, if_false] at h6
            exact Or.inl h6
        · exact Or.inr ⟨List.mem_cons_of_mem _ h6, h7⟩

theorem IdxInv.after_prune {ca ca1 : componentArray V} (hinv : IdxInv ca)
    (h : ca.prune = Outcome.ok ca1) : IdxInv ca1 := by
  unfold componentArray.prune at h
  split at h
  · split at h
    · cases h
    · cases h
    · rename_i ents i hloop
      unfold componentArray.reindex at h
      obtain ⟨h1, h2, _, h4, h5⟩ := reindexLoop_ok _ _ _ h
      simp only at h1 h2 h4 h5
      refine ⟨?_, ?_⟩
      · rw [h1, h2]
        have := h4 i (List.mem_range.2 (Nat.lt_succ_self i))
        omega
      · intro e k hk
        rcases h5 e k hk with h6 | ⟨h6, h7⟩
        · simp [mapEmpty] at h6
        · rw [h1, h2]
          exact ⟨List.mem_range.1 h6, h7⟩
  · cases h
    exact hinv

theorem pruneArrays_ok :
    ∀ (l l1 : List (componentArray V)), pruneArrays l = Outcome.ok l1 →
      ∀ (j : Nat) (ca1 : componentArray V), l1[j]? = some ca1 →
        ∃ ca : componentArray V, l[j]? = some ca ∧ ca.prune = Outcome.ok ca1 := by
  intro l
  induction l with
  | nil =>
    intro l1 h j ca1 hj
    simp only [pruneArrays] at h
    cases h
    simp at hj
  | cons ca rest ih =>
    intro l1 h j ca1 hj
    unfold pruneArrays at h
    cases hp : ca.prune with
    | panic p c => simp [hp] at h
    | ok c =>
      simp only [hp] at h
      obtain ⟨r, hr, rfl⟩ := Outcome.lift_eq_ok h
      cases j with
      | zero =>
        simp only [List.getElem?_cons_zero] at hj
        cases hj
        exact ⟨ca, List.getElem?_cons_zero, hp⟩
      | succ j =>
        simp only [List.getElem?_cons_succ] at hj ⊢
        exact ih r hr j ca1 hj

theorem StoresInv.set {arrs : List (componentArray V)} {cm : componentManager V}
    (h : ∀ (i : Nat) (ca : componentArray V), arrs[i]? = some ca → IdxInv ca) (j : Nat)
    (ca1 : componentArray V) (h1 : IdxInv ca1)
    (heq : cm.componentArray = arrs.set j ca1) : StoresInv cm := by
  intro i ca hi
  rw [heq, List.getElem?_set] at hi
  by_cases hij : j = i
  · simp only [hij, if_true] at hi
    split at hi
    · cases hi; exact h1
    · cases hi
  · simp only [hij, if_false] at hi
    exact h i ca hi

theorem addComponent_eq_ok [Inhabited V] {f : Nat} {cm cm1 : componentManager V} {t e : Nat}
    {c : V} (h : addComponent f cm t e c = Outcome.ok cm1) :
    ∃ idx ca ca1, cm.componentToIdx t = some idx ∧ cm.componentArray[idx]? = some ca ∧
      ca.add f e c = Outcome.ok ca1 ∧ cm1.componentArray = cm.componentArray.set idx ca1 ∧
      cm1.componentToIdx = cm.componentToIdx := by
  unfold addComponent getComponentIdx at h
  cases hidx : cm.componentToIdx t with
  | none => simp [hidx] at h
  | some idx =>
    simp only [hidx] at h
    split at h
    · rename_i ca s hca hs
      obtain ⟨ca1, hadd, rfl⟩ := Outcome.lift_eq_ok h
      exact ⟨idx, ca, ca1, rfl, hca, hadd, rfl, rfl⟩
    · cases h

theorem removeComponent_eq_ok {f : Nat} {cm cm1 : componentManager V} {t e : Nat}
    (h : removeComponent f cm t e = Outcome.ok cm1) :
    ∃ idx ca ca1, cm.componentToIdx t = some idx ∧ cm.componentArray[idx]? = some ca ∧
      ca.remove f e = Outcome.ok ca1 ∧ cm1.componentArray = cm.componentArray.set idx ca1 ∧
      cm1.componentToIdx = cm.componentToIdx := by
  unfold removeComponent getComponentIdx at h
  cases hidx : cm.componentToIdx t with
  | none => simp [hidx] at h
  | some idx =>
    simp only [hidx] at h
    split at h
    · rename_i ca s hca hs
      obtain ⟨ca1, hrm, rfl⟩ := Outcome.lift_eq_ok h
      exact ⟨idx, ca, ca1, rfl, hca, hrm, rfl, rfl⟩
    · cases h

theorem World.AddComponent_eq_ok [Inhabited V] {w w1 : World V} {t e : Nat} {c : V}
    (h : w.AddComponent t e c = Outcome.ok w1) :
    addComponent w.frame w.cm t e c = Outcome.ok w1.cm ∧ w1.frame = w.frame := by
  unfold World.AddComponent at h
  split at h
  · cases h
  · rename_i cm1 hcm
    cases h
    exact ⟨hcm, rfl⟩

theorem World.RemoveComponent_eq_ok {w w1 : World V} {t e : Nat}
    (h : w.RemoveComponent t e = Outcome.ok w1) :
    removeComponent w.frame w.cm t e = Outcome.ok w1.cm ∧ w1.frame = w.frame := by
  unfold World.RemoveComponent at h
  simp only at h
  split at h
  · cases h
  · rename_i cm1 hcm
    cases h
    exact ⟨hcm, rfl⟩

theorem World.RemoveEntity_eq_ok {w w1 : World V} {e : Nat}
    (h : w.RemoveEntity e = Outcome.ok w1) :
    w.cm.removeEntity w.frame e = Outcome.ok w1.cm ∧ w1.frame = w.frame := by
  unfold World.RemoveEntity at h
  simp only at h
  split at h
  · cases h
  · rename_i cm1 hcm
    cases h
    exact ⟨hcm, rfl⟩

/-- A non-nil pointer returned by `GetComponent[T](w, e)` points to the slot
the index of the store of `T` gives for `e`, in the array the store has at the
call. -/
theorem World.GetComponentRef_eq_some {w : World V} {t e : Nat} {p : componentRef}
    (h : w.GetComponentRef t e = .ok (some p)) :
    ∃ ca slot, w.cm.componentToIdx t = some p.store ∧ w.cm.componentArray[p.store]? = some ca ∧
      ca.entities.length = p.cap ∧ ca.entityToIdx e = some p.slot ∧
      ca.entities[p.slot]? = some slot ∧ slot.Alive = true ∧ slot.ChangedAt ≠ w.frame := by
  unfold World.GetComponentRef getComponentRef getComponentIdx at h
  cases hidx : w.cm.componentToIdx t with
  | none => simp [hidx] at h
  | some idx =>
    simp only [hidx] at h
    cases hca : w.cm.componentArray[idx]? with
    | none => simp [hca] at h
    | some ca =>
      simp only [hca, componentArray.GetRef] at h
      cases hk : ca.entityToIdx e with
      | none => simp [hk] at h
      | some k =>
        simp only [hk] at h
        cases hslot : ca.entities[k]? with
        | none => simp [hslot] at h
        | some slot =>
          simp only [hslot, entityComponent.isDead] at h
          by_cases h5 : slot.Alive = true <;> by_cases h6 : slot.ChangedAt = w.frame <;>
            simp [h5, h6] at h
          subst h
          exact ⟨ca, slot, rfl, hca, rfl, hk, hslot, h5, h6⟩

theorem World.SetComponent_eq_ok {w w1 : World V} {t e : Nat} {c : V}
    (h : w.SetComponent t e c = Outcome.ok w1) :
    ∃ idx ca ref, w.cm.componentToIdx t = some idx ∧ w.cm.componentArray[idx]? = some ca ∧
      ca.entityToIdx e = some ref ∧
      w1.cm.componentArray = w.cm.componentArray.set idx (ca.store ref c) ∧
      w1.cm.componentToIdx = w.cm.componentToIdx ∧ w1.frame = w.frame := by
  unfold World.SetComponent at h
  split at h
  · cases h
  · cases h
  · rename_i p hp
    cases h
    obtain ⟨ca, slot, h1, h2, h3, h4, _, _, _⟩ := World.GetComponentRef_eq_some hp
    refine ⟨p.store, ca, p.slot, h1, h2, h4, ?_, ?_, ?_⟩ <;>
      simp [World.WriteRef, h2, h3]

theorem removeEntity_inv (P : componentManager V → Prop) (f e : Nat)
    (hdead : ∀ c : componentManager V, P c →
      P { c with deadEntities := fun x => x = e || c.deadEntities x })
    (hset : ∀ (c : componentManager V) (i : Nat) (ca ca1 : componentArray V), P c →
      c.componentArray[i]? = some ca → ca.remove f e = Outcome.ok ca1 →
      P { c with componentArray := c.componentArray.set i ca1 })
    (cm cm1 : componentManager V) (hcm : P cm) (h : cm.removeEntity f e = Outcome.ok cm1) :
    P cm1 := by
  unfold componentManager.removeEntity at h
  refine forEach_ok_inv _ P ?_ _ cm cm1 hcm h
  intro i c c1 hc hbody
  simp only at hbody
  split at hbody
  · cases hbody
  · rename_i ca hca
    obtain ⟨ca1, hrm, rfl⟩ := Outcome.lift_eq_ok hbody
    exact hset _ i ca ca1 (hdead c hc) hca hrm

theorem World.cleanupTick_eq_ok {w w1 : World V} (h : w.cleanupTick = Outcome.ok w1) :
    ∃ arrs, pruneArrays w.cm.componentArray = Outcome.ok arrs ∧ w1.cm.componentArray = arrs := by
  unfold World.cleanupTick at h
  split at h
  · cases h
  · rename_i w2 hw2
    cases h
    unfold World.cleanup at hw2
    split at hw2
    · cases hw2
    · obtain ⟨cm1, hcm1, rfl⟩ := Outcome.lift_eq_ok hw2
      unfold componentManager.prune at hcm1
      obtain ⟨arrs, harrs, rfl⟩ := Outcome.lift_eq_ok hcm1
      exact ⟨arrs, harrs, rfl⟩

theorem registerComponent_eq_ok [Inhabited V] {cm cm1 : componentManager V} {t : Nat}
    (h : registerComponent cm t = Outcome.ok cm1) :
    cm.componentToIdx t = none ∧
      cm1.componentArray = cm.componentArray ++ [componentArray.new V] ∧
      cm1.componentToIdx = mapSet cm.componentToIdx t cm.componentArray.length := by
  unfold registerComponent at h
  split at h
  · cases h
  · rename_i hhas
    split at h
    · cases h
      refine ⟨?_, rfl, by simp⟩
      simpa [hasComponentArray] using hhas
    · cases h

/-- Every call that returns keeps the index maps of all stores well formed. -/
theorem Op.apply_storesInv [Inhabited V] (op : Op V) {w w1 : World V}
    (hst : StoresInv w.cm) (h : op.apply w = Outcome.ok w1) : StoresInv w1.cm := by
  have hsame : ∀ {w2 : World V}, w2.cm = w.cm → StoresInv w2.cm := fun h2 => by rw [h2]; exact hst
  cases op with
  | registerComponent t =>
    obtain ⟨_, harr, _⟩ := registerComponent_eq_ok (World.RegisterComponent_eq_ok h)
    intro i ca hi
    rw [harr, List.getElem?_append] at hi
    split at hi
    · exact hst i ca hi
    · have hmem := List.getElem?_mem hi
      simp only [List.mem_singleton] at hmem
      rw [hmem]
      exact IdxInv.of_new
  | newEntity => simp only [Op.apply] at h; cases h; exact hst
  | addComponent t e c =>
    obtain ⟨hcm, _⟩ := World.AddComponent_eq_ok h
    obtain ⟨idx, ca, ca1, _, hca, hadd, harr, _⟩ := addComponent_eq_ok hcm
    exact StoresInv.set hst idx ca1 ((hst idx ca hca).after_add hadd) harr
  | removeComponent t e =>
    obtain ⟨hcm, _⟩ := World.RemoveComponent_eq_ok h
    obtain ⟨idx, ca, ca1, _, hca, hrm, harr, _⟩ := removeComponent_eq_ok hcm
    exact StoresInv.set hst idx ca1 ((hst idx ca hca).after_remove hrm) harr
  | setComponent t e c =>
    obtain ⟨idx, ca, ref, _, hca, _, harr, _, _⟩ := World.SetComponent_eq_ok h
    exact StoresInv.set hst idx _ ((hst idx ca hca).after_store ref c) harr
  | writeRef p c =>
    simp only [Op.apply] at h
    cases h
    rcases World.WriteRef_cases w p c with h1 | ⟨ca, hca, _, h1⟩ <;> rw [h1]
    · exact hst
    · exact StoresInv.set hst p.store _ ((hst p.store ca hca).after_store p.slot c) rfl
  | removeEntity e =>
    obtain ⟨hcm, _⟩ := World.RemoveEntity_eq_ok h
    exact removeEntity_inv StoresInv w.frame e (fun c hc => hc)
      (fun c i ca ca1 hc hca hrm => StoresInv.set hc i ca1 ((hc i ca hca).after_remove hrm) rfl)
      w.cm w1.cm hst hcm
  | registerSystem s sig =>
    have := World.RegisterSystem_state_cm w s sig
    simp only [Op.apply] at h
    rw [h] at this
    exact hsame this
  | registerInitSystem s => simp only [Op.apply] at h; cases h; exact hst
  | registerSingleton st T v => simp only [Op.apply] at h; cases h; exact hst
  | cleanupTick =>
    obtain ⟨arrs, harrs, hw1⟩ := World.cleanupTick_eq_ok h
    intro i ca1 hi
    rw [hw1] at hi
    obtain ⟨ca, hca, hp⟩ := pruneArrays_ok _ _ harrs i ca1 hi
    exact (hst i ca hca).after_prune hp

theorem runOps_storesInv [Inhabited V] (ops : List (Op V)) :
    ∀ (w w1 : World V), StoresInv w.cm → runOps ops w = Outcome.ok w1 → StoresInv w1.cm := by
  intro w w1 hst h
  exact forEach_ok_inv Op.apply (fun w => StoresInv w.cm)
    (fun op s s1 hs hop => Op.apply_storesInv op hs hop) ops w w1 hst h

theorem Reachable.storesInv [Inhabited V] {w : World V} (hw : Reachable w) : StoresInv w.cm := by
  obtain ⟨ops, hrun⟩ := hw
  refine runOps_storesInv ops (New V) w ?_ hrun
  intro i ca hi
  simp [New, newComponentManager] at hi

theorem getComponent_iff_holds (f : Nat) (cm : componentManager V) (C e : Nat) (v : V) :
    getComponent f cm C e = .ok (some v) ↔
      ∃ i ca, cm.componentToIdx C = some i ∧ cm.componentArray[i]? = some ca ∧ Holds ca f e v := by
  rw [getComponent_eq_some]
  constructor
  · rintro ⟨i, ca, k, slot, h1, h2, h3, h4, h5, h6, h7⟩
    exact ⟨i, ca, h1, h2, k, slot, h3, h4, h5, h6, h7⟩
  · rintro ⟨i, ca, h1, h2, k, slot, h3, h4, h5, h6, h7⟩
    exact ⟨i, ca, k, slot, h1, h2, h3, h4, h5, h6, h7⟩

/-- Only the end of a tick changes the frame counter. -/
theorem Op.apply_frame [Inhabited V] (op : Op V) (w : World V) (hop : op ≠ Op.cleanupTick) :
    (op.apply w).state.frame = w.frame := by
  cases op with
  | registerComponent t => simp [Op.apply, World.RegisterComponent]
  | newEntity => rfl
  | addComponent t e c => simp only [Op.apply, World.AddComponent]; split <;> rfl
  | removeComponent t e => simp only [Op.apply, World.RemoveComponent]; split <;> rfl
  | setComponent t e c => exact (World.SetComponent_fields w t e c).2.2.2.2.2
  | writeRef p c => exact (World.WriteRef_fields w p c).2.2.2.2.2
  | removeEntity e => simp only [Op.apply, World.RemoveEntity]; split <;> rfl
  | registerSystem s sig => (simp only [Op.apply, World.RegisterSystem]; repeat' split) <;> rfl
  | registerInitSystem s => rfl
  | registerSingleton st T v => rfl
  | cleanupTick => exact absurd rfl hop

theorem HoldsAt.add_other [Inhabited V] {ca ca1 : componentArray V} {f f1 e e1 k : Nat}
    {v c : V} (hinv : IdxInv ca) (hh : HoldsAt ca f e v k)
    (h : ca.add f1 e1 c = Outcome.ok ca1) : HoldsAt ca1 f e v k := by
  obtain ⟨slot, hk, hs, ha, hf, hv⟩ := hh
  have hne : e ≠ e1 := by
    intro heq
    subst heq
    have := (add_eq_ok h).2 k slot hk hs
    rw [ha] at this
    cases this
  obtain ⟨ents, hsame, hlen, hlt, rfl⟩ := addSlot_eq_ok (add_eq_ok h).1
  obtain ⟨h1, _⟩ := hinv.map e k hk
  refine ⟨slot, by simp [mapSet, hne, hk], ?_, ha, hf, hv⟩
  have hne1 : ca.idx ≠ k := by omega
  rw [List.getElem?_set_ne hne1, hsame k (by have := hinv.idx_le; omega)]
  exact hs

theorem HoldsAt.remove_other {ca ca1 : componentArray V} {f f1 e e1 k : Nat} {v : V}
    (hinv : IdxInv ca) (hh : HoldsAt ca f e v k) (hne : e1 ≠ e)
    (h : ca.remove f1 e1 = Outcome.ok ca1) : HoldsAt ca1 f e v k := by
  obtain ⟨slot, hk, hs, ha, hf, hv⟩ := hh
  obtain ⟨k1, slot1, hk1, hslot1, _, rfl⟩ := remove_eq_ok h
  have hkk : k1 ≠ k := by
    intro heq
    subst heq
    obtain ⟨_, s, h2, h3⟩ := hinv.map e1 k1 hk1
    obtain ⟨_, s1, h4, h5⟩ := hinv.map e k1 hk
    rw [h2] at h4
    cases h4
    exact hne (h3.symm.trans h5)
  exact ⟨slot, hk, by simp [List.getElem?_set_ne hkk, hs], ha, hf, hv⟩

theorem HoldsAt.store_other {ca : componentArray V} {f e k : Nat} {v : V}
    (hh : HoldsAt ca f e v k) (ref : Nat) (c : V) (hne : ref ≠ k) :
    HoldsAt (ca.store ref c) f e v k := by
  obtain ⟨slot, hk, hs, ha, hf, hv⟩ := hh
  unfold componentArray.store
  split
  · exact ⟨slot, hk, hs, ha, hf, hv⟩
  · exact ⟨slot, hk, by simp [List.getElem?_set_ne hne, hs], ha, hf, hv⟩

/-- A write into the slot that holds the component of `e` makes the written
value the one the store holds for `e`. -/
theorem HoldsAt.store_self {ca : componentArray V} {f e k : Nat} {a : V}
    (hh : HoldsAt ca f e a k) (v : V) : HoldsAt (ca.store k v) f e v k := by
  obtain ⟨slot, hk, hs, ha, hf, _⟩ := hh
  have hklt : k < ca.entities.length := (List.getElem?_eq_some.1 hs).1
  unfold componentArray.store
  rw [hs]
  exact ⟨{ slot with Component := v }, hk, by simp [hklt], ha, hf, rfl⟩

/-- What `Targets` says is what `GetComponent` returns. -/
theorem Targets.get {w : World V} {C e : Nat} {p : componentRef} {v : V}
    (h : Targets w C e p v) : w.GetComponent C e = .ok (some v) := by
  obtain ⟨h1, ca, h2, slot, h3, h4, h5, h6, h7⟩ := h
  exact (getComponent_eq_some _ _ _ _ _).2 ⟨p.store, ca, p.slot, slot, h1, h2, h3, h4, h5, h6, h7⟩

/-- A non-nil pointer returned by `GetComponent[C](w, e)` names the store and
the slot of the component of `e`, and the length of the array of that store. -/
theorem Targets.of_ref {w : World V} {C e : Nat} {p : componentRef}
    (h : w.GetComponentRef C e = .ok (some p)) :
    ∃ a ca, Targets w C e p a ∧ w.cm.componentArray[p.store]? = some ca ∧
      ca.entities.length = p.cap := by
  obtain ⟨ca, slot, h1, h2, h3, h4, h5, h6, h7⟩ := World.GetComponentRef_eq_some h
  exact ⟨slot.Component, ca, ⟨h1, ca, h2, slot, h4, h5, h6, h7, rfl⟩, h2, h3⟩

/-- A write through a pointer to the component of `e`, made while the store
has the array the pointer points into, makes the written value the one
`e` holds. -/
theorem Targets.write {w : World V} {C e : Nat} {p : componentRef} {a : V}
    (h : Targets w C e p a) (v : V)
    (hcap : w.capOf p.store = some p.cap) :
    Targets (w.WriteRef p v) C e p v := by
  obtain ⟨h1, ca, h2, hold⟩ := h
  have h4 : ca.entities.length = p.cap := by
    simpa [World.capOf, h2] using hcap
  have hilt : p.store < w.cm.componentArray.length := (List.getElem?_eq_some.1 h2).1
  have hw : w.WriteRef p v =
      { w with
        cm := { w.cm with componentArray := w.cm.componentArray.set p.store (ca.store p.slot v) } } := by
    simp [World.WriteRef, h2, h4]
  rw [hw]
  exact ⟨h1, ca.store p.slot v, by simp [hilt], hold.store_self v⟩

/-- A call that returns and neither ends the tick nor removes or overwrites
the component of type `C` of entity `e` leaves that component where it is, with
its value, fetchable in the same frame. -/
theorem Op.apply_holds [Inhabited V] {w w1 : World V} {ts : List Nat} (hreg : RegInv w.cm ts)
    (hst : StoresInv w.cm) (op : Op V) {C e : Nat} {p : componentRef} {v : V}
    (hk : op.keeps C e p = true)
    (h : op.apply w = Outcome.ok w1) (hh : Targets w C e p v) :
    Targets w1 C e p v ∧ w1.frame = w.frame := by
  have hframe : w1.frame = w.frame := by
    have := Op.apply_frame op w (by intro hc; rw [hc] at hk; simp [Op.keeps] at hk)
    rw [h] at this
    exact this
  refine ⟨?_, hframe⟩
  obtain ⟨hi, ca, hca, hold⟩ := hh
  have hilt : p.store < w.cm.componentArray.length := (List.getElem?_eq_some.1 hca).1
  have hinj : ∀ t, w.cm.componentToIdx t = some p.store → t = C := by
    intro t ht
    have h1 := (hreg.toIdx t p.store).1 ht
    have h2 := (hreg.toIdx C p.store).1 hi
    rw [h1] at h2
    exact Option.some.inj h2
  have hgoal : ∀ ca1, w1.cm.componentToIdx C = some p.store →
      w1.cm.componentArray[p.store]? = some ca1 →
      HoldsAt ca1 w.frame e v p.slot → Targets w1 C e p v := by
    intro ca1 h1 h2 h3
    refine ⟨h1, ca1, h2, ?_⟩
    rw [hframe]
    exact h3
  have hset : ∀ (j : Nat) (caj caj1 : componentArray V),
      w.cm.componentArray[j]? = some caj →
      w1.cm.componentArray = w.cm.componentArray.set j caj1 →
      w1.cm.componentToIdx = w.cm.componentToIdx →
      (j = p.store → HoldsAt caj1 w.frame e v p.slot) → Targets w1 C e p v := by
    intro j caj caj1 hcaj harr htoIdx hj
    by_cases hji : j = p.store
    · exact hgoal caj1 (by rw [htoIdx]; exact hi)
        (by rw [harr, hji]; simp [hilt]) (hj hji)
    · exact hgoal ca (by rw [htoIdx]; exact hi)
        (by rw [harr, List.getElem?_set_ne hji]; exact hca) hold
  have hsame : w1.cm = w.cm → Targets w1 C e p v := by
    intro hcm
    exact hgoal ca (by rw [hcm]; exact hi) (by rw [hcm]; exact hca) hold
  cases op with
  | registerComponent t =>
    obtain ⟨hnone, harr, htoIdx⟩ := registerComponent_eq_ok (World.RegisterComponent_eq_ok h)
    have hCt : C ≠ t := by
      intro hc
      rw [hc, hnone] at hi
      cases hi
    exact hgoal ca (by rw [htoIdx]; simp [mapSet, hCt, hi])
      (by rw [harr, List.getElem?_append_left hilt]; exact hca) hold
  | newEntity => simp only [Op.apply] at h; cases h; exact hsame rfl
  | addComponent t e1 c =>
    obtain ⟨hcm, _⟩ := World.AddComponent_eq_ok h
    obtain ⟨j, caj, caj1, _, hcaj, hadd, harr, htoIdx⟩ := addComponent_eq_ok hcm
    refine hset j caj caj1 hcaj harr htoIdx (fun hji => ?_)
    subst hji
    rw [hca] at hcaj
    cases hcaj
    exact HoldsAt.add_other (hst _ ca hca) hold hadd
  | removeComponent t e1 =>
    obtain ⟨hcm, _⟩ := World.RemoveComponent_eq_ok h
    obtain ⟨j, caj, caj1, hj, hcaj, hrm, harr, htoIdx⟩ := removeComponent_eq_ok hcm
    refine hset j caj caj1 hcaj harr htoIdx (fun hji => ?_)
    subst hji
    rw [hca] at hcaj
    cases hcaj
    have htC : t = C := hinj t hj
    have hne : e1 ≠ e := by
      intro he
      simp [Op.keeps, htC, he] at hk
    exact HoldsAt.remove_other (hst _ ca hca) hold hne hrm
  | setComponent t e1 c =>
    obtain ⟨j, caj, ref, hj, hcaj, href, harr, htoIdx, _⟩ := World.SetComponent_eq_ok h
    refine hset j caj _ hcaj harr htoIdx (fun hji => ?_)
    subst hji
    rw [hca] at hcaj
    cases hcaj
    have htC : t = C := hinj t hj
    have hne : e1 ≠ e := by
      intro he
      simp [Op.keeps, htC, he] at hk
    refine HoldsAt.store_other hold ref c (fun href1 => ?_)
    subst href1
    obtain ⟨slot, hk1, _⟩ := hold
    obtain ⟨_, s, h2, h3⟩ := (hst _ ca hca).map e1 _ href
    obtain ⟨_, s1, h4, h5⟩ := (hst _ ca hca).map e _ hk1
    rw [h2] at h4
    cases h4
    exact hne (h3.symm.trans h5)
  | writeRef q c =>
    simp only [Op.apply] at h
    cases h
    rcases World.WriteRef_cases w q c with h1 | ⟨caq, hcaq, _, h1⟩
    · rw [h1]
      exact ⟨hi, ca, hca, hold⟩
    · refine hset q.store caq _ hcaq (by rw [h1]) (by rw [h1]) (fun hji => ?_)
      rw [hji, hca] at hcaq
      cases hcaq
      refine HoldsAt.store_other hold q.slot c (fun hslot => ?_)
      simp [Op.keeps, hji, hslot] at hk
  | removeEntity e1 =>
    obtain ⟨hcm, _⟩ := World.RemoveEntity_eq_ok h
    have hne : e1 ≠ e := by
      intro he
      simp [Op.keeps, he] at hk
    obtain ⟨h1, _, ca1, h3, h4⟩ := removeEntity_inv
      (fun c : componentManager V => c.componentToIdx = w.cm.componentToIdx ∧ StoresInv c ∧
        ∃ ca1, c.componentArray[p.store]? = some ca1 ∧ HoldsAt ca1 w.frame e v p.slot) w.frame e1
      (fun c hc => hc)
      (fun c j caj caj1 hc hcaj hrm => by
        obtain ⟨hc1, hc2, ca2, hc3, hc4⟩ := hc
        refine ⟨hc1, StoresInv.set hc2 j caj1 ((hc2 j caj hcaj).after_remove hrm) rfl, ?_⟩
        by_cases hji : j = p.store
        · subst hji
          rw [hc3] at hcaj
          cases hcaj
          exact ⟨caj1, by simp [(List.getElem?_eq_some.1 hc3).1],
            HoldsAt.remove_other (hc2 _ _ hc3) hc4 hne hrm⟩
        · exact ⟨ca2, by simp [List.getElem?_set_ne hji, hc3], hc4⟩)
      w.cm w1.cm ⟨rfl, hst, ca, hca, hold⟩ hcm
    exact hgoal ca1 (by rw [h1]; exact hi) h3 h4
  | registerSystem s sig =>
    have := World.RegisterSystem_state_cm w s sig
    simp only [Op.apply] at h
    rw [h] at this
    exact hsame this
  | registerInitSystem s => simp only [Op.apply] at h; cases h; exact hsame rfl
  | registerSingleton st T v1 => simp only [Op.apply] at h; cases h; exact hsame rfl
  | cleanupTick => simp [Op.keeps] at hk

theorem Op.apply_regInv [Inhabited V] {w w1 : World V} {ts : List Nat} (hreg : RegInv w.cm ts)
    (op : Op V) (h : op.apply w = Outcome.ok w1) : ∃ ts1, RegInv w1.cm ts1 := by
  refine ⟨ts ++ regTypes [op], runOps_regInv [op] w w1 ts hreg ?_⟩
  rw [runOps_cons, h]
  rfl

theorem runOps_holds [Inhabited V] {C e : Nat} {p : componentRef} {v : V} (ops : List (Op V)) :
    ∀ (w w1 : World V) (ts : List Nat), RegInv w.cm ts → StoresInv w.cm →
      ops.all (Op.keeps C e p) = true → runOps ops w = Outcome.ok w1 →
      Targets w C e p v →
      Targets w1 C e p v ∧ w1.frame = w.frame ∧ (∃ ts1, RegInv w1.cm ts1) ∧ StoresInv w1.cm := by
  induction ops with
  | nil =>
    intro w w1 ts hreg hst _ hrun hh
    simp only [runOps, forEach] at hrun
    cases hrun
    exact ⟨hh, rfl, ⟨ts, hreg⟩, hst⟩
  | cons op ops ih =>
    intro w w1 ts hreg hst hk hrun hh
    rw [runOps_cons] at hrun
    simp only [List.all_cons, Bool.and_eq_true] at hk
    cases hop : op.apply w with
    | panic p s => rw [hop] at hrun; cases hrun
    | ok s =>
      rw [hop, Outcome.bind_ok] at hrun
      obtain ⟨h1, h2⟩ := Op.apply_holds hreg hst op hk.1 hop hh
      obtain ⟨ts1, hreg1⟩ := Op.apply_regInv hreg op hop
      obtain ⟨h3, h4, h5, h6⟩ :=
        ih s w1 ts1 hreg1 (Op.apply_storesInv op hst hop) hk.2 hrun h1
      exact ⟨h3, h4.trans h2, h5, h6⟩

/-- What `Targets` says of a pointer it says of every pointer to the same
slot of the same store. -/
theorem Targets.same_slot {w : World V} {C e : Nat} {p q : componentRef} {v : V}
    (h : Targets w C e p v) (h1 : q.store = p.store) (h2 : q.slot = p.slot) :
    Targets w C e q v := by
  unfold Targets at h ⊢
  rw [h1, h2]
  exact h

/-- A write through a pointer to the slot of the component of `e` leaves the
component in its slot, fetchable, with the old or with the written value. -/
theorem Targets.written {w : World V} {C e : Nat} {p q : componentRef} {v : V}
    (h : Targets w C e p v) (h1 : q.store = p.store) (h2 : q.slot = p.slot) (c : V) :
    ∃ v1, Targets (w.WriteRef q c) C e p v1 := by
  rcases World.WriteRef_cases w q c with h3 | ⟨ca, hca, hlen, _⟩
  · rw [h3]
    exact ⟨v, h⟩
  · have hcap : w.capOf q.store = some q.cap := by simp [World.capOf, hca, hlen]
    exact ⟨c, ((h.same_slot h1 h2).write c hcap).same_slot h1.symm h2.symm⟩

/-- A call that returns and neither ends the tick nor removes the component
of type `C` of entity `e` leaves that component in its slot, fetchable in the
same frame. -/
theorem Op.apply_stays [Inhabited V] {w w1 : World V} {ts : List Nat} (hreg : RegInv w.cm ts)
    (hst : StoresInv w.cm) (op : Op V) {C e : Nat} {p : componentRef} {v : V}
    (hk : op.stays C e = true)
    (h : op.apply w = Outcome.ok w1) (hh : Targets w C e p v) :
    (∃ v1, Targets w1 C e p v1) ∧ w1.frame = w.frame := by
  by_cases hkeeps : op.keeps C e p = true
  · obtain ⟨h1, h2⟩ := Op.apply_holds hreg hst op hkeeps h hh
    exact ⟨⟨v, h1⟩, h2⟩
  · have hframe : w1.frame = w.frame := by
      have := Op.apply_frame op w (by intro hc; rw [hc] at hk; simp [Op.stays] at hk)
      rw [h] at this
      exact this
    refine ⟨?_, hframe⟩
    cases op with
    | setComponent t e1 c =>
      simp only [Op.apply] at h
      rcases World.SetComponent_cases w t e1 c with h1 | ⟨q, hq, h1⟩
      · rw [h] at h1
        simp only [Outcome.state_ok] at h1
        rw [h1]
        exact ⟨v, hh⟩
      · rw [h1] at h
        cases h
        have hte : t = C ∧ e1 = e := by
          simpa [Op.keeps] using hkeeps
        obtain ⟨rfl, rfl⟩ := hte
        have hh2 := hh
        obtain ⟨ca, slot, h2, h3, _, h4, _⟩ := World.GetComponentRef_eq_some hq
        obtain ⟨hi, ca1, hca1, slot1, hk1, _⟩ := hh
        have hstore : q.store = p.store := by
          rw [hi] at h2
          exact (Option.some.inj h2).symm
        rw [hstore, hca1] at h3
        cases h3
        have hslot : q.slot = p.slot := by
          rw [hk1] at h4
          exact (Option.some.inj h4).symm
        exact Targets.written hh2 hstore hslot c
    | writeRef q c =>
      simp only [Op.apply] at h
      cases h
      have hq : q.store = p.store ∧ q.slot = p.slot := by
        simpa [Op.keeps] using hkeeps
      exact Targets.written hh hq.1 hq.2 c
    | registerComponent t => simp [Op.keeps] at hkeeps
    | newEntity => simp [Op.keeps] at hkeeps
    | addComponent t e1 c => simp [Op.keeps] at hkeeps
    | removeComponent t e1 => exact absurd hk hkeeps
    | removeEntity e1 => exact absurd hk hkeeps
    | registerSystem s sig => simp [Op.keeps] at hkeeps
    | registerInitSystem s => simp [Op.keeps] at hkeeps
    | registerSingleton st T v1 => simp [Op.keeps] at hkeeps
    | cleanupTick => simp [Op.stays] at hk

theorem runOps_stays [Inhabited V] {C e : Nat} {p : componentRef} (ops : List (Op V)) :
    ∀ (w w1 : World V) (ts : List Nat) (v : V), RegInv w.cm ts → StoresInv w.cm →
      ops.all (Op.stays C e) = true → runOps ops w = Outcome.ok w1 →
      Targets w C e p v →
      (∃ v1, Targets w1 C e p v1) ∧ w1.frame = w.frame ∧ (∃ ts1, RegInv w1.cm ts1) ∧
        StoresInv w1.cm := by
  induction ops with
  | nil =>
    intro w w1 ts v hreg hst _ hrun hh
    simp only [runOps, forEach] at hrun
    cases hrun
    exact ⟨⟨v, hh⟩, rfl, ⟨ts, hreg⟩, hst⟩
  | cons op ops ih =>
    intro w w1 ts v hreg hst hk hrun hh
    rw [runOps_cons] at hrun
    simp only [List.all_cons, Bool.and_eq_true] at hk
    cases hop : op.apply w with
    | panic q s => rw [hop] at hrun; cases hrun
    | ok s =>
      rw [hop, Outcome.bind_ok] at hrun
      obtain ⟨⟨v1, h1⟩, h2⟩ := Op.apply_stays hreg hst op hk.1 hop hh
      obtain ⟨ts1, hreg1⟩ := Op.apply_regInv hreg op hop
      obtain ⟨h3, h4, h5, h6⟩ :=
        ih s w1 ts1 v1 hreg1 (Op.apply_storesInv op hst hop) hk.2 hrun h1
      exact ⟨h3, h4.trans h2, h5, h6⟩

theorem debug_of_get (fmt : V → String) (w : World V) (C e : Nat) (v : V)
    (h : w.GetComponent C e = .ok (some v)) : w.DebugComponent fmt C e = .ok (fmt v) := by
  obtain ⟨i, ca, k, slot, h1, h2, h3, h4, h5, h6, h7⟩ := (getComponent_eq_some _ _ _ _ _).1 h
  simp [World.DebugComponent, debugPrintComponent, getComponentIdx, h1, h2, componentArray.debug,
    h3, h4, entityComponent.isDead, h5, h6, h7]

/-! ## C5 : immediate value visibility -/

/-- C5, counterexample.  In `ExampleGetComponent`, after `Init` (tick 1),
entity 0 stably holds `Player` and `GetComponent` returns a pointer to it;
`{220, 200}` is written through the pointer and `GetComponent` returns it.
When `RemoveComponent[Player]` is then called for entity 0 in the same tick,
without a cleanup, it returns, the tick is still 1, and `GetComponent` returns
nil and `DebugComponent` the text `<nil>`, not the value written.  When
instead another value, `{1, 1}`, is written to the component, the tick is
still 1 and `GetComponent` returns `{1, 1}`, not the value written first. -/
theorem visible_until_removed_counterexample :
    exampleGetWorld.frame = 1 ∧
    exampleGetWorld.GetComponent tPlayer 0 = .ok (some (Val.Player 200 400)) ∧
    exampleGetWorld.GetComponentRef tPlayer 0 = .ok (some exampleGetRef) ∧
    (exampleGetWorld.WriteRef exampleGetRef (Val.Player 220 200)).GetComponent tPlayer 0
      = .ok (some (Val.Player 220 200)) ∧
    ((exampleGetWorld.WriteRef exampleGetRef (Val.Player 220 200)).RemoveComponent
      tPlayer 0).isOk = true ∧
    exampleGetRemoved.frame = 1 ∧
    exampleGetRemoved.GetComponent tPlayer 0 = .ok none ∧
    exampleGetRemoved.DebugComponent fmtVal tPlayer 0 = .ok "<nil>" ∧
    ((exampleGetWorld.WriteRef exampleGetRef (Val.Player 220 200)).SetComponent tPlayer 0
      (Val.Player 1 1)).isOk = true ∧
    exampleGetOverwritten.frame = 1 ∧
    exampleGetOverwritten.GetComponent tPlayer 0 = .ok (some (Val.Player 1 1)) := by
  decide!

/-- C5, amended.  In a reachable world `w0` let `GetComponent[C](w0, e)`
return a non-nil pointer `p` (entity `e` stably holds `C`: its slot is alive
and was not touched in the current tick).  Let calls `mid` follow that all
return, and then the write of `v` through `p`, at a moment when the store of
`C` has the array it had at the fetch (it has not grown), and then calls
`later` that all return.  If none of the calls of `mid` and `later` ends the
tick (no cleanup) or removes `C` from `e` (`RemoveComponent[C]` or
`RemoveEntity` for `e`), and none of the calls of `later` writes to the
component of `e`, then after `later` the tick is the one of `w0` and
`GetComponent[C](w, e)` returns `v` and `DebugComponent[C](w, e)` shows `v`. -/
theorem write_visible [Inhabited V] (fmt : V → String) (w0 : World V) (hw : Reachable w0)
    (C e : Nat) (p : componentRef) (v : V)
    (hptr : w0.GetComponentRef C e = .ok (some p))
    (mid : List (Op V)) (hmid : mid.all (Op.stays C e) = true) (w1 : World V)
    (hrun1 : runOps mid w0 = Outcome.ok w1)
    (hcap : w1.capOf p.store = some p.cap)
    (later : List (Op V)) (hlater : later.all (Op.keeps C e p) = true) (w3 : World V)
    (hrun2 : runOps later (w1.WriteRef p v) = Outcome.ok w3) :
    w3.frame = w0.frame ∧ w3.GetComponent C e = .ok (some v) ∧
    w3.DebugComponent fmt C e = .ok (fmt v) := by
  obtain ⟨a, _, htar, _, _⟩ := Targets.of_ref hptr
  obtain ⟨ts, hreg⟩ := hw.regInv
  obtain ⟨⟨a1, h1⟩, h2, ⟨ts1, hreg1⟩, hst1⟩ :=
    runOps_stays mid w0 w1 ts a hreg hw.storesInv hmid hrun1 htar
  have hwrite : (Op.writeRef p v).apply w1 = Outcome.ok (w1.WriteRef p v) := rfl
  obtain ⟨ts2, hreg2⟩ := Op.apply_regInv hreg1 _ hwrite
  have hst2 := Op.apply_storesInv _ hst1 hwrite
  have hf2 : (w1.WriteRef p v).frame = w1.frame := (World.WriteRef_fields w1 p v).2.2.2.2.2
  obtain ⟨h3, h4, _, _⟩ :=
    runOps_holds later _ w3 ts2 hreg2 hst2 hlater hrun2 (h1.write v hcap)
  exact ⟨(h4.trans hf2).trans h2, h3.get, debug_of_get fmt w3 C e v h3.get⟩

/-- C5 at `ExampleGetComponent`: after `Init`, the pointer to the player's
`Player` is fetched; `{1, 1}` is written to the component, an entity is
created and receives a `Player`; `{220, 200}` is written through the pointer;
further entities and components are added in the same tick; `GetComponent` and
`DebugComponent` show the value written through the pointer. -/
theorem write_visible_witness :
    exampleGetWorld.GetComponentRef tPlayer 0 = .ok (some exampleGetRef) ∧
    exampleGetMidWorld.capOf 0 = some 512 ∧
    exampleGetLaterWorld.frame = exampleGetWorld.frame ∧
    exampleGetLaterWorld.GetComponent tPlayer 0 = .ok (some (Val.Player 220 200)) ∧
    exampleGetLaterWorld.DebugComponent fmtVal tPlayer 0 = .ok (fmtVal (Val.Player 220 200)) := by
  have hreach : Reachable exampleGetWorld :=
    ⟨exampleGetOps, Outcome.eq_ok_of_isOk _ (by decide!)⟩
  have hptr : exampleGetWorld.GetComponentRef tPlayer 0 = .ok (some exampleGetRef) := by decide!
  have hmid : exampleGetMid.all (Op.stays tPlayer 0) = true := by decide!
  have hrun1 : runOps exampleGetMid exampleGetWorld = Outcome.ok exampleGetMidWorld :=
    Outcome.eq_ok_of_isOk _ (by decide!)
  have hcap : exampleGetMidWorld.capOf exampleGetRef.store = some exampleGetRef.cap := by decide!
  have hlater : exampleGetLater.all (Op.keeps tPlayer 0 exampleGetRef) = true := by decide!
  have hrun2 : runOps exampleGetLater
      (exampleGetMidWorld.WriteRef exampleGetRef (Val.Player 220 200))
        = Outcome.ok exampleGetLaterWorld :=
    Outcome.eq_ok_of_isOk _ (by decide!)
  exact ⟨hptr, hcap,
    write_visible fmtVal exampleGetWorld hreach tPlayer 0 exampleGetRef (Val.Player 220 200)
      hptr exampleGetMid hmid exampleGetMidWorld hrun1 hcap exampleGetLater hlater
      exampleGetLaterWorld hrun2⟩

/-- The write through a pointer is lost when the store has grown since the
pointer was fetched.  `Player` is registered, the entities 0 to 511 each
receive a `Player`, which fills the 512 slots of the array, and `Init` runs.
In tick 1 entity 0 stably holds `Player` and `GetComponent` returns a pointer
`p` into the array of 512 slots.  `AddComponent` for entity 512 returns: `add`
copies the slots into a new array of 1024 slots.  A value written through `p`
after that goes to the array left behind: the world is unchanged, and
`GetComponent` and `DebugComponent` for entity 0 still give the old value, in
the same tick and without a cleanup in between. -/
theorem stale_pointer_at_failing_input :
    ∃ (w w1 : World Val) (p : componentRef),
      runOps stalePointerOps (New Val) = Outcome.ok w ∧ w.frame = 1 ∧
      w.GetComponent tPlayer 0 = .ok (some startValue) ∧
      w.GetComponentRef tPlayer 0 = .ok (some p) ∧ w.capOf p.store = some 512 ∧
      w.AddComponent tPlayer 512 lateValue = Outcome.ok w1 ∧ w1.frame = 1 ∧
      w1.capOf p.store = some 1024 ∧
      w1.WriteRef p lateValue = w1 ∧
      (w1.WriteRef p lateValue).GetComponent tPlayer 0 = .ok (some startValue) ∧
      (w1.WriteRef p lateValue).DebugComponent fmtVal tPlayer 0 = .ok (fmtVal startValue) ∧
      startValue ≠ lateValue := by
  obtain ⟨w1, hreg, hone1⟩ := OneStoreW.register_ok (V := Val) tPlayer
  have desc0 : StoreDesc (componentArray.new Val) 512 0 0 (slotsA 0) (mapA 0) :=
    ⟨List.length_replicate _ _, rfl, rfl,
      fun k => by
        show (List.replicate initialEntityArraySize (entityComponent.zero Val))[k]? = slotsA 0 k
        rw [List.getElem?_replicate]
        simp only [slotsA, capA, initialEntityArraySize]
        split_ifs <;> first | rfl | omega,
      fun e => rfl⟩
  obtain ⟨w2, hrun2, hone2⟩ := phaseNew tPlayer 0 (componentArray.new Val) 513 w1 hone1
  obtain ⟨w3, ca3, hrun3, hone3, desc3⟩ := phaseA 512 (by omega) w2 _ hone2 desc0
  have hlen3 : ca3.entities.length = 512 := desc3.len
  have hprune3 : ca3.prune = Outcome.ok ca3 := by
    apply prune_noop
    rw [desc3.deads, desc3.idx, hlen3]
    decide
  obtain ⟨w4, hrun4, hone4⟩ := hone3.tick_ok hprune3 (by decide)
  obtain ⟨ca5, hadd5, desc5⟩ :=
    desc3.add 1 512 lateValue (Or.inl (by simp [mapA])) (by decide) (by decide)
  obtain ⟨w5, hrun5, hone5⟩ := hone4.add_ok 512 lateValue hadd5
  have hlen5 : ca5.entities.length = 1024 := desc5.len
  have e1 : runOps [Op.registerComponent tPlayer] (New Val) = Outcome.ok w1 := by
    rw [runOps_cons]
    show ((New Val).RegisterComponent tPlayer).bind _ = _
    rw [hreg]; rfl
  have e4 : runOps [Op.cleanupTick] w3 = Outcome.ok w4 := by
    rw [runOps_cons]
    show (w3.cleanupTick).bind _ = _
    rw [hrun4]; rfl
  have hrun : runOps stalePointerOps (New Val) = Outcome.ok w4 := by
    simp only [stalePointerOps, runOps_append, e1, hrun2, hrun3, e4, Outcome.bind_ok]
  have hslot3 : ca3.entities[0]? =
      some { Id := 0, Component := startValue, Alive := true, ChangedAt := 0 } := by
    rw [desc3.slots 0]; rfl
  have hmap3 : ca3.entityToIdx 0 = some 0 := by
    rw [desc3.map 0]; rfl
  have hslot5 : ca5.entities[0]? =
      some { Id := 0, Component := startValue, Alive := true, ChangedAt := 0 } := by
    rw [desc5.slots 0]; rfl
  have hmap5 : ca5.entityToIdx 0 = some 0 := by
    rw [desc5.map 0]; rfl
  have hget4 : w4.GetComponent tPlayer 0 = .ok (some startValue) := by
    rw [(hone4.get_eq 0).1]
    simp [componentArray.Get, hmap3, hslot3, entityComponent.isDead]
  have hwrite : w5.WriteRef { store := 0, cap := 512, slot := 0 } lateValue = w5 := by
    simp [World.WriteRef, hone5.arr, hlen5]
  have hget5 : w5.GetComponent tPlayer 0 = .ok (some startValue) := by
    rw [(hone5.get_eq 0).1]
    simp [componentArray.Get, hmap5, hslot5, entityComponent.isDead]
  refine ⟨w4, w5, { store := 0, cap := 512, slot := 0 }, hrun, hone4.frame, hget4, ?_, ?_, hrun5,
    hone5.frame, ?_, hwrite, ?_, ?_, by decide⟩
  · simp [World.GetComponentRef, getComponentRef, getComponentIdx, hone4.toIdx, hone4.arr,
      componentArray.GetRef, hmap3, hslot3, entityComponent.isDead, hone4.frame, hlen3]
  · simp [World.capOf, hone4.arr, hlen3]
  · simp [World.capOf, hone5.arr, hlen5]
  · rw [hwrite]; exact hget5
  · rw [hwrite]; exact debug_of_get fmtVal w5 tPlayer 0 startValue hget5

/-- The update barrier fails also when the add is the only call of its tick:
in tick 3 `Inventory` is added to entity 1, which holds `Player`; in tick 4
entity 1 holds both components but the system subscribed to
`Player | Inventory` is handed the empty list, because the earlier removals
left entity 1 in the reverse index of the system. -/
theorem updateBarrier_stale_index :
    staleSetup.isOk = true ∧ staleSetup.state.frame = 3 ∧
    staleTick3.isOk = true ∧ staleTick3.state.2 = [(tPrintPlayerSystem, [])] ∧
    staleTick3.state.1.frame = 4 ∧
    staleTick3.state.1.GetComponent tPlayer 1 = .ok (some (Val.Player 300 500)) ∧
    staleTick3.state.1.GetComponent tInventory 1 = .ok (some (Val.Inventory 10)) ∧
    staleTick4.isOk = true ∧ staleTick4.state.2 = [(tPrintPlayerSystem, [])] := by
  decide!

/-! ## What the code does in general at C1, C6 and C7 -/

/-- On a world reached by calls that returned, `RegisterComponent[T]` returns
exactly when `T` is not registered yet and fewer than 63 types are: the 64th
registration panics. -/
theorem RegisterComponent_isOk_iff [Inhabited V] (ops : List (Op V)) (w : World V)
    (hrun : runOps ops (New V) = Outcome.ok w) (t : Nat) :
    (w.RegisterComponent t).isOk = true ↔ t ∉ regTypes ops ∧ (regTypes ops).length < 63 := by
  have hinv : RegInv w.cm (regTypes ops) := by
    have := runOps_regInv ops (New V) w [] RegInv.new hrun
    simpa using this
  have hmem : hasComponentArray w.cm t = true ↔ t ∈ regTypes ops := by
    unfold hasComponentArray
    constructor
    · intro h
      obtain ⟨i, hi⟩ := Option.isSome_iff_exists.1 h
      exact List.getElem?_mem ((hinv.toIdx t i).1 hi)
    · intro h
      obtain ⟨i, hi, hget⟩ := List.getElem_of_mem h
      have : w.cm.componentToIdx t = some i := (hinv.toIdx t i).2 (by simp [hi, hget])
      simp [this]
  unfold World.RegisterComponent registerComponent
  rw [hinv.sig, Signature.Next_two_pow]
  by_cases hhas : hasComponentArray w.cm t = true
  · have := hmem.1 hhas
    simp [hhas, this, Outcome.lift, Outcome.isOk]
  · have hnot : t ∉ regTypes ops := fun h => hhas (hmem.2 h)
    simp only [hhas, Bool.false_eq_true, if_false, hnot, not_false_eq_true, true_and]
    by_cases hn : (regTypes ops).length + 1 < 64
    · have : (regTypes ops).length < 63 := by omega
      simp [hn, this, Outcome.lift, Outcome.isOk]
    · have : ¬ (regTypes ops).length < 63 := by omega
      simp [hn, this, Outcome.lift, Outcome.isOk]

/-- A component added by a call that returned is pending in the frame of the
call: `GetComponent` is nil and `HasComponent` is true. -/
theorem AddComponent_pending [Inhabited V] (w w1 : World V) (C e : Nat) (v : V)
    (h : w.AddComponent C e v = Outcome.ok w1) :
    w1.frame = w.frame ∧ w1.GetComponent C e = .ok none ∧ w1.HasComponent C e = .ok true := by
  obtain ⟨hcm, hframe⟩ := World.AddComponent_eq_ok h
  obtain ⟨idx, ca, ca1, hidx, hca, hadd, harr, htoIdx⟩ := addComponent_eq_ok hcm
  obtain ⟨ents, _, _, hlt, rfl⟩ := addSlot_eq_ok (add_eq_ok hadd).1
  have hilt : idx < w.cm.componentArray.length := (List.getElem?_eq_some.1 hca).1
  refine ⟨hframe, ?_, ?_⟩
  · simp [World.GetComponent, getComponent, getComponentIdx, htoIdx, hidx, harr, hilt,
      componentArray.Get, mapSet, hlt, entityComponent.isDead, hframe]
  · simp [World.HasComponent, hasComponent, getComponentIdx, htoIdx, hidx, harr, hilt,
      componentArray.has, mapSet, hlt, entityComponent.isAlive]

theorem remove_isOk_iff (ca : componentArray V) (f e : Nat) :
    (ca.remove f e).isOk = true ↔ liveIn ca e := by
  constructor
  · intro h
    obtain ⟨k, s, h1, h2, h3, _⟩ := remove_eq_ok (Outcome.eq_ok_of_isOk _ h)
    exact ⟨k, s, h1, h2, h3⟩
  · rintro ⟨k, s, h1, h2, h3⟩
    simp [componentArray.remove, h1, h2, h3, Outcome.isOk]

theorem removeLoop_isOk_iff (f e : Nat) (l : List Nat) (hl : l.Nodup) :
    ∀ c : componentManager V,
      (forEach
        (fun i (c : componentManager V) =>
          let c1 : componentManager V :=
            { c with deadEntities := fun x => x = e || c.deadEntities x }
          match c1.componentArray[i]? with
          | none => Outcome.panic Panic.indexOutOfRange c1
          | some ca =>
            (ca.remove f e).lift
              (fun ca1 => { c1 with componentArray := c1.componentArray.set i ca1 }))
        l c).isOk = true ↔
      ∀ i ∈ l, ∃ ca, c.componentArray[i]? = some ca ∧ liveIn ca e := by
  induction l with
  | nil => intro c; simp [forEach, Outcome.isOk]
  | cons i rest ih =>
    intro c
    have hi : i ∉ rest := (List.nodup_cons.1 hl).1
    have hrest : rest.Nodup := (List.nodup_cons.1 hl).2
    unfold forEach
    simp only
    cases hca : c.componentArray[i]? with
    | none =>
      simp only [Outcome.isOk, Bool.false_eq_true, false_iff]
      intro h
      obtain ⟨ca, h1, _⟩ := h i (List.mem_cons_self _ _)
      rw [hca] at h1
      cases h1
    | some ca =>
      simp only
      cases hrm : ca.remove f e with
      | panic p ca1 =>
        simp only [Outcome.lift, Outcome.isOk, Bool.false_eq_true, false_iff]
        intro h
        obtain ⟨ca', h1, h2⟩ := h i (List.mem_cons_self _ _)
        rw [hca] at h1
        cases h1
        have := (remove_isOk_iff ca f e).2 h2
        rw [hrm] at this
        cases this
      | ok ca1 =>
        simp only [Outcome.lift]
        refine Iff.trans (ih hrest _) ?_
        have hlive : liveIn ca e := (remove_isOk_iff ca f e).1 (by rw [hrm]; rfl)
        constructor
        · intro h j hj
          rcases List.mem_cons.1 hj with rfl | hj
          · exact ⟨ca, hca, hlive⟩
          · obtain ⟨ca', h1, h2⟩ := h j hj
            have hne : i ≠ j := fun heq => hi (heq ▸ hj)
            simp only [List.getElem?_set_ne hne] at h1
            exact ⟨ca', h1, h2⟩
        · intro h j hj
          obtain ⟨ca', h1, h2⟩ := h j (List.mem_cons_of_mem _ hj)
          have hne : i ≠ j := fun heq => hi (heq ▸ hj)
          exact ⟨ca', by simp only [List.getElem?_set_ne hne]; exact h1, h2⟩

/-- The call `RemoveEntity(w, e)` returns exactly when every registered store
has a live slot for `e`; it panics as soon as `e` lacks a component of one
registered type. -/
theorem RemoveEntity_isOk_iff (w : World V) (e : Nat) :
    (w.RemoveEntity e).isOk = true ↔
      ∀ (i : Nat) (ca : componentArray V), w.cm.componentArray[i]? = some ca → liveIn ca e := by
  have h1 : (w.RemoveEntity e).isOk = (w.cm.removeEntity w.frame e).isOk := by
    unfold World.RemoveEntity
    cases w.cm.removeEntity w.frame e <;> rfl
  rw [h1]
  unfold componentManager.removeEntity
  rw [removeLoop_isOk_iff w.frame e _ (List.nodup_range _) w.cm]
  constructor
  · intro h i ca hca
    obtain ⟨ca', h2, h3⟩ := h i (List.mem_range.2 (List.getElem?_eq_some.1 hca).1)
    rw [hca] at h2
    cases h2
    exact h3
  · intro h i hi
    have hlt : i < w.cm.componentArray.length := List.mem_range.1 hi
    exact ⟨w.cm.componentArray[i], by simp [hlt], h i _ (by simp [hlt])⟩

/-! ## The existence predicate -/

/-- C11.  In a store where entity `e` has an indexed slot, `has(t, e)` is true
exactly when the liveness flag of the slot is set or its touch-tick is `t`.
Consequently, when the flag is set (as it is for a stably held component),
`remove(T, e)` returns, and in the store it leaves `has(T, e)` is still true,
`Get(T, e)` is nil, and `has(t, e)` is false for every later tick `t > T`. -/
theorem has_iff_flag_or_touched (ca : componentArray V) (e k : Nat) (slot : entityComponent V)
    (hk : ca.entityToIdx e = some k) (hs : ca.entities[k]? = some slot) :
    (∀ t, ca.has t e = .ok (slot.Alive || slot.ChangedAt == t)) ∧
    (∀ T, slot.Alive = true → slot.ChangedAt ≠ T →
      ∃ ca1, ca.remove T e = Outcome.ok ca1 ∧ ca1.has T e = .ok true ∧
        ca1.Get T e = .ok none ∧ ∀ t, T < t → ca1.has t e = .ok false) := by
  constructor
  · intro t
    simp only [componentArray.has, hk, hs, entityComponent.isAlive]
  · intro T halive _
    have hlt : k < ca.entities.length := by
      rcases Nat.lt_or_ge k ca.entities.length with h | h
      · exact h
      · rw [List.getElem?_eq_none h] at hs
        cases hs
    refine ⟨{ ca with
        entities := ca.entities.set k { slot with Alive := false, ChangedAt := T }
        deads := ca.deads + 1 }, ?_, ?_, ?_, ?_⟩
    · simp only [componentArray.remove, hk, hs, halive, Bool.not_true, Bool.false_eq_true,
        if_false]
    · simp [componentArray.has, hk, List.getElem?_set, hlt, entityComponent.isAlive]
    · simp [componentArray.Get, hk, List.getElem?_set, hlt, entityComponent.isDead]
    · intro t ht
      have hne : ¬ T = t := by omega
      simp [componentArray.has, hk, List.getElem?_set, hlt, entityComponent.isAlive, hne]

/-- C11 at the store of entity 7 after its `add` in tick 0: the slot is stably
held in tick 1; after `remove(1, 7)`, `has(1, 7)` is true, `Get(1, 7)` is nil
and `has` is false in every later tick. -/
theorem has_iff_flag_or_touched_witness :
    storeAfterAdd.entityToIdx 7 = some 0 ∧
    ∃ ca1, storeAfterAdd.remove 1 7 = Outcome.ok ca1 ∧ ca1.has 1 7 = .ok true ∧
      ca1.Get 1 7 = .ok none ∧ ∀ t, 1 < t → ca1.has t 7 = .ok false :=
  ⟨by decide!,
    (has_iff_flag_or_touched storeAfterAdd 7 0
      { Id := 7, Component := Val.Player 200 400, Alive := true, ChangedAt := 0 }
      (by decide!) (by decide!)).2 1 rfl (by decide)⟩

/-! ## Failure conditions of `AddComponent` -/

/-- In a reachable world every registered type has a store and a mask. -/
theorem Reachable.store_of_idx [Inhabited V] {w : World V} (hw : Reachable w) {C i : Nat}
    (hC : w.cm.componentToIdx C = some i) :
    ∃ ca s, w.cm.componentArray[i]? = some ca ∧ w.cm.componentSignatures[i]? = some s := by
  obtain ⟨ts, hreg⟩ := hw.regInv
  have hi : i < ts.length := by
    have := (hreg.toIdx C i).1 hC
    exact (List.getElem?_eq_some.1 this).1
  have h1 : i < w.cm.componentArray.length := by rw [hreg.len]; exact hi
  refine ⟨w.cm.componentArray[i], 2 ^ i, List.getElem?_eq_getElem h1, ?_⟩
  rw [hreg.sigs]
  simp [hi]

/-- In a reachable world `AddComponent` panics with "already contains" when
the store of the type has an indexed slot for the entity whose liveness flag
is set. -/
theorem AddComponent_present_panics [Inhabited V] (w : World V) (hw : Reachable w)
    (C e i : Nat) (c : V) (ca : componentArray V) (hC : w.cm.componentToIdx C = some i)
    (hca : w.cm.componentArray[i]? = some ca) (hl : liveIn ca e) :
    (w.AddComponent C e c).panicOf = some (Panic.alreadyContains e) := by
  obtain ⟨ca', s, hca', hs⟩ := hw.store_of_idx hC
  rw [hca] at hca'
  cases hca'
  obtain ⟨k, slot, hk, hslot, halive⟩ := hl
  simp [World.AddComponent, addComponent, getComponentIdx, hC, hca, hs, componentArray.add, hk,
    hslot, halive, Outcome.lift, Outcome.panicOf]

/-- C12 at a world without entities.  `Player` is registered and `NewEntity`
was never called (the entity counter is 0, no id was ever returned), yet
`AddComponent(w, 5, Player{1, 1})` returns: it logs an `Add` entry for id 5,
and after the tick has ended `GetComponent[Player](w, 5)` yields the value. -/
theorem AddComponent_unissued_at_failing_input :
    issuedIds [Op.registerComponent tPlayer] (New Val) = [] ∧
    noEntityWorld.em.idx = 0 ∧
    (noEntityWorld.AddComponent tPlayer 5 (Val.Player 1 1)).isOk = true ∧
    (noEntityWorld.AddComponent tPlayer 5 (Val.Player 1 1)).state.oplog =
      [{ Kind := oplogKind.Add, Entity := 5, Sig := 1 }] ∧
    (noEntityWorld.AddComponent tPlayer 5 (Val.Player 1 1)).state.cleanupTick.isOk = true ∧
    (noEntityWorld.AddComponent tPlayer 5 (Val.Player 1 1)).state.cleanupTick.state.GetComponent
      tPlayer 5 = .ok (some (Val.Player 1 1)) := by
  refine ⟨rfl, ?_, ?_, ?_, ?_, ?_⟩ <;> decide!

/-! ## Failure conditions of `remove` -/

/-- C13, counterexample.  In the store of entity 7 right after its `add` in
tick 0 the slot is pending in tick 0 (touched in tick 0, `Get(0, 7)` is nil: no
stable-alive value), and `remove(0, 7)` returns all the same. -/
theorem remove_pending_counterexample :
    storeAfterAdd.entityToIdx 7 = some 0 ∧
    storeAfterAdd.entities[0]? =
      some { Id := 7, Component := Val.Player 200 400, Alive := true, ChangedAt := 0 } ∧
    storeAfterAdd.Get 0 7 = .ok none ∧
    (storeAfterAdd.remove 0 7).isOk = true := by
  refine ⟨?_, ?_, ?_, ?_⟩ <;> decide!

/-- C13, amended.  The call `remove(t, e)` returns exactly when `e` has an
indexed slot whose liveness flag is set; the touch-tick plays no part.  A call
that fails leaves the store as it was.  A call that returns has set the
liveness flag of the indexed slot to false and its touch-tick to `t`, kept its
id and value, raised the dead counter by one, and left the slot in place: the
array length, the used-slot count, the index map and all other slots are
unchanged. -/
theorem remove_needs_live_flag (ca : componentArray V) (t e : Nat) :
    ((ca.remove t e).isOk = true ↔
      ∃ k slot, ca.entityToIdx e = some k ∧ ca.entities[k]? = some slot ∧ slot.Alive = true) ∧
    ((ca.remove t e).isOk = false → (ca.remove t e).state = ca) ∧
    (∀ ca1, ca.remove t e = Outcome.ok ca1 →
      ca1.entities.length = ca.entities.length ∧ ca1.idx = ca.idx ∧
      ca1.entityToIdx = ca.entityToIdx ∧ ca1.deads = ca.deads + 1 ∧
      ∃ k slot, ca.entityToIdx e = some k ∧ ca.entities[k]? = some slot ∧
        ca1.entities[k]? =
          some { Id := slot.Id, Component := slot.Component, Alive := false, ChangedAt := t } ∧
        ∀ j, j ≠ k → ca1.entities[j]? = ca.entities[j]?) := by
  refine ⟨?_, ?_, ?_⟩
  · constructor
    · intro h
      unfold componentArray.remove at h
      split at h
      · cases h
      · rename_i k hk
        split at h
        · cases h
        · rename_i slot hs
          by_cases ha : slot.Alive = true
          · exact ⟨k, slot, hk, hs, ha⟩
          · simp [ha, Outcome.isOk] at h
    · rintro ⟨k, slot, hk, hs, ha⟩
      simp [componentArray.remove, hk, hs, ha, Outcome.isOk]
  · intro h
    cases hk : ca.entityToIdx e with
    | none => simp [componentArray.remove, hk]
    | some k =>
      cases hs : ca.entities[k]? with
      | none => simp [componentArray.remove, hk, hs]
      | some slot =>
        by_cases ha : slot.Alive = true
        · simp [componentArray.remove, hk, hs, ha, Outcome.isOk] at h
        · simp [componentArray.remove, hk, hs, ha]
  · intro ca1 h
    unfold componentArray.remove at h
    split at h
    · cases h
    · rename_i k hk
      split at h
      · cases h
      · rename_i slot hs
        by_cases ha : slot.Alive = true
        · simp only [ha, Bool.not_true, Bool.false_eq_true, if_false] at h
          cases h
          have hlt : k < ca.entities.length := (List.getElem?_eq_some.1 hs).1
          refine ⟨by simp, rfl, rfl, rfl, k, slot, hk, hs, ?_, ?_⟩
          · simp [List.getElem?_set, hlt]
          · intro j hj
            simp [List.getElem?_set, Ne.symm hj]
        · simp [ha] at h

/-! ## The state left behind by a failing call -/

/-- C14, counterexample.  Four failing calls that leave a changed state.
* `RemoveEntity(w, 0)` on the world where entity 0 holds `Player` and not
  `Inventory` panics after it has put entity 0 into the dead-entity set and has
  marked the `Player` slot dead.
* In the world where `RemoveEntity(w, 0)` has returned in the current tick,
  `RemoveComponent[Player](w, 0)` panics ("does not have"), after it has
  rewritten the signature-table entry of entity 0 from 1 to 0.
* In the world of the re-add scenario entity 0 holds `Player{7, 7}` and has no
  signature-table entry (the cleanup evicted it); `AddComponent[Player](w, 0)`
  panics ("already contains") after it has written the entry 1.
* The 64th registration on a fresh world panics ("signature overflowed") after
  it has appended the 64th store and mask. -/
theorem failure_partial_counterexample :
    ((partialOwnerWorld.RemoveEntity 0).panicOf = some (Panic.doesNotHave 0) ∧
      partialOwnerWorld.cm.deadEntities 0 = false ∧
      (partialOwnerWorld.RemoveEntity 0).state.cm.deadEntities 0 = true ∧
      partialOwnerWorld.cm.componentArray.map (fun ca => ca.deads) = [0, 0] ∧
      (partialOwnerWorld.RemoveEntity 0).state.cm.componentArray.map (fun ca => ca.deads)
        = [1, 0]) ∧
    ((runOps
        [Op.registerComponent tPlayer, Op.newEntity,
         Op.addComponent tPlayer 0 (Val.Player 200 400), Op.cleanupTick, Op.removeEntity 0]
        (New Val)).isOk = true ∧
      (removedEntityWorld.RemoveComponent tPlayer 0).panicOf = some (Panic.doesNotHave 0) ∧
      removedEntityWorld.cm.entitySignatures 0 = some 1 ∧
      (removedEntityWorld.RemoveComponent tPlayer 0).state.cm.entitySignatures 0 = some 0) ∧
    (readdWorld.GetComponent tPlayer 0 = .ok (some (Val.Player 7 7)) ∧
      (readdWorld.AddComponent tPlayer 0 (Val.Player 1 1)).panicOf
        = some (Panic.alreadyContains 0) ∧
      readdWorld.cm.entitySignatures 0 = none ∧
      (readdWorld.AddComponent tPlayer 0 (Val.Player 1 1)).state.cm.entitySignatures 0
        = some 1) ∧
    (((runOps register63 (New Val)).state.RegisterComponent 64).panicOf
        = some Panic.signatureOverflow ∧
      (runOps register63 (New Val)).state.cm.componentSignatures.length = 63 ∧
      ((runOps register63 (New Val)).state.RegisterComponent 64).state.cm.componentSignatures.length
        = 64 ∧
      (runOps register63 (New Val)).state.cm.sig = 2 ^ 63 ∧
      ((runOps register63 (New Val)).state.RegisterComponent 64).state.cm.sig = 0) := by
  refine ⟨?_, ?_, ?_, ?_⟩ <;> decide!

theorem List.set_of_getElem? {β : Type} (l : List β) (i : Nat) (a : β) (h : l[i]? = some a) :
    l.set i a = l := by
  apply List.ext_getElem?
  intro j
  by_cases hj : i = j
  · subst hj
    rw [List.getElem?_set_self (List.getElem?_eq_some.1 h).1, h]
  · rw [List.getElem?_set_ne hj]

theorem addSlot_eq_panic [Inhabited V] {ca ca1 : componentArray V} {f e : Nat} {c : V}
    {p : Panic} (h : ca.addSlot f e c = Outcome.panic p ca1) : p = Panic.indexOutOfRange := by
  unfold componentArray.addSlot at h
  dsimp only at h
  by_cases h1 : ca.idx < (if ca.idx ≥ ca.entities.length then
      ca.entities ++ List.replicate ca.entities.length (entityComponent.zero V)
    else ca.entities).length
  · rw [if_pos h1] at h
    cases h
  · rw [if_neg h1] at h
    cases h
    rfl

theorem add_eq_panic [Inhabited V] {ca ca1 : componentArray V} {f e : Nat} {c : V} {p : Panic}
    (h : ca.add f e c = Outcome.panic p ca1) :
    (p = Panic.alreadyContains e ∧ ca1 = ca) ∨ p = Panic.indexOutOfRange := by
  unfold componentArray.add at h
  split at h
  · exact Or.inr (addSlot_eq_panic h)
  · split at h
    · cases h; exact Or.inr rfl
    · split at h
      · cases h; exact Or.inl ⟨rfl, rfl⟩
      · exact Or.inr (addSlot_eq_panic h)

theorem remove_eq_panic {ca ca1 : componentArray V} {f e : Nat} {p : Panic}
    (h : ca.remove f e = Outcome.panic p ca1) :
    ca1 = ca ∧ (p = Panic.doesNotHave e ∨ p = Panic.indexOutOfRange) := by
  unfold componentArray.remove at h
  split at h
  · cases h; exact ⟨rfl, Or.inl rfl⟩
  · split at h
    · cases h; exact ⟨rfl, Or.inr rfl⟩
    · split at h
      · cases h; exact ⟨rfl, Or.inl rfl⟩
      · cases h

/-- C14, amended.  A `RegisterComponent` call that fails on a duplicate
registration, and an `AddComponent` or `RemoveComponent` call that fails because
the type is not registered, leave the world as it was.  An `AddComponent` call
that fails because the component is already present, and a `RemoveComponent`
call that fails because the component is not held, leave the registered
component list and masks, the component stores, the dead-entity set, the oplog
and everything else as they were, except for the signature-table entry of the
entity: it has been rewritten, to the old entry with the mask `s` of the type
set (`AddComponent`) or cleared (`RemoveComponent`). -/
theorem failure_keeps_stores [Inhabited V] (w : World V) :
    (∀ t, (w.RegisterComponent t).panicOf = some (Panic.alreadyRegistered t) →
      (w.RegisterComponent t).state = w) ∧
    (∀ t e c, (w.AddComponent t e c).panicOf = some (Panic.notRegistered t) →
      (w.AddComponent t e c).state = w) ∧
    (∀ t e, (w.RemoveComponent t e).panicOf = some (Panic.notRegistered t) →
      (w.RemoveComponent t e).state = w) ∧
    (∀ t e c, (w.AddComponent t e c).panicOf = some (Panic.alreadyContains e) →
      ∃ s, w.Sig t = .ok s ∧ (w.AddComponent t e c).state =
        w.withSig e (sigOf w.cm.entitySignatures e ||| s)) ∧
    (∀ t e, (w.RemoveComponent t e).panicOf = some (Panic.doesNotHave e) →
      ∃ s, w.Sig t = .ok s ∧ (w.RemoveComponent t e).state =
        w.withSig e (sigOf w.cm.entitySignatures e &&& sigNot s)) := by
  refine ⟨?_, ?_, ?_, ?_, ?_⟩
  · intro t h
    unfold World.RegisterComponent registerComponent at h ⊢
    by_cases hhas : hasComponentArray w.cm t = true
    · simp [hhas, Outcome.lift]
    · simp only [hhas, Bool.false_eq_true, if_false] at h
      split at h <;> simp [Outcome.lift, Outcome.panicOf] at h
  · intro t e c h
    unfold World.AddComponent addComponent getComponentIdx at h ⊢
    cases hidx : w.cm.componentToIdx t with
    | none => simp [hidx]
    | some idx =>
      cases hca : w.cm.componentArray[idx]? with
      | none => simp [hidx, hca]
      | some ca =>
        cases hs : w.cm.componentSignatures[idx]? with
        | none => simp [hidx, hca, hs]
        | some s =>
          exfalso
          simp only [hidx, hca, hs] at h
          cases hadd : ca.add w.frame e c with
          | ok ca1 => simp [hadd, Outcome.lift, Outcome.panicOf] at h
          | panic p ca1 =>
            simp only [hadd, Outcome.lift, Outcome.panicOf, Option.some.injEq] at h
            rcases add_eq_panic hadd with ⟨hp, _⟩ | hp <;> rw [hp] at h <;> cases h
  · intro t e h
    unfold World.RemoveComponent removeComponent getComponentIdx at h ⊢
    cases hidx : w.cm.componentToIdx t with
    | none => simp [hidx]
    | some idx =>
      cases hca : w.cm.componentArray[idx]? with
      | none => simp [hidx, hca]
      | some ca =>
        cases hs : w.cm.componentSignatures[idx]? with
        | none => simp [hidx, hca, hs]
        | some s =>
          exfalso
          simp only [hidx, hca, hs] at h
          cases hrm : ca.remove w.frame e with
          | ok ca1 => simp [hrm, Outcome.lift, Outcome.panicOf] at h
          | panic p ca1 =>
            simp only [hrm, Outcome.lift, Outcome.panicOf, Option.some.injEq] at h
            rcases (remove_eq_panic hrm).2 with hp | hp <;> rw [hp] at h <;> cases h
  · intro t e c h
    unfold World.AddComponent addComponent getComponentIdx at h ⊢
    cases hidx : w.cm.componentToIdx t with
    | none => simp [hidx, Outcome.panicOf] at h
    | some idx =>
      cases hca : w.cm.componentArray[idx]? with
      | none => simp [hidx, hca, Outcome.panicOf] at h
      | some ca =>
        cases hs : w.cm.componentSignatures[idx]? with
        | none => simp [hidx, hca, hs, Outcome.panicOf] at h
        | some s =>
          simp only [hidx, hca, hs] at h ⊢
          refine ⟨s, by simp [World.Sig, getComponentSignature, getComponentIdx, hidx, hs], ?_⟩
          cases hadd : ca.add w.frame e c with
          | ok ca1 => simp [hadd, Outcome.lift, Outcome.panicOf] at h
          | panic p ca1 =>
            simp only [hadd, Outcome.lift, Outcome.panicOf, Option.some.injEq] at h
            rcases add_eq_panic hadd with ⟨_, hca1⟩ | hp
            · rw [hca1]
              simp [Outcome.lift, List.set_of_getElem? _ _ _ hca, World.withSig]
            · rw [hp] at h; cases h
  · intro t e h
    unfold World.RemoveComponent removeComponent getComponentIdx at h ⊢
    cases hidx : w.cm.componentToIdx t with
    | none => simp [hidx, Outcome.panicOf] at h
    | some idx =>
      cases hca : w.cm.componentArray[idx]? with
      | none => simp [hidx, hca, Outcome.panicOf] at h
      | some ca =>
        cases hs : w.cm.componentSignatures[idx]? with
        | none => simp [hidx, hca, hs, Outcome.panicOf] at h
        | some s =>
          simp only [hidx, hca, hs] at h ⊢
          refine ⟨s, by simp [World.Sig, getComponentSignature, getComponentIdx, hidx, hs], ?_⟩
          cases hrm : ca.remove w.frame e with
          | ok ca1 => simp [hrm, Outcome.lift, Outcome.panicOf] at h
          | panic p ca1 =>
            rw [(remove_eq_panic hrm).1]
            simp [Outcome.lift, List.set_of_getElem? _ _ _ hca, World.withSig]

/-! ## The tick step -/

theorem Op.apply_inUpdate [Inhabited V] (op : Op V) (w : World V) (hop : op.inUpdate = true) :
    (op.apply w).state.sm = w.sm ∧ (op.apply w).state.frame = w.frame := by
  cases op with
  | registerComponent t => cases hop
  | newEntity => exact ⟨rfl, rfl⟩
  | addComponent t e c =>
    simp only [Op.apply, World.AddComponent]; split <;> exact ⟨rfl, rfl⟩
  | removeComponent t e =>
    simp only [Op.apply, World.RemoveComponent]; split <;> exact ⟨rfl, rfl⟩
  | setComponent t e c =>
    exact ⟨(World.SetComponent_fields w t e c).2.1, (World.SetComponent_fields w t e c).2.2.2.2.2⟩
  | writeRef p c =>
    exact ⟨(World.WriteRef_fields w p c).2.1, (World.WriteRef_fields w p c).2.2.2.2.2⟩
  | removeEntity e =>
    simp only [Op.apply, World.RemoveEntity]; split <;> exact ⟨rfl, rfl⟩
  | registerSystem s sig => cases hop
  | registerInitSystem s => cases hop
  | registerSingleton st T v => cases hop
  | cleanupTick => cases hop

theorem runOps_inUpdate [Inhabited V] (ops : List (Op V)) :
    ∀ w : World V, (∀ op ∈ ops, op.inUpdate = true) →
      (runOps ops w).state.sm = w.sm ∧ (runOps ops w).state.frame = w.frame := by
  induction ops with
  | nil => intro w _; exact ⟨rfl, rfl⟩
  | cons op rest ih =>
    intro w hops
    have h1 := Op.apply_inUpdate op w (hops op (List.mem_cons_self _ _))
    rw [runOps_cons]
    cases hop : op.apply w with
    | ok w1 =>
      rw [hop] at h1
      have h2 := ih w1 (fun o ho => hops o (List.mem_cons_of_mem _ ho))
      simp only [Outcome.bind]
      exact ⟨h2.1.trans h1.1, h2.2.trans h1.2⟩
    | panic p w1 =>
      rw [hop] at h1
      exact h1

/-- The loop over the systems of `RunUpdate` calls the systems of the list in
order, once each; it leaves the tick counter alone when the systems do. -/
theorem runSystems_calls (upd : Nat → UpdateState V → Outcome (World V))
    (hupd : ∀ s us w1, upd s us = Outcome.ok w1 → w1.frame = us.World.frame) (dt : Nat) :
    ∀ (l : List (Nat × Nat)) (st st1 : World V × List (Nat × List EntityID)),
      World.runSystems upd dt l st = Outcome.ok st1 →
        st1.2.map Prod.fst = st.2.map Prod.fst ++ l.map Prod.snd ∧ st1.1.frame = st.1.frame := by
  intro l
  induction l with
  | nil =>
    intro st st1 h
    simp only [World.runSystems] at h
    cases h
    simp
  | cons x rest ih =>
    intro st st1 h
    obtain ⟨i, s⟩ := x
    obtain ⟨w, calls⟩ := st
    unfold World.runSystems at h
    split at h
    · cases h
    · rename_i entities hents
      split at h
      · cases h
      · rename_i w1 hw1
        obtain ⟨h1, h2⟩ := ih _ st1 h
        have h3 := hupd s _ w1 hw1
        refine ⟨?_, h2.trans h3⟩
        rw [h1]
        simp

theorem World.cleanupTick_oplog_frame {w w1 : World V} (h : w.cleanupTick = Outcome.ok w1) :
    w1.oplog = [] ∧ w1.frame = (w.frame + 1) % 2 ^ 64 := by
  unfold World.cleanupTick at h
  split at h
  · cases h
  · rename_i w2 hw2
    cases h
    unfold World.cleanup at hw2
    split at hw2
    · cases hw2
    · obtain ⟨cm1, _, rfl⟩ := Outcome.lift_eq_ok hw2
      exact ⟨rfl, rfl⟩

/-- The loop over the systems of `RunUpdate`, as a chain of worlds: the world
handed to the `k`-th `Update` call is the one the previous call left, the call
gets the membership list its system has at that moment, and the loop ends with
the world the last call left.  The record of calls lists them in order. -/
theorem runSystems_chain (upd : Nat → UpdateState V → Outcome (World V)) (dt : Nat) :
    ∀ (l : List (Nat × Nat)) (st st1 : World V × List (Nat × List EntityID)),
      World.runSystems upd dt l st = Outcome.ok st1 →
      ∃ (ws : List (World V)) (tail : List (Nat × List EntityID)),
        ws.length = l.length + 1 ∧ ws[0]? = some st.1 ∧ ws[l.length]? = some st1.1 ∧
        st1.2 = st.2 ++ tail ∧
        ∀ (k i s : Nat), l[k]? = some (i, s) →
          ∃ wk wk1 ents, ws[k]? = some wk ∧ ws[k + 1]? = some wk1 ∧
            wk.sm.systemEntities[i]? = some ents ∧
            upd s { World := wk, Entities := ents, DeltaTime := dt } = Outcome.ok wk1 ∧
            st1.2[st.2.length + k]? = some (s, ents) := by
  intro l
  induction l with
  | nil =>
    intro st st1 h
    simp only [World.runSystems] at h
    cases h
    refine ⟨[st.1], [], by simp, by simp, by simp, by simp, ?_⟩
    intro k i s hk
    simp at hk
  | cons x rest ih =>
    intro st st1 h
    obtain ⟨i0, s0⟩ := x
    obtain ⟨w, made⟩ := st
    unfold World.runSystems at h
    split at h
    · cases h
    · rename_i ents hents
      split at h
      · cases h
      · rename_i w1 hw1
        obtain ⟨ws, tail, hlen, h0, hlast, hmade, hstep⟩ := ih _ st1 h
        simp only at h0 hmade hstep
        refine ⟨w :: ws, (s0, ents) :: tail, by simp [hlen], by simp, ?_, ?_, ?_⟩
        · simpa using hlast
        · rw [hmade]
          simp
        · intro k i s hk
          cases k with
          | zero =>
            simp only [List.getElem?_cons_zero, Option.some.injEq, Prod.mk.injEq] at hk
            obtain ⟨rfl, rfl⟩ := hk
            refine ⟨w, w1, ents, by simp, by simpa using h0, hents, hw1, ?_⟩
            rw [hmade, List.append_assoc, List.getElem?_append_right (Nat.le_add_right _ _)]
            simp
          | succ n =>
            simp only [List.getElem?_cons_succ] at hk
            obtain ⟨wk, wk1, ents1, a, b, c, d, e⟩ := hstep n i s hk
            refine ⟨wk, wk1, ents1, by simpa using a, by simpa using b, c, d, ?_⟩
            have hpos : (made ++ [(s0, ents)]).length + n = made.length + (n + 1) := by
              simp only [List.length_append, List.length_singleton]
              omega
            rw [hpos] at e
            exact e

/-- C15.  Let the systems issue, from `Update`, any calls of `AddComponent`,
`RemoveComponent`, `RemoveEntity`, `NewEntity` and writes through component
pointers (`calls s us` is what system `s` issues when handed `us`).  If
`RunUpdate` returns on a world `w`, leaving `w2`, then there is a chain of
worlds `w = ws[0], ws[1], ..., ws[n]`, one step for each of the `n` registered
systems in registration order, in which `ws[k + 1]` is what the `Update` call
of the `k`-th system, handed `ws[k]` and the membership list the system has in
`ws[k]`, made of `ws[k]`; `w2` is what `cleanup(); frame++` makes of `ws[n]`.
So every registered system was invoked exactly once, in registration order, on
the world its predecessor left (the record `made` of the calls lists exactly
these calls).  The oplog of `w2` is empty and its tick counter is one greater
than that of `w` (in 64-bit arithmetic; exactly one greater unless it was at
its maximum). -/
theorem RunUpdate_tick_step [Inhabited V] (calls : Nat → UpdateState V → List (Op V))
    (hcalls : ∀ s us op, op ∈ calls s us → op.inUpdate = true)
    (w w2 : World V) (dt : Nat) (made : List (Nat × List EntityID))
    (h : World.RunUpdateCalls (fun s us => runOps (calls s us) us.World) w dt
      = Outcome.ok (w2, made)) :
    World.RunUpdate (fun s us => runOps (calls s us) us.World) w dt = Outcome.ok w2 ∧
    made.map Prod.fst = w.sm.systems ∧
    (∃ ws : List (World V),
      ws.length = w.sm.systems.length + 1 ∧ ws[0]? = some w ∧
      (∀ (k s : Nat), w.sm.systems[k]? = some s →
        ∃ wk wk1 ents, ws[k]? = some wk ∧ ws[k + 1]? = some wk1 ∧
          wk.sm.systemEntities[k]? = some ents ∧
          runOps (calls s { World := wk, Entities := ents, DeltaTime := dt }) wk
            = Outcome.ok wk1 ∧
          made[k]? = some (s, ents)) ∧
      ∃ wn, ws[w.sm.systems.length]? = some wn ∧ wn.cleanupTick = Outcome.ok w2) ∧
    w2.oplog = [] ∧
    w2.frame = (w.frame + 1) % 2 ^ 64 ∧
    (w.frame + 1 < 2 ^ 64 → w2.frame = w.frame + 1) := by
  have hupd : ∀ s (us : UpdateState V) w1,
      (fun s us => runOps (calls s us) us.World) s us = Outcome.ok w1 →
        w1.frame = us.World.frame := by
    intro s us w1 hw1
    have := (runOps_inUpdate (calls s us) us.World (hcalls s us)).2
    simp only at hw1
    rw [hw1] at this
    exact this
  have hrun : World.RunUpdate (fun s us => runOps (calls s us) us.World) w dt = Outcome.ok w2 := by
    unfold World.RunUpdate
    rw [h]
    rfl
  unfold World.RunUpdateCalls at h
  split at h
  · cases h
  · rename_i w1 made1 hsys
    obtain ⟨w3, hw3, heq⟩ := Outcome.lift_eq_ok h
    cases heq
    obtain ⟨h1, h2⟩ := runSystems_calls _ hupd dt _ (w, []) (w1, made) hsys
    obtain ⟨ws, tail, hlen, hfirst, hlast, hmade, hstep⟩ :=
      runSystems_chain _ dt _ (w, []) (w1, made) hsys
    obtain ⟨h3, h4⟩ := World.cleanupTick_oplog_frame hw3
    simp only at h2 hfirst hlast hmade hstep
    rw [h2] at h4
    rw [List.enum_length] at hlen hlast
    refine ⟨hrun, by simpa using h1, ⟨ws, hlen, hfirst, ?_, w1, hlast, hw3⟩, h3, h4, ?_⟩
    · intro k s hk
      have hk1 : w.sm.systems.enum[k]? = some (k, s) := by
        rw [List.getElem?_enum, hk]
        rfl
      obtain ⟨wk, wk1, ents, a, b, c, d, e⟩ := hstep k k s hk1
      exact ⟨wk, wk1, ents, a, b, c, d, by simpa using e⟩
    · intro hlt
      rw [h4, Nat.mod_eq_of_lt hlt]

theorem modifyPlayerCalls_inUpdate (es : List EntityID) :
    ∀ (w : World Val) (op : Op Val), op ∈ modifyPlayerCalls w es → op.inUpdate = true := by
  induction es with
  | nil => intro w op h; simp [modifyPlayerCalls] at h
  | cons e rest ih =>
    intro w op h
    unfold modifyPlayerCalls at h
    split at h
    · exact ih w op h
    · rcases List.mem_cons.1 h with rfl | h
      · rfl
      · exact ih _ op h

theorem Outcome.eq_ok_pair {β γ : Type} (o : Outcome (β × γ)) (h : o.isOk = true) :
    o = Outcome.ok (o.state.1, o.state.2) :=
  Outcome.eq_ok_of_isOk o h

/-- C15 at the first `RunUpdate` of `ExampleRegisterSystem_updateBarrier`.
`ModifyPlayerSystem` is handed entity 0 and adds `Inventory{10}` to it,
`PrintPlayerSystem` is handed nothing; the call returns, and the world it
leaves shows the effect of the `Update` call and of the cleanup: entity 0 holds
`Inventory{10}` and is in the list of both systems, the oplog is empty and the
tick counter went from 1 to 2. -/
theorem RunUpdate_tick_step_witness :
    barrierExampleWorld.sm.systems = [tModifyPlayerSystem, tPrintPlayerSystem] ∧
    barrierExampleWorld.frame = 1 ∧
    barrierExampleWorld.sm.systemEntities = [[0], []] ∧
    barrierExampleWorld.GetComponent tInventory 0 = .ok none ∧
    barrierRun.state.2 = [(tModifyPlayerSystem, [0]), (tPrintPlayerSystem, [])] ∧
    barrierRun.state.1.GetComponent tInventory 0 = .ok (some (Val.Inventory 10)) ∧
    barrierRun.state.1.sm.systemEntities = [[0], [0]] ∧
    barrierRun.state.1.frame = 2 ∧
    (World.RunUpdate (fun s us => runOps (barrierCalls s us) us.World) barrierExampleWorld 0 =
        Outcome.ok barrierRun.state.1 ∧
      barrierRun.state.2.map Prod.fst = barrierExampleWorld.sm.systems ∧
      (∃ ws : List (World Val),
        ws.length = barrierExampleWorld.sm.systems.length + 1 ∧
        ws[0]? = some barrierExampleWorld ∧
        (∀ (k s : Nat), barrierExampleWorld.sm.systems[k]? = some s →
          ∃ wk wk1 ents, ws[k]? = some wk ∧ ws[k + 1]? = some wk1 ∧
            wk.sm.systemEntities[k]? = some ents ∧
            runOps (barrierCalls s { World := wk, Entities := ents, DeltaTime := 0 }) wk
              = Outcome.ok wk1 ∧
            barrierRun.state.2[k]? = some (s, ents)) ∧
        ∃ wn, ws[barrierExampleWorld.sm.systems.length]? = some wn ∧
          wn.cleanupTick = Outcome.ok barrierRun.state.1) ∧
      barrierRun.state.1.oplog = [] ∧
      barrierRun.state.1.frame = (barrierExampleWorld.frame + 1) % 2 ^ 64 ∧
      (barrierExampleWorld.frame + 1 < 2 ^ 64 →
        barrierRun.state.1.frame = barrierExampleWorld.frame + 1)) := by
  have h := RunUpdate_tick_step barrierCalls
      (fun s us op hop => by
        unfold barrierCalls at hop
        split at hop
        · exact modifyPlayerCalls_inUpdate _ _ _ hop
        · cases hop)
      barrierExampleWorld barrierRun.state.1 0 barrierRun.state.2
      (Outcome.eq_ok_pair barrierRun (by decide!))
  refine ⟨?_, ?_, ?_, ?_, ?_, ?_, ?_, ?_, h⟩ <;> decide!

/-! ## Structural consequences are deferred -/

theorem forEach_singleton (body : α → σ → Outcome σ) (x : α) (s : σ) :
    forEach body [x] s = body x s := by
  unfold forEach
  cases body x s <;> rfl

theorem Op.apply_sm [Inhabited V] (op : Op V) (w : World V) (h1 : op ≠ Op.cleanupTick)
    (h2 : ∀ s sig, op ≠ Op.registerSystem s sig) : (op.apply w).state.sm = w.sm := by
  cases op with
  | registerComponent t => simp [Op.apply, World.RegisterComponent]
  | newEntity => rfl
  | addComponent t e c => simp only [Op.apply, World.AddComponent]; split <;> rfl
  | removeComponent t e => simp only [Op.apply, World.RemoveComponent]; split <;> rfl
  | setComponent t e c => exact (World.SetComponent_fields w t e c).2.1
  | writeRef p c => exact (World.WriteRef_fields w p c).2.1
  | removeEntity e => simp only [Op.apply, World.RemoveEntity]; split <;> rfl
  | registerSystem s sig => exact absurd rfl (h2 s sig)
  | registerInitSystem s => rfl
  | registerSingleton st T v => rfl
  | cleanupTick => exact absurd rfl h1

/-- C16.  A call of `AddComponent`, `RemoveComponent` or `RemoveEntity` that
returns leaves the system manager (every membership list and reverse index)
as it was and appends exactly one entry to the end of the oplog: its kind is
`Add` for `AddComponent` and `Delete` for the removals, its entity is `e`, and
its signature is the signature-table entry of `e` at the call, which for
`AddComponent` is the old entry with the mask of the added type set, and for
the removals the entry as it stood when the call was made.  No other call
apart from `RegisterSystem` and the cleanup changes the system manager.  A
cleanup that returns leaves the system manager that results from applying
the oplog entries to it one by one from the first appended to the last (the
entry appended last is applied after all the others), and an empty oplog. -/
theorem structural_calls_deferred [Inhabited V] (w : World V) :
    (∀ t e c w1, w.AddComponent t e c = Outcome.ok w1 →
      w1.sm = w.sm ∧
      (∃ s, w.Sig t = .ok s ∧
        sigOf w1.cm.entitySignatures e = sigOf w.cm.entitySignatures e ||| s) ∧
      w1.oplog = w.oplog ++
        [{ Kind := oplogKind.Add, Entity := e, Sig := sigOf w1.cm.entitySignatures e }]) ∧
    (∀ t e w1, w.RemoveComponent t e = Outcome.ok w1 →
      w1.sm = w.sm ∧
      w1.oplog = w.oplog ++
        [{ Kind := oplogKind.Delete, Entity := e, Sig := sigOf w.cm.entitySignatures e }]) ∧
    (∀ e w1, w.RemoveEntity e = Outcome.ok w1 →
      w1.sm = w.sm ∧
      w1.oplog = w.oplog ++
        [{ Kind := oplogKind.Delete, Entity := e, Sig := sigOf w.cm.entitySignatures e }]) ∧
    (∀ op : Op V, op ≠ Op.cleanupTick → (∀ s sig, op ≠ Op.registerSystem s sig) →
      (op.apply w).state.sm = w.sm) ∧
    (∀ w1, w.cleanup = Outcome.ok w1 →
      World.applyOplog w.sm w.oplog = Outcome.ok w1.sm ∧ w1.oplog = []) ∧
    (∀ (sm : systemManager) (entries : List oplogEntry) (entry : oplogEntry),
      World.applyOplog sm (entries ++ [entry]) =
        (World.applyOplog sm entries).bind (fun m =>
          match entry.Kind with
          | oplogKind.Add => m.addEntity entry.Entity entry.Sig
          | oplogKind.Delete => m.removeEntity entry.Entity entry.Sig)) := by
  refine ⟨?_, ?_, ?_, ?_, ?_, ?_⟩
  · intro t e c w1 h
    unfold World.AddComponent at h
    split at h
    · cases h
    · rename_i cm1 hcm
      cases h
      refine ⟨rfl, ?_, rfl⟩
      unfold addComponent getComponentIdx at hcm
      cases hidx : w.cm.componentToIdx t with
      | none => simp [hidx] at hcm
      | some idx =>
        simp only [hidx] at hcm
        split at hcm
        · rename_i ca s hca hs
          obtain ⟨ca2, _, hcm1⟩ := Outcome.lift_eq_ok hcm
          refine ⟨s, by simp [World.Sig, getComponentSignature, getComponentIdx, hidx, hs], ?_⟩
          simp only
          rw [hcm1]
          simp [sigOf, mapSet]
        · cases hcm
  · intro t e w1 h
    unfold World.RemoveComponent at h
    simp only at h
    split at h
    · cases h
    · cases h
      exact ⟨rfl, rfl⟩
  · intro e w1 h
    unfold World.RemoveEntity at h
    simp only at h
    split at h
    · cases h
    · cases h
      exact ⟨rfl, rfl⟩
  · intro op h1 h2
    exact Op.apply_sm op w h1 h2
  · intro w1 h
    unfold World.cleanup at h
    split at h
    · cases h
    · rename_i sm1 hsm
      obtain ⟨cm1, _, rfl⟩ := Outcome.lift_eq_ok h
      exact ⟨hsm, rfl⟩
  · intro sm entries entry
    unfold World.applyOplog
    rw [forEach_append]
    congr 1
    funext m
    rw [forEach_singleton]

/-- C16 at `ExampleGetComponent` after `Init`: `AddComponent(w, 0, Inventory{3})`
returns, leaves the system manager alone, composes the signature 1 | 2 = 3 for
entity 0 and appends the entry `Add, 0, 3` to the empty oplog. -/
theorem structural_calls_deferred_witness :
    exampleGetWorld.oplog = [] ∧ sigOf exampleGetWorld.cm.entitySignatures 0 = 1 ∧
    (exampleGetWorld.AddComponent tInventory 0 (Val.Inventory 3)).state.oplog =
      [{ Kind := oplogKind.Add, Entity := 0, Sig := 3 }] ∧
    ((exampleGetWorld.AddComponent tInventory 0 (Val.Inventory 3)).state.sm = exampleGetWorld.sm ∧
      (∃ s, exampleGetWorld.Sig tInventory = .ok s ∧
        sigOf (exampleGetWorld.AddComponent tInventory 0 (Val.Inventory 3)).state.cm.entitySignatures
          0 = sigOf exampleGetWorld.cm.entitySignatures 0 ||| s) ∧
      (exampleGetWorld.AddComponent tInventory 0 (Val.Inventory 3)).state.oplog =
        exampleGetWorld.oplog ++
          [{ Kind := oplogKind.Add, Entity := 0,
             Sig := sigOf
               (exampleGetWorld.AddComponent tInventory 0 (Val.Inventory 3)).state.cm.entitySignatures
               0 }]) :=
  ⟨by decide!, by decide!, by decide!,
    (structural_calls_deferred exampleGetWorld).1 tInventory 0 (Val.Inventory 3)
      (exampleGetWorld.AddComponent tInventory 0 (Val.Inventory 3)).state
      (Outcome.eq_ok_of_isOk _ (by decide!))⟩

/-! ## Seeding at system registration -/

/-- C17 at the world of `ExampleRegisterSystem` when the system is registered
after `Init` instead of before.  Entity 0 holds `Player` only (signature 1),
entity 1 holds `Player` and `Inventory` (signature 3), both applied; the system
asks for `Player | Inventory` (3).  The registration seeds the membership list
with `[0, 1, 1]`: entity 0, which lacks `Inventory`, and entity 1 twice; the
reverse index stays empty.  When the system is registered before `Init`, as in
the example, the list is built from the oplog and is `[1]`. -/
theorem RegisterSystem_seed_at_failing_input :
    seedWorld.frame = 1 ∧ seedWorld.oplog = [] ∧
    seedWorld.cm.entitySignatures 0 = some 1 ∧ seedWorld.cm.entitySignatures 1 = some 3 ∧
    seedWorld.GetComponent tInventory 0 = .ok none ∧
    (seedWorld.RegisterSystem tPrintPlayerSystem (1 ||| 2)).isOk = true ∧
    (seedWorld.RegisterSystem tPrintPlayerSystem (1 ||| 2)).state.sm.systemEntities
      = [[0, 1, 1]] ∧
    (seedWorld.RegisterSystem tPrintPlayerSystem (1 ||| 2)).state.sm.systemEntitySet.map
      (fun set => (set 0, set 1)) = [(none, none)] ∧
    (runOps exampleRegisterOps (New Val)).isOk = true ∧
    (runOps exampleRegisterOps (New Val)).state.sm.systemEntities = [[1]] := by
  refine ⟨?_, ?_, ?_, ?_, ?_, ?_, ?_, ?_, ?_, ?_⟩ <;> decide!

/-! ## The membership index -/

/-- C18 at the swap-remove scenario.  The system's list is `[0, 1, 2]` and its
reverse index maps 0, 1, 2 to their positions and nothing else.  After
`removeEntity(0, 1)` the list is `[0, 1]`: entity 0 is still listed, entity 2 is
gone; the reverse index still has its entry for entity 0 and maps entity 2,
which is no longer listed, to position 0. -/
theorem swapRemove_at_failing_input :
    swapWorld.sm.systemSignatures = [1] ∧
    swapWorld.sm.systemEntities = [[0, 1, 2]] ∧
    swapWorld.sm.systemEntitySet.map (fun set => (List.range 4).map set)
      = [[some 0, some 1, some 2, none]] ∧
    (swapWorld.sm.removeEntity 0 1).isOk = true ∧
    (swapWorld.sm.removeEntity 0 1).state.systemEntities = [[0, 1]] ∧
    (swapWorld.sm.removeEntity 0 1).state.systemEntitySet.map (fun set => (List.range 4).map set)
      = [[some 0, some 1, some 0, none]] := by
  refine ⟨?_, ?_, ?_, ?_, ?_, ?_⟩ <;> decide!

/-! ## Compaction above the threshold -/

/-- C19 at the store of the compaction scenario after the late add (tick 2).
The store has capacity 1024, 515 used slots and 512 in the dead counter, so
`prune` compacts.  Before, entity 3 has the alive slot 514 holding
`Player{7, 7}`, and `Get` in tick 3 would return it.  After `prune` the value
sits alive in slot 1, but the index map sends entity 3 to slot 3, a dead slot
inside the used prefix, and `Get` in tick 3 returns nil. -/
theorem prune_at_failing_input :
    ∃ ca ca1 : componentArray Val,
      (compactionWorld.AddComponent tPlayer 3 lateValue).state.cm.componentArray = [ca] ∧
      ca.entities.length = 1024 ∧ ca.idx = 515 ∧ ca.deads = 512 ∧
      ca.entityToIdx 3 = some 514 ∧
      ca.entities[514]? = some { Id := 3, Component := lateValue, Alive := true, ChangedAt := 2 } ∧
      ca.Get 3 3 = .ok (some lateValue) ∧
      ca.prune = Outcome.ok ca1 ∧
      ca1.entities[1]? = some { Id := 3, Component := lateValue, Alive := true, ChangedAt := 2 } ∧
      ca1.entityToIdx 3 = some 3 ∧ 3 < ca1.idx ∧
      ca1.entities[3]? =
        some { Id := 3, Component := startValue, Alive := false, ChangedAt := 1 } ∧
      ca1.Get 3 3 = .ok none := by
  obtain ⟨ca, hrun, hone, desc⟩ := compaction_pre
  obtain ⟨ca1, hadd, desc1⟩ := desc.add 2 3 lateValue
    (Or.inr ⟨3, _, rfl, rfl, rfl⟩) (by decide) (by decide)
  obtain ⟨w1, hw1, hone1⟩ := hone.add_ok 3 lateValue hadd
  have desc1' : StoreDesc ca1 1024 515 512 slotsD (mapSet (mapA 514) 3 514) := by
    refine desc1.cast (by decide) rfl rfl ?_ (fun _ => rfl)
    intro k
    simp only [slotsD, slotsC, slotsB]
    split_ifs <;> first | rfl | omega
  have hm1 : ca1.entityToIdx 3 = some 514 := (desc1'.map 3).trans rfl
  have hs1 : ca1.entities[514]? = some
      { Id := 3, Component := lateValue, Alive := true, ChangedAt := 2 } :=
    (desc1'.slots 514).trans rfl
  obtain ⟨ca2, hprune, hm2, hs2, hs3⟩ := compaction_prune ca1 _ desc1'
  have hreach0 : Reachable compactionWorld := ⟨compactionOps, hrun⟩
  have hreach : Reachable w1 := Reachable.step hreach0 (Op.addComponent tPlayer 3 lateValue) hw1
  have hinv1 : IdxInv ca1 := hreach.storesInv 0 ca1 (by rw [hone1.arr]; rfl)
  have hinv2 : IdxInv ca2 := hinv1.after_prune hprune
  refine ⟨ca1, ca2, ?_, desc1'.len, desc1'.idx, desc1'.deads, hm1, hs1, ?_, hprune, hs3, hm2,
    (hinv2.map 3 3 hm2).1, hs2, ?_⟩
  · rw [hw1]
    exact hone1.arr
  · simp [componentArray.Get, hm1, hs1, entityComponent.isDead]
  · simp [componentArray.Get, hm2, hs2, entityComponent.isDead]

/-! ## `addEntity` -/

theorem addEntityAt_eq (e : EntityID) (sig : Signature) (i : Nat) (sm : systemManager)
    (s : Signature) (ents : List EntityID) (set : Nat → Option Nat)
    (hs : sm.systemSignatures[i]? = some s) (hents : sm.systemEntities[i]? = some ents)
    (hset : sm.systemEntitySet[i]? = some set) :
    systemManager.addEntityAt e sig i sm =
      Outcome.ok
        (if s &&& sig = s ∧ set e = none then
          { sm with
            systemEntities := sm.systemEntities.set i (ents ++ [e])
            systemEntitySet := sm.systemEntitySet.set i (mapSet set e ents.length) }
        else sm) := by
  unfold systemManager.addEntityAt
  simp only [hs, hset, hents]
  by_cases hg : s &&& sig = s
  · cases hse : set e with
    | none => simp [hg]
    | some k => simp [hg]
  · simp [hg]

theorem SysInv.mem_iff {sm : systemManager} (h : SysInv sm) {i : Nat} {ents : List EntityID}
    {set : Nat → Option Nat} (hents : sm.systemEntities[i]? = some ents)
    (hset : sm.systemEntitySet[i]? = some set) (e : Nat) : set e = none ↔ e ∉ ents := by
  constructor
  · intro hnone hmem
    obtain ⟨k, hk⟩ := List.mem_iff_getElem?.1 hmem
    have := (h.index i ents set hents hset e k).2 hk
    rw [hnone] at this
    cases this
  · intro hmem
    cases hse : set e with
    | none => rfl
    | some k =>
      exact absurd (List.getElem?_mem ((h.index i ents set hents hset e k).1 hse)) hmem

/-- The loop of `addEntity` over a list of distinct system positions: it
returns, and changes the entries of the positions of the list only. -/
theorem addEntityLoop (e : EntityID) (sig : Signature) (n : Nat) :
    ∀ (l : List Nat) (c : systemManager), l.Nodup → (∀ i ∈ l, i < n) →
      c.systemSignatures.length = n → c.systemEntities.length = n →
      c.systemEntitySet.length = n →
      ∃ c1, forEach (systemManager.addEntityAt e sig) l c = Outcome.ok c1 ∧
        c1.systems = c.systems ∧ c1.systemSignatures = c.systemSignatures ∧
        c1.systemIdx = c.systemIdx ∧ c1.systemEntities.length = n ∧
        c1.systemEntitySet.length = n ∧
        (∀ i, i ∉ l → c1.systemEntities[i]? = c.systemEntities[i]? ∧
          c1.systemEntitySet[i]? = c.systemEntitySet[i]?) ∧
        (∀ i, i ∈ l → ∀ s ents set, c.systemSignatures[i]? = some s →
          c.systemEntities[i]? = some ents → c.systemEntitySet[i]? = some set →
          (s &&& sig = s ∧ set e = none →
            c1.systemEntities[i]? = some (ents ++ [e]) ∧
            c1.systemEntitySet[i]? = some (mapSet set e ents.length)) ∧
          (¬ (s &&& sig = s ∧ set e = none) →
            c1.systemEntities[i]? = some ents ∧ c1.systemEntitySet[i]? = some set)) := by
  intro l
  induction l with
  | nil =>
    intro c _ _ h1 h2 h3
    exact ⟨c, rfl, rfl, rfl, rfl, h2, h3, fun i _ => ⟨rfl, rfl⟩,
      fun i hi => absurd hi (List.not_mem_nil i)⟩
  | cons x rest ih =>
    intro c hnd hlt h1 h2 h3
    have hx : x ∉ rest := (List.nodup_cons.1 hnd).1
    have hrest : rest.Nodup := (List.nodup_cons.1 hnd).2
    have hxn : x < n := hlt x (List.mem_cons_self _ _)
    have hs : c.systemSignatures[x]? = some c.systemSignatures[x] :=
      List.getElem?_eq_getElem (by omega)
    have hents : c.systemEntities[x]? = some c.systemEntities[x] :=
      List.getElem?_eq_getElem (by omega)
    have hset : c.systemEntitySet[x]? = some c.systemEntitySet[x] :=
      List.getElem?_eq_getElem (by omega)
    have hbody := addEntityAt_eq e sig x c _ _ _ hs hents hset
    unfold forEach
    rw [hbody]
    simp only
    by_cases hg : c.systemSignatures[x] &&& sig = c.systemSignatures[x] ∧
        c.systemEntitySet[x] e = none
    · rw [if_pos hg]
      obtain ⟨c1, hrun, e1, e2, e3, e4, e5, hout, hin⟩ :=
        ih
          { c with
            systemEntities := c.systemEntities.set x (c.systemEntities[x] ++ [e])
            systemEntitySet := c.systemEntitySet.set x
              (mapSet c.systemEntitySet[x] e c.systemEntities[x].length) }
          hrest (fun i hi => hlt i (List.mem_cons_of_mem _ hi)) h1
          (by simp [h2]) (by simp [h3])
      refine ⟨c1, hrun, e1, e2, e3, e4, e5, ?_, ?_⟩
      · intro i hi
        have hix : x ≠ i := fun h => hi (h ▸ List.mem_cons_self _ _)
        have hir : i ∉ rest := fun h => hi (List.mem_cons_of_mem _ h)
        obtain ⟨a, b⟩ := hout i hir
        simp only [List.getElem?_set_ne hix] at a b
        exact ⟨a, b⟩
      · intro i hi s ents set hs' hents' hset'
        rcases List.mem_cons.1 hi with rfl | hir
        · rw [hs] at hs'
          rw [hents] at hents'
          rw [hset] at hset'
          cases hs'
          cases hents'
          cases hset'
          obtain ⟨a, b⟩ := hout i hx
          simp only [List.getElem?_set_self (show i < c.systemEntities.length by omega),
            List.getElem?_set_self (show i < c.systemEntitySet.length by omega)] at a b
          exact ⟨fun _ => ⟨a, b⟩, fun hn => absurd hg hn⟩
        · have hix : x ≠ i := fun h => hx (h ▸ hir)
          exact hin i hir s ents set hs'
            (by simp only [List.getElem?_set_ne hix]; exact hents')
            (by simp only [List.getElem?_set_ne hix]; exact hset')
    · rw [if_neg hg]
      obtain ⟨c1, hrun, e1, e2, e3, e4, e5, hout, hin⟩ :=
        ih c hrest (fun i hi => hlt i (List.mem_cons_of_mem _ hi)) h1 h2 h3
      refine ⟨c1, hrun, e1, e2, e3, e4, e5, ?_, ?_⟩
      · intro i hi
        exact hout i (fun h => hi (List.mem_cons_of_mem _ h))
      · intro i hi s ents set hs' hents' hset'
        rcases List.mem_cons.1 hi with rfl | hir
        · rw [hs] at hs'
          rw [hents] at hents'
          rw [hset] at hset'
          cases hs'
          cases hents'
          cases hset'
          obtain ⟨a, b⟩ := hout i hx
          exact ⟨fun hp => absurd hp hg, fun _ => ⟨a.trans hents, b.trans hset⟩⟩
        · exact hin i hir s ents set hs' hents' hset'

theorem forEach_fixed (body : α → σ → Outcome σ) (s : σ) :
    ∀ l : List α, (∀ x ∈ l, body x s = Outcome.ok s) → forEach body l s = Outcome.ok s := by
  intro l
  induction l with
  | nil => intro _; rfl
  | cons x rest ih =>
    intro h
    unfold forEach
    rw [h x (List.mem_cons_self _ _)]
    exact ih (fun y hy => h y (List.mem_cons_of_mem _ hy))

/-- What `addEntity(e, sig)` does to a consistent membership index, stated
with the test the code makes (the reverse index has no entry for `e`). -/
theorem addEntity_spec (sm : systemManager) (hsm : SysInv sm) (e : EntityID) (sig : Signature) :
    ∃ sm1, sm.addEntity e sig = Outcome.ok sm1 ∧
      sm1.systems = sm.systems ∧ sm1.systemSignatures = sm.systemSignatures ∧
      sm1.systemIdx = sm.systemIdx ∧
      (∀ (i : Nat) (s : Signature) (ents : List EntityID) (set : Nat → Option Nat),
        sm.systemSignatures[i]? = some s →
        sm.systemEntities[i]? = some ents → sm.systemEntitySet[i]? = some set →
        (s &&& sig = s ∧ set e = none →
          sm1.systemEntities[i]? = some (ents ++ [e]) ∧
          sm1.systemEntitySet[i]? = some (mapSet set e ents.length)) ∧
        (¬ (s &&& sig = s ∧ set e = none) →
          sm1.systemEntities[i]? = some ents ∧ sm1.systemEntitySet[i]? = some set)) ∧
      SysInv sm1 ∧ sm1.addEntity e sig = Outcome.ok sm1 := by
  obtain ⟨c1, hrun, e1, e2, e3, e4, e5, _, hin⟩ :=
    addEntityLoop e sig sm.systems.length (List.range sm.systems.length) sm
      (List.nodup_range _) (fun i hi => List.mem_range.1 hi) hsm.sig_len hsm.ents_len hsm.set_len
  have hpoint : ∀ (i : Nat) (s : Signature) (ents : List EntityID) (set : Nat → Option Nat),
      sm.systemSignatures[i]? = some s →
      sm.systemEntities[i]? = some ents → sm.systemEntitySet[i]? = some set →
      (s &&& sig = s ∧ set e = none →
        c1.systemEntities[i]? = some (ents ++ [e]) ∧
        c1.systemEntitySet[i]? = some (mapSet set e ents.length)) ∧
      (¬ (s &&& sig = s ∧ set e = none) →
        c1.systemEntities[i]? = some ents ∧ c1.systemEntitySet[i]? = some set) := by
    intro i s ents set hs hents hset
    have hi : i < sm.systems.length := by
      have := (List.getElem?_eq_some.1 hs).1
      rw [hsm.sig_len] at this
      exact this
    exact hin i (List.mem_range.2 hi) s ents set hs hents hset
  -- the entries of the original index at a position below the number of systems
  have hentry : ∀ i : Nat, i < sm.systems.length → ∃ s ents set,
      sm.systemSignatures[i]? = some s ∧ sm.systemEntities[i]? = some ents ∧
      sm.systemEntitySet[i]? = some set := by
    intro i hi
    exact ⟨_, _, _, List.getElem?_eq_getElem (by rw [hsm.sig_len]; exact hi),
      List.getElem?_eq_getElem (by rw [hsm.ents_len]; exact hi),
      List.getElem?_eq_getElem (by rw [hsm.set_len]; exact hi)⟩
  refine ⟨c1, hrun, e1, e2, e3, hpoint, ?_, ?_⟩
  · refine ⟨by rw [e4, e1], by rw [e5, e1], by rw [e2, e1]; exact hsm.sig_len, ?_⟩
    intro i ents1 set1 hents1 hset1 e' k
    have hi : i < sm.systems.length := by
      have := (List.getElem?_eq_some.1 hents1).1
      rw [e4] at this
      exact this
    obtain ⟨s, ents, set, hs, hents, hset⟩ := hentry i hi
    have hold := hsm.index i ents set hents hset
    by_cases hg : s &&& sig = s ∧ set e = none
    · obtain ⟨a, b⟩ := (hpoint i s ents set hs hents hset).1 hg
      rw [a] at hents1
      rw [b] at hset1
      cases hents1
      cases hset1
      have hnot : e ∉ ents := (hsm.mem_iff hents hset e).1 hg.2
      unfold mapSet
      by_cases he : e' = e
      · subst he
        simp only [if_true, Option.some.injEq]
        constructor
        · intro hk
          rw [← hk]
          simp
        · intro hk
          rcases Nat.lt_trichotomy k ents.length with hlt | heq | hgt
          · rw [List.getElem?_append_left hlt] at hk
            exact absurd (List.getElem?_mem hk) hnot
          · exact heq.symm
          · have b : (ents ++ [e'])[k]? = none :=
              List.getElem?_eq_none (by rw [List.length_append, List.length_singleton]; omega)
            rw [b] at hk
            cases hk
      · simp only [he, if_false]
        rw [hold e' k]
        rcases Nat.lt_trichotomy k ents.length with hlt | heq | hgt
        · rw [List.getElem?_append_left hlt]
        · subst heq
          simp [Ne.symm he]
        · have a : ents[k]? = none := List.getElem?_eq_none (by omega)
          have b : (ents ++ [e])[k]? = none :=
            List.getElem?_eq_none (by rw [List.length_append, List.length_singleton]; omega)
          rw [a, b]
    · obtain ⟨a, b⟩ := (hpoint i s ents set hs hents hset).2 hg
      rw [a] at hents1
      rw [b] at hset1
      cases hents1
      cases hset1
      exact hold e' k
  · unfold systemManager.addEntity
    rw [e1]
    apply forEach_fixed
    intro i hi
    have hi : i < sm.systems.length := List.mem_range.1 hi
    obtain ⟨s, ents, set, hs, hents, hset⟩ := hentry i hi
    by_cases hg : s &&& sig = s ∧ set e = none
    · obtain ⟨a, b⟩ := (hpoint i s ents set hs hents hset).1 hg
      rw [addEntityAt_eq e sig i c1 s _ _ (by rw [e2]; exact hs) a b]
      rw [if_neg]
      simp [mapSet]
    · obtain ⟨a, b⟩ := (hpoint i s ents set hs hents hset).2 hg
      rw [addEntityAt_eq e sig i c1 s _ _ (by rw [e2]; exact hs) a b]
      rw [if_neg hg]

theorem SysInv.after_addEntity {sm sm1 : systemManager} (hsm : SysInv sm) {e : EntityID}
    {sig : Signature} (h : sm.addEntity e sig = Outcome.ok sm1) : SysInv sm1 := by
  obtain ⟨sm2, h2, _, _, _, _, hinv, _⟩ := addEntity_spec sm hsm e sig
  rw [h] at h2
  cases h2
  exact hinv

theorem SysInv.of_empty : SysInv newSystemManager :=
  ⟨rfl, rfl, rfl, fun i ents set h => by simp [newSystemManager] at h⟩

theorem SysInv.after_registerSystem {sm sm1 : systemManager} (hsm : SysInv sm) {s : Nat}
    {sig : Signature} (h : registerSystem sm s sig = Outcome.ok sm1) : SysInv sm1 := by
  unfold registerSystem at h
  split at h
  · cases h
  · cases h
    refine ⟨by simp [hsm.ents_len], by simp [hsm.set_len], by simp [hsm.sig_len], ?_⟩
    intro i ents set hents hset e k
    simp only at hents hset
    rcases Nat.lt_trichotomy i sm.systems.length with hlt | heq | hgt
    · rw [List.getElem?_append_left (by rw [hsm.ents_len]; exact hlt)] at hents
      rw [List.getElem?_append_left (by rw [hsm.set_len]; exact hlt)] at hset
      exact hsm.index i ents set hents hset e k
    · have h1 : i = sm.systemEntities.length := by rw [hsm.ents_len]; exact heq
      have h2 : i = sm.systemEntitySet.length := by rw [hsm.set_len]; exact heq
      rw [h1, List.getElem?_concat_length] at hents
      rw [h2, List.getElem?_concat_length] at hset
      cases hents
      cases hset
      simp [mapEmpty]
    · rw [List.getElem?_eq_none (by simp [hsm.ents_len]; omega)] at hents
      cases hents

theorem memberIdx_sysInv : SysInv memberIdx := by
  have h1 : SysInv twoSystems :=
    forEach_ok_inv (fun (p : Nat × Signature) (m : systemManager) => registerSystem m p.1 p.2)
      SysInv (fun p m m1 hm h => hm.after_registerSystem h) _ newSystemManager twoSystems
      SysInv.of_empty (Outcome.eq_ok_of_isOk _ (by decide!))
  exact
    forEach_ok_inv (fun (e : EntityID) (m : systemManager) => m.addEntity e 1)
      SysInv (fun e m m1 hm h => hm.after_addEntity h) _ twoSystems memberIdx
      h1 (Outcome.eq_ok_of_isOk _ (by decide!))

/-- C20.  On a consistent membership index `addEntity(e, sig)` returns.  For
every system, with signature `s`, list `ents` and reverse index `set`: if `s`
is a subset of `sig` (`s & sig == s`) and `e` is not in the list, the list
becomes `ents ++ [e]` (so `e` is in it exactly once) and the reverse index
additionally maps `e` to its position, the old length of the list; otherwise
the list and the reverse index of the system are unchanged.  The registered
systems, their signatures and the type index are unchanged, the result is
consistent again, and a second `addEntity(e, sig)` on it changes nothing. -/
theorem addEntity_subset_gated (sm : systemManager) (hsm : SysInv sm) (e : EntityID)
    (sig : Signature) :
    ∃ sm1, sm.addEntity e sig = Outcome.ok sm1 ∧
      sm1.systems = sm.systems ∧ sm1.systemSignatures = sm.systemSignatures ∧
      sm1.systemIdx = sm.systemIdx ∧
      (∀ (i : Nat) (s : Signature) (ents : List EntityID) (set : Nat → Option Nat),
        sm.systemSignatures[i]? = some s →
        sm.systemEntities[i]? = some ents → sm.systemEntitySet[i]? = some set →
        (s &&& sig = s ∧ e ∉ ents →
          sm1.systemEntities[i]? = some (ents ++ [e]) ∧
          sm1.systemEntitySet[i]? = some (mapSet set e ents.length)) ∧
        (¬ (s &&& sig = s ∧ e ∉ ents) →
          sm1.systemEntities[i]? = some ents ∧ sm1.systemEntitySet[i]? = some set)) ∧
      SysInv sm1 ∧ sm1.addEntity e sig = Outcome.ok sm1 := by
  obtain ⟨sm1, hrun, e1, e2, e3, hpoint, hinv, hidem⟩ := addEntity_spec sm hsm e sig
  refine ⟨sm1, hrun, e1, e2, e3, ?_, hinv, hidem⟩
  intro i s ents set hs hents hset
  have hmem := hsm.mem_iff hents hset e
  obtain ⟨a, b⟩ := hpoint i s ents set hs hents hset
  constructor
  · rintro ⟨h1, h2⟩
    exact a ⟨h1, hmem.2 h2⟩
  · intro h
    exact b (fun ⟨h1, h2⟩ => h ⟨h1, hmem.1 h2⟩)

/-- C20 at the index `memberIdx` (lists `[0, 1]` and `[]` for the systems with
signatures 1 and 2) and `addEntity(2, 1)`: entity 2 is appended to the list of
the first system only, giving `[0, 1, 2]` and `[]`. -/
theorem addEntity_subset_gated_witness :
    memberIdx.systemSignatures = [1, 2] ∧ memberIdx.systemEntities = [[0, 1], []] ∧
    (memberIdx.addEntity 2 1).state.systemEntities = [[0, 1, 2], []] ∧
    ∃ sm1, memberIdx.addEntity 2 1 = Outcome.ok sm1 ∧
      sm1.systems = memberIdx.systems ∧ sm1.systemSignatures = memberIdx.systemSignatures ∧
      sm1.systemIdx = memberIdx.systemIdx ∧
      (∀ (i : Nat) (s : Signature) (ents : List EntityID) (set : Nat → Option Nat),
        memberIdx.systemSignatures[i]? = some s →
        memberIdx.systemEntities[i]? = some ents → memberIdx.systemEntitySet[i]? = some set →
        (s &&& 1 = s ∧ 2 ∉ ents →
          sm1.systemEntities[i]? = some (ents ++ [2]) ∧
          sm1.systemEntitySet[i]? = some (mapSet set 2 ents.length)) ∧
        (¬ (s &&& 1 = s ∧ 2 ∉ ents) →
          sm1.systemEntities[i]? = some ents ∧ sm1.systemEntitySet[i]? = some set)) ∧
      SysInv sm1 ∧ sm1.addEntity 2 1 = Outcome.ok sm1 :=
  ⟨by decide!, by decide!, by decide!, addEntity_subset_gated memberIdx memberIdx_sysInv 2 1⟩

/-! ## Removing an absent entity -/

/-- C21 at three inputs.
* After a registration, `addEntity(0, 1)` and `removeEntity(0, 1)` the list of
  the system is empty, so entity 0 is not in it, but the reverse index still has
  its entry for entity 0; a second `removeEntity(0, 1)` indexes the empty list
  at `len - 1` and panics.
* In the swap-remove scenario, after `removeEntity(0, 1)` the list is `[0, 1]`
  and entity 2 is not in it; `removeEntity(2, 1)` returns and cuts the list to
  `[0]`.
* In the double removal scenario the oplog holds two `Delete` entries for
  entity 0 whose signatures both contain the signature of the system; the
  cleanup of `RunUpdate` applies the first, which empties the list, and panics
  on the second. -/
theorem removeAbsent_at_failing_input :
    (emptiedIdx.systemEntities = [[]] ∧
      emptiedIdx.systemEntitySet.map (fun set => set 0) = [some 0] ∧
      (emptiedIdx.removeEntity 0 1).panicOf = some Panic.indexOutOfRange) ∧
    ((swapWorld.sm.removeEntity 0 1).state.systemEntities = [[0, 1]] ∧
      ((swapWorld.sm.removeEntity 0 1).state.removeEntity 2 1).isOk = true ∧
      ((swapWorld.sm.removeEntity 0 1).state.removeEntity 2 1).state.systemEntities = [[0]]) ∧
    (doubleRemoveWorld.sm.systemSignatures = [2] ∧
      doubleRemoveWorld.sm.systemEntities = [[0]] ∧
      doubleRemoveWorld.oplog =
        [{ Kind := oplogKind.Delete, Entity := 0, Sig := 3 },
         { Kind := oplogKind.Delete, Entity := 0, Sig := 2 }] ∧
      (World.RunUpdate idleUpdate doubleRemoveWorld 0).panicOf = some Panic.indexOutOfRange) := by
  refine ⟨?_, ?_, ?_⟩ <;> decide!

/-! ## Iteration over a store -/

/-- C22, counterexample.  In the store of entity 7 right after its `add` in
tick 0, `has(0, 7)` is true, but `iter(0)` yields nothing: the entity whose
component was added during tick 0 is not yielded by `iter(0)`.  It is yielded
by `iter(1)`. -/
theorem iter_pending_counterexample :
    storeAfterAdd.has 0 7 = .ok true ∧ storeAfterAdd.iter 0 = [] ∧
    storeAfterAdd.iter 1 = [7] := by
  refine ⟨?_, ?_, ?_⟩ <;> decide!

/-- C22, amended.  The sequence `iter(t)` consists of the ids of the slots of
the dense array whose liveness flag is set and whose touch-tick is not `t`,
in slot order, one id per such slot: the test is the one `Get` makes, not the
one `has` makes.  So it has at most as many elements as the array has slots,
an entity for which `Get(t, e)` returns a value in a store with a well-formed
index map is yielded, and an entity whose component was added during tick `t`
is yielded, for that slot, by `iter` of every other tick but not of `t`. -/
theorem iter_yields_stable_slots [Inhabited V] (ca : componentArray V) (t : Nat) :
    ca.iter t = (ca.entities.filter (fun s => s.Alive && !(s.ChangedAt == t))).map (fun s => s.Id) ∧
    (∀ e, e ∈ ca.iter t ↔
      ∃ (k : Nat) (slot : entityComponent V), ca.entities[k]? = some slot ∧ slot.Id = e ∧ slot.Alive = true ∧
        slot.ChangedAt ≠ t) ∧
    (ca.iter t).length ≤ ca.entities.length ∧
    (∀ e v, IdxInv ca → ca.Get t e = .ok (some v) → e ∈ ca.iter t) ∧
    (∀ e v ca1, ca.add t e v = Outcome.ok ca1 →
      ca1.entities[ca.idx]? = some { Id := e, Component := v, Alive := true, ChangedAt := t } ∧
      ∀ t1, t1 ≠ t → e ∈ ca1.iter t1) := by
  have hmem : ∀ (c : componentArray V) (f e : Nat), e ∈ c.iter f ↔
      ∃ (k : Nat) (slot : entityComponent V), c.entities[k]? = some slot ∧ slot.Id = e ∧ slot.Alive = true ∧
        slot.ChangedAt ≠ f := by
    intro c f e
    unfold componentArray.iter
    rw [List.mem_filterMap]
    constructor
    · rintro ⟨slot, hslot, hf⟩
      obtain ⟨k, hk⟩ := List.mem_iff_getElem?.1 hslot
      by_cases hd : slot.isDead f = true
      · simp [hd] at hf
      · simp only [hd, Bool.false_eq_true, if_false, Option.some.injEq] at hf
        simp only [entityComponent.isDead, Bool.or_eq_true, Bool.not_eq_true', beq_iff_eq,
          not_or, Bool.not_eq_false] at hd
        exact ⟨k, slot, hk, hf, hd.1, hd.2⟩
    · rintro ⟨k, slot, hk, hid, ha, hc⟩
      refine ⟨slot, List.getElem?_mem hk, ?_⟩
      simp [entityComponent.isDead, ha, hc, hid]
  refine ⟨?_, hmem ca t, ?_, ?_, ?_⟩
  · unfold componentArray.iter
    induction ca.entities with
    | nil => rfl
    | cons s rest ih =>
      rw [List.filterMap_cons, List.filter_cons, ih]
      by_cases hd : s.isDead t = true
      · have hf : (s.Alive && !(s.ChangedAt == t)) = false := by
          simp only [entityComponent.isDead, Bool.or_eq_true, Bool.not_eq_true', beq_iff_eq] at hd
          rcases hd with hd | hd <;> simp [hd]
        simp only [hd, if_true, hf, Bool.false_eq_true, if_false]
      · have hf : (s.Alive && !(s.ChangedAt == t)) = true := by
          simp only [entityComponent.isDead, Bool.or_eq_true, Bool.not_eq_true', beq_iff_eq,
            not_or, Bool.not_eq_false] at hd
          simp [hd.1, hd.2]
        simp only [hd, Bool.false_eq_true, if_false, hf, if_true, List.map_cons]
  · unfold componentArray.iter
    exact List.length_filterMap_le _ _
  · intro e v hinv hget
    rw [hmem]
    unfold componentArray.Get at hget
    cases hk : ca.entityToIdx e with
    | none => simp [hk] at hget
    | some k =>
      obtain ⟨_, slot, hs, hid⟩ := hinv.map e k hk
      simp only [hk, hs] at hget
      by_cases hd : slot.isDead t = true
      · simp [hd] at hget
      · simp only [entityComponent.isDead, Bool.or_eq_true, Bool.not_eq_true', beq_iff_eq,
          not_or, Bool.not_eq_false] at hd
        exact ⟨k, slot, hs, hid, hd.1, hd.2⟩
  · intro e v ca1 hadd
    obtain ⟨ents, _, _, hlt, rfl⟩ := addSlot_eq_ok (add_eq_ok hadd).1
    have hslot : (ents.set ca.idx
        ({ Id := e, Component := v, Alive := true, ChangedAt := t } : entityComponent V))[ca.idx]?
        = some { Id := e, Component := v, Alive := true, ChangedAt := t } :=
      List.getElem?_set_self hlt
    refine ⟨hslot, ?_⟩
    intro t1 ht1
    rw [hmem]
    exact ⟨ca.idx, _, hslot, rfl, rfl, fun h => ht1 h.symm⟩

/-! ## Compaction of a store without a live slot -/

theorem scanDown_none (ents : List (entityComponent V)) :
    ∀ j, (∀ k, k ≤ j → ∃ s, ents[k]? = some s ∧ s.Alive = false) →
      componentArray.scanDown ents j = none := by
  intro j
  induction j with
  | zero =>
    intro h
    obtain ⟨s, hs, ha⟩ := h 0 (Nat.le_refl _)
    simp [componentArray.scanDown, hs, ha]
  | succ n ih =>
    intro h
    obtain ⟨s, hs, ha⟩ := h (n + 1) (Nat.le_refl _)
    simp only [componentArray.scanDown, hs, ha, Bool.false_eq_true, if_false]
    exact ih (fun k hk => h k (Nat.le_succ_of_le hk))

theorem OneStoreW.tick_panic {w : World V} {t f : Nat} {ca ca1 : componentArray V} {p : Panic}
    (h : OneStoreW w t f ca) (hp : ca.prune = Outcome.panic p ca1) :
    w.cleanupTick.panicOf = some p := by
  unfold World.cleanupTick World.cleanup componentManager.prune
  simp only [applyOplog_nosys w.sm h.nosys, h.arr, pruneArrays, hp, Outcome.lift, Outcome.panicOf]

theorem RunUpdate_nosys (upd : Nat → UpdateState V → Outcome (World V)) (w : World V) (dt : Nat)
    (h : w.sm.systems = []) : (w.RunUpdate upd dt).panicOf = w.cleanupTick.panicOf := by
  unfold World.RunUpdate World.RunUpdateCalls
  rw [h]
  simp only [List.enum_nil, World.runSystems]
  cases w.cleanupTick <;> rfl

/-- The all-dead scenario runs without a panic and ends in tick 1 with one
store of capacity 1024 whose 514 used slots are all dead. -/
theorem allDead_pre :
    ∃ ca, runOps allDeadOps (New Val) = Outcome.ok allDeadWorld ∧
      OneStoreW allDeadWorld tPlayer 1 ca ∧ StoreDesc ca 1024 514 514 slotsE (mapA 514) := by
  obtain ⟨w1, hreg, hone1⟩ := OneStoreW.register_ok (V := Val) tPlayer
  have desc0 : StoreDesc (componentArray.new Val) 512 0 0 (slotsA 0) (mapA 0) :=
    ⟨List.length_replicate _ _, rfl, rfl,
      fun k => by
        show (List.replicate initialEntityArraySize (entityComponent.zero Val))[k]? = slotsA 0 k
        rw [List.getElem?_replicate]
        simp only [slotsA, capA, initialEntityArraySize]
        split_ifs <;> first | rfl | omega,
      fun e => rfl⟩
  obtain ⟨w2, hrun2, hone2⟩ := phaseNew tPlayer 0 (componentArray.new Val) 514 w1 hone1
  obtain ⟨w3, ca3, hrun3, hone3, desc3⟩ := phaseA 514 (Nat.le_refl _) w2 _ hone2 desc0
  have hprune3 : ca3.prune = Outcome.ok ca3 := by
    apply prune_noop
    rw [desc3.deads, desc3.len, desc3.idx]
    decide
  obtain ⟨w4, hrun4, hone4⟩ := hone3.tick_ok hprune3 (by decide)
  have desc4 : StoreDesc ca3 1024 514 0 (slotsB 0) (mapA 514) := by
    refine desc3.cast (by decide) rfl rfl ?_ (fun _ => rfl)
    intro k
    simp only [slotsA, slotsB, capA]
    split_ifs <;> first | rfl | omega
  obtain ⟨w5, ca5, hrun5, hone5, desc5⟩ := phaseB 511 (Nat.le_refl _) w4 ca3 hone4 desc4
  obtain ⟨ca6, hrm6, desc6⟩ :=
    desc5.remove 1 0 0 { Id := 0, Component := startValue, Alive := true, ChangedAt := 0 }
      rfl rfl rfl
  obtain ⟨w6, hrun6, hone6⟩ := hone5.remove_ok 0 hrm6
  obtain ⟨ca7, hrm7, desc7⟩ :=
    desc6.remove 1 1 1 { Id := 1, Component := startValue, Alive := true, ChangedAt := 0 }
      rfl rfl rfl
  obtain ⟨w7, hrun7, hone7⟩ := hone6.remove_ok 1 hrm7
  obtain ⟨ca8, hrm8, desc8⟩ :=
    desc7.remove 1 2 2 { Id := 2, Component := startValue, Alive := true, ChangedAt := 0 }
      rfl rfl rfl
  obtain ⟨w8, hrun8, hone8⟩ := hone7.remove_ok 2 hrm8
  have e1 : runOps [Op.registerComponent tPlayer] (New Val) = Outcome.ok w1 := by
    rw [runOps_cons]
    show ((New Val).RegisterComponent tPlayer).bind _ = _
    rw [hreg]; rfl
  have e4 : runOps [Op.cleanupTick] w3 = Outcome.ok w4 := by
    rw [runOps_cons]
    show (w3.cleanupTick).bind _ = _
    rw [hrun4]; rfl
  have e8 : runOps [Op.removeComponent tPlayer 0, Op.removeComponent tPlayer 1,
      Op.removeComponent tPlayer 2] w5 = Outcome.ok w8 := by
    rw [runOps_cons]
    show (w5.RemoveComponent tPlayer 0).bind _ = _
    rw [hrun6, Outcome.bind_ok, runOps_cons]
    show (w6.RemoveComponent tPlayer 1).bind _ = _
    rw [hrun7, Outcome.bind_ok, runOps_cons]
    show (w7.RemoveComponent tPlayer 2).bind _ = _
    rw [hrun8]; rfl
  have hrun : runOps allDeadOps (New Val) = Outcome.ok w8 := by
    simp only [allDeadOps, runOps_append, e1, hrun2, hrun3, e4, hrun5, e8, Outcome.bind_ok]
  have hw : allDeadWorld = w8 := by
    unfold allDeadWorld
    rw [hrun]
    rfl
  rw [hw]
  exact ⟨ca8, hrun, hone8, desc8.cast rfl rfl rfl (fun _ => rfl) (fun _ => rfl)⟩

/-- C25 at the all-dead scenario.  The calls up to the last removal return;
the store then has capacity 1024, 514 used slots, 514 in the dead counter and
no slot with the liveness flag set.  Compaction triggers (514 >= 1024 / 2 and
514 > 512), the first inner loop of `prune` walks down from slot 1023 without
finding a live slot and reads the array at index -1: `prune` panics with
"index out of range", and so does the cleanup of the `RunUpdate` that ends
the tick. -/
theorem pruneAllDead_at_failing_input :
    ∃ ca : componentArray Val,
      (runOps allDeadOps (New Val)).isOk = true ∧
      allDeadWorld.cm.componentArray = [ca] ∧
      ca.entities.length = 1024 ∧ ca.idx = 514 ∧ ca.deads = 514 ∧
      (∀ k, k < 1024 → ∃ s, ca.entities[k]? = some s ∧ s.Alive = false) ∧
      ca.prune.panicOf = some Panic.indexOutOfRange ∧
      (World.RunUpdate idleUpdate allDeadWorld 0).panicOf = some Panic.indexOutOfRange := by
  obtain ⟨ca, hrun, hone, desc⟩ := allDead_pre
  have hdead : ∀ k, k < 1024 → ∃ s, ca.entities[k]? = some s ∧ s.Alive = false := by
    intro k hk
    rw [desc.slots k]
    unfold slotsE
    by_cases h2 : k = 2
    · rw [if_pos h2]; exact ⟨_, rfl, rfl⟩
    · rw [if_neg h2]
      by_cases h1 : k = 1
      · rw [if_pos h1]; exact ⟨_, rfl, rfl⟩
      · rw [if_neg h1]
        by_cases h0 : k = 0
        · rw [if_pos h0]; exact ⟨_, rfl, rfl⟩
        · rw [if_neg h0]
          unfold slotsB
          by_cases h514 : k < 514
          · rw [if_pos h514, if_pos (by omega)]; exact ⟨_, rfl, rfl⟩
          · rw [if_neg h514, if_pos hk]; exact ⟨_, rfl, rfl⟩
  have hscan : componentArray.scanDown ca.entities 1023 = none :=
    scanDown_none ca.entities 1023 (fun k hk => hdead k (by omega))
  have hloop : componentArray.compactLoop (2 * ca.entities.length + 2) ca.entities 0
      (ca.entities.length - 1) = some (Outcome.panic Panic.indexOutOfRange (ca.entities, 0)) := by
    rw [desc.len]
    show componentArray.compactLoop (2048 + 1 + 1) ca.entities 0 1023 = _
    rw [componentArray.compactLoop]
    simp only [show (0 : Nat) < 1023 by decide, if_true, hscan]
  have hprune : ca.prune = Outcome.panic Panic.indexOutOfRange
      { ca with entityToIdx := mapEmpty } := by
    unfold componentArray.prune
    rw [if_pos (by rw [desc.deads, desc.len, desc.idx]; decide), hloop]
  refine ⟨ca, by rw [hrun]; rfl, hone.arr, desc.len, desc.idx, desc.deads, hdead, ?_, ?_⟩
  · rw [hprune]; rfl
  · rw [RunUpdate_nosys idleUpdate allDeadWorld 0 hone.nosys]
    exact hone.tick_panic hprune

/-! ## Stores reachable by `add`, `remove` and `prune` -/

theorem prune_length_pos {ca ca1 : componentArray V} (h : ca.prune = Outcome.ok ca1)
    (hpos : 0 < ca.entities.length) : 0 < ca1.entities.length := by
  unfold componentArray.prune at h
  split at h
  · split at h
    · cases h
    · cases h
    · rename_i ents i hloop
      unfold componentArray.reindex at h
      obtain ⟨h1, _, _, h4, _⟩ := reindexLoop_ok _ _ _ h
      simp only at h1 h4
      rw [h1]
      have := h4 i (List.mem_range.2 (Nat.lt_succ_self i))
      omega
  · cases h
    exact hpos

/-- Every store reachable by `add`, `remove` and `prune` has a well-formed
index map and a dense array that is not empty. -/
theorem StoreReachable.inv [Inhabited V] {ca : componentArray V} (h : StoreReachable ca) :
    IdxInv ca ∧ 0 < ca.entities.length := by
  obtain ⟨ops, hrun⟩ := h
  refine forEach_ok_inv StoreOp.apply (fun c => IdxInv c ∧ 0 < c.entities.length) ?_ ops
    (componentArray.new V) ca ⟨IdxInv.of_new, ?_⟩ hrun
  · intro op s s1 hs hop
    cases op with
    | add f e c =>
      refine ⟨hs.1.after_add hop, ?_⟩
      obtain ⟨ents, _, _, hlt, rfl⟩ := addSlot_eq_ok (add_eq_ok hop).1
      simp only [List.length_set]
      omega
    | remove f e =>
      refine ⟨hs.1.after_remove hop, ?_⟩
      obtain ⟨k, slot, _, _, _, rfl⟩ := remove_eq_ok hop
      simp only [List.length_set]
      exact hs.2
    | prune => exact ⟨hs.1.after_prune hop, prune_length_pos hop hs.2⟩
  · show 0 < (List.replicate initialEntityArraySize (entityComponent.zero V)).length
    rw [List.length_replicate]
    decide

theorem storeAfterAdd_reachable : StoreReachable storeAfterAdd :=
  ⟨[StoreOp.add 0 7 (Val.Player 200 400)], by
    unfold runStoreOps
    rw [forEach_singleton]
    exact Outcome.eq_ok_of_isOk ((componentArray.new Val).add 0 7 (Val.Player 200 400))
      (by decide!)⟩

/-- C27.  In every store reachable from `newComponentArray` by calls of `add`,
`remove` and `prune` that return, every index-map entry `e -> k` has
`k < used-slot count <= capacity` and slot `k` carries the entity id `e`.
Hence `Get`, `has` and `debug` return for every tick and entity: they never
index the dense array out of range. -/
theorem index_map_wellformed [Inhabited V] (ca : componentArray V) (h : StoreReachable ca) :
    (∀ e k, ca.entityToIdx e = some k →
      k < ca.idx ∧ ca.idx ≤ ca.entities.length ∧ ∃ s, ca.entities[k]? = some s ∧ s.Id = e) ∧
    (∀ t e, (∃ r, ca.Get t e = .ok r) ∧ (∃ b, ca.has t e = .ok b) ∧
      ∀ fmt : V → String, ∃ str, ca.debug fmt t e = .ok str) := by
  obtain ⟨hinv, _⟩ := h.inv
  refine ⟨fun e k hk => ⟨(hinv.map e k hk).1, hinv.idx_le, (hinv.map e k hk).2⟩, ?_⟩
  intro t e
  cases hk : ca.entityToIdx e with
  | none =>
    exact ⟨⟨none, by simp [componentArray.Get, hk]⟩, ⟨false, by simp [componentArray.has, hk]⟩,
      fun fmt => ⟨"<nil>", by simp [componentArray.debug, hk]⟩⟩
  | some k =>
    obtain ⟨_, s, hs, _⟩ := hinv.map e k hk
    refine ⟨?_, ⟨s.isAlive t, by simp [componentArray.has, hk, hs]⟩, ?_⟩
    · by_cases hd : s.isDead t = true
      · exact ⟨none, by simp [componentArray.Get, hk, hs, hd]⟩
      · exact ⟨some s.Component, by simp [componentArray.Get, hk, hs, hd]⟩
    · intro fmt
      by_cases hd : s.isDead t = true
      · exact ⟨"<nil>", by simp [componentArray.debug, hk, hs, hd]⟩
      · exact ⟨fmt s.Component, by simp [componentArray.debug, hk, hs, hd]⟩

/-- C27 at the store of entity 7 after its `add` in tick 0, which is reachable
by that one call: its only index entry is `7 -> 0`. -/
theorem index_map_wellformed_witness :
    storeAfterAdd.entityToIdx 7 = some 0 ∧
    ((∀ e k, storeAfterAdd.entityToIdx e = some k →
        k < storeAfterAdd.idx ∧ storeAfterAdd.idx ≤ storeAfterAdd.entities.length ∧
        ∃ s, storeAfterAdd.entities[k]? = some s ∧ s.Id = e) ∧
      (∀ t e, (∃ r, storeAfterAdd.Get t e = .ok r) ∧ (∃ b, storeAfterAdd.has t e = .ok b) ∧
        ∀ fmt : Val → String, ∃ str, storeAfterAdd.debug fmt t e = .ok str)) :=
  ⟨by decide!, index_map_wellformed storeAfterAdd storeAfterAdd_reachable⟩

/-! ## `add` -/

theorem addSlot_isOk [Inhabited V] (ca : componentArray V) (f e : Nat) (c : V)
    (hidx : ca.idx ≤ ca.entities.length) (hpos : 0 < ca.entities.length) :
    (ca.addSlot f e c).isOk = true := by
  unfold componentArray.addSlot
  dsimp only
  by_cases hfull : ca.idx ≥ ca.entities.length
  · rw [if_pos hfull, if_pos (by rw [List.length_append, List.length_replicate]; omega)]
    rfl
  · rw [if_neg hfull, if_pos (by omega)]
    rfl

/-- C23.  In a store reachable from `newComponentArray` by calls of `add`,
`remove` and `prune`, `add(t, e, v)` fails exactly when the index map has an
entry for `e` whose slot has the liveness flag set, whatever the touch-tick of
the slot, and it then fails with "already contains".  So after an `add` that
returned, a second `add` for the same entity fails, in the same tick as in any
other; and after a `remove` that returned, in the same tick or not, `add`
returns, appends a slot holding `(e, v, alive, t)` at the old used-slot count
and makes the index map point to it. -/
theorem add_fails_iff_live [Inhabited V] (ca : componentArray V) (h : StoreReachable ca)
    (t e : Nat) (v : V) :
    ((ca.add t e v).isOk = false ↔
      ∃ k slot, ca.entityToIdx e = some k ∧ ca.entities[k]? = some slot ∧ slot.Alive = true) ∧
    ((ca.add t e v).isOk = false → (ca.add t e v).panicOf = some (Panic.alreadyContains e)) ∧
    (∀ ca1, ca.add t e v = Outcome.ok ca1 →
      ∀ t2 v2, (ca1.add t2 e v2).panicOf = some (Panic.alreadyContains e)) ∧
    (∀ t0 ca1, ca.remove t0 e = Outcome.ok ca1 →
      ∃ ca2, ca1.add t e v = Outcome.ok ca2 ∧ ca2.entityToIdx e = some ca1.idx ∧
        ca2.idx = ca1.idx + 1 ∧
        ca2.entities[ca1.idx]? = some { Id := e, Component := v, Alive := true, ChangedAt := t }) := by
  obtain ⟨hinv, hpos⟩ := h.inv
  have hlive : (∃ k slot, ca.entityToIdx e = some k ∧ ca.entities[k]? = some slot ∧
      slot.Alive = true) → (ca.add t e v).panicOf = some (Panic.alreadyContains e) := by
    rintro ⟨k, slot, hk, hs, ha⟩
    simp [componentArray.add, hk, hs, ha, Outcome.panicOf]
  have hiff : (ca.add t e v).isOk = false ↔
      ∃ k slot, ca.entityToIdx e = some k ∧ ca.entities[k]? = some slot ∧ slot.Alive = true := by
    constructor
    · intro hfail
      have hslot := addSlot_isOk ca t e v hinv.idx_le hpos
      cases hk : ca.entityToIdx e with
      | none =>
        simp only [componentArray.add, hk] at hfail
        rw [hslot] at hfail
        cases hfail
      | some k =>
        obtain ⟨_, s, hs, _⟩ := hinv.map e k hk
        by_cases ha : s.Alive = true
        · exact ⟨k, s, rfl, hs, ha⟩
        · simp only [componentArray.add, hk, hs, ha, Bool.false_eq_true, if_false] at hfail
          rw [hslot] at hfail
          cases hfail
    · intro hl
      have := hlive hl
      cases hadd : ca.add t e v with
      | ok ca1 => rw [hadd] at this; cases this
      | panic p ca1 => rfl
  refine ⟨hiff, fun hfail => hlive (hiff.1 hfail), ?_, ?_⟩
  · intro ca1 hadd t2 v2
    obtain ⟨ents, _, _, hlt, rfl⟩ := addSlot_eq_ok (add_eq_ok hadd).1
    simp [componentArray.add, mapSet, List.getElem?_set_self hlt, Outcome.panicOf]
  · intro t0 ca1 hrm
    obtain ⟨k, slot, hk, hs, _, hca1⟩ := remove_eq_ok hrm
    have hinv1 : IdxInv ca1 := hinv.after_remove hrm
    have hpos1 : 0 < ca1.entities.length := by
      rw [hca1]
      simp only [List.length_set]
      exact hpos
    have hk1 : ca1.entityToIdx e = some k := by rw [hca1]; exact hk
    have hlt : k < ca.entities.length := (List.getElem?_eq_some.1 hs).1
    have hs1 : ca1.entities[k]? = some { slot with Alive := false, ChangedAt := t0 } := by
      rw [hca1]
      exact List.getElem?_set_self hlt
    have hslot := addSlot_isOk ca1 t e v hinv1.idx_le hpos1
    have hadd : ca1.add t e v = ca1.addSlot t e v := by
      simp [componentArray.add, hk1, hs1]
    have hok := Outcome.eq_ok_of_isOk _ hslot
    obtain ⟨ents, _, _, hlt2, hst⟩ := addSlot_eq_ok hok
    refine ⟨(ca1.addSlot t e v).state, by rw [hadd]; exact hok, ?_, ?_, ?_⟩
    · rw [hst]; simp [mapSet]
    · rw [hst]
    · rw [hst]
      exact List.getElem?_set_self hlt2

/-- C23 at the store of entity 7 after its `add` in tick 0: a second `add` in
tick 0 fails, and after `remove(0, 7)` an `add` in the same tick returns and
the index map points to the appended slot 1. -/
theorem add_fails_iff_live_witness :
    (storeAfterAdd.add 0 7 (Val.Player 1 1)).panicOf = some (Panic.alreadyContains 7) ∧
    (storeAfterAdd.remove 0 7).isOk = true ∧
    ((storeAfterAdd.remove 0 7).state.add 0 7 (Val.Player 1 1)).state.entityToIdx 7 = some 1 ∧
    (((storeAfterAdd.add 0 (7 : Nat) (Val.Player 1 1)).isOk = false ↔
        ∃ k slot, storeAfterAdd.entityToIdx (7 : Nat) = some k ∧
          storeAfterAdd.entities[k]? = some slot ∧ slot.Alive = true) ∧
      ((storeAfterAdd.add 0 (7 : Nat) (Val.Player 1 1)).isOk = false →
        (storeAfterAdd.add 0 (7 : Nat) (Val.Player 1 1)).panicOf =
          some (Panic.alreadyContains (7 : Nat))) ∧
      (∀ ca1, storeAfterAdd.add 0 (7 : Nat) (Val.Player 1 1) = Outcome.ok ca1 →
        ∀ t2 v2, (ca1.add t2 (7 : Nat) v2).panicOf = some (Panic.alreadyContains (7 : Nat))) ∧
      (∀ t0 ca1, storeAfterAdd.remove t0 (7 : Nat) = Outcome.ok ca1 →
        ∃ ca2, ca1.add 0 (7 : Nat) (Val.Player 1 1) = Outcome.ok ca2 ∧
          ca2.entityToIdx (7 : Nat) = some ca1.idx ∧ ca2.idx = ca1.idx + 1 ∧
          ca2.entities[ca1.idx]? =
            some { Id := (7 : Nat), Component := Val.Player 1 1, Alive := true,
                   ChangedAt := 0 })) := by
  have h := add_fails_iff_live storeAfterAdd storeAfterAdd_reachable 0 7 (Val.Player 1 1)
  refine ⟨?_, ?_, ?_, h⟩
  · decide!
  · decide!
  · decide!

/-- C24.  After an `add(t, e, v)` that returned: every slot of the old array
other than the one at the old used-slot count has its old contents (id, value,
liveness flag, touch-tick), so every slot that was in use keeps them; the
index-map entry of every other entity is unchanged and the entry of `e` is the
old used-slot count; the used-slot count grew by one and the new slot holds
`(e, v, alive, t)`; the dead counter is unchanged.  The array keeps its
capacity when it was not full, and has twice the capacity, with the same
guarantees, when it was full. -/
theorem add_preserves_contents [Inhabited V] (ca ca1 : componentArray V) (t e : Nat) (v : V)
    (h : ca.add t e v = Outcome.ok ca1) :
    (∀ k, k < ca.entities.length → k ≠ ca.idx → ca1.entities[k]? = ca.entities[k]?) ∧
    (ca.idx ≤ ca.entities.length → ∀ k, k < ca.idx → ca1.entities[k]? = ca.entities[k]?) ∧
    (∀ e1, e1 ≠ e → ca1.entityToIdx e1 = ca.entityToIdx e1) ∧
    ca1.entityToIdx e = some ca.idx ∧
    ca1.idx = ca.idx + 1 ∧
    ca1.entities[ca.idx]? = some { Id := e, Component := v, Alive := true, ChangedAt := t } ∧
    ca1.deads = ca.deads ∧
    (ca.idx < ca.entities.length → ca1.entities.length = ca.entities.length) ∧
    (ca.idx = ca.entities.length → ca1.entities.length = 2 * ca.entities.length) := by
  have hslot := (add_eq_ok h).1
  have hkeep : ∀ k, k < ca.entities.length → k ≠ ca.idx → ca1.entities[k]? = ca.entities[k]? := by
    intro k hk hne
    obtain ⟨ents, hents, _, _, rfl⟩ := addSlot_eq_ok hslot
    simp only
    rw [List.getElem?_set_ne (Ne.symm hne)]
    exact hents k hk
  refine ⟨hkeep, fun hle k hk => hkeep k (by omega) (by omega), ?_, ?_, ?_, ?_, ?_, ?_, ?_⟩
  · intro e1 hne
    obtain ⟨ents, _, _, _, rfl⟩ := addSlot_eq_ok hslot
    simp [mapSet, hne]
  · obtain ⟨ents, _, _, _, rfl⟩ := addSlot_eq_ok hslot
    simp [mapSet]
  · obtain ⟨ents, _, _, _, rfl⟩ := addSlot_eq_ok hslot
    rfl
  · obtain ⟨ents, _, _, hlt, rfl⟩ := addSlot_eq_ok hslot
    exact List.getElem?_set_self hlt
  · obtain ⟨ents, _, _, _, rfl⟩ := addSlot_eq_ok hslot
    rfl
  · intro hlt
    unfold componentArray.addSlot at hslot
    have hnf : ¬ (ca.idx ≥ ca.entities.length) := by omega
    simp only [hnf, if_false, hlt, if_true] at hslot
    cases hslot
    simp
  · intro heq
    unfold componentArray.addSlot at hslot
    have hfull : ca.idx ≥ ca.entities.length := by omega
    simp only [hfull, if_true] at hslot
    by_cases hlt : ca.idx < (ca.entities ++
        List.replicate ca.entities.length (entityComponent.zero V)).length
    · simp only [hlt, if_true] at hslot
      cases hslot
      simp only [List.length_set, List.length_append, List.length_replicate]
      omega
    · simp only [hlt, if_false] at hslot
      cases hslot

/-- C24 at the growth of the array: after `Player` was registered on a fresh
world and added to the entities 0 to 511, the store is full (capacity 512, 512
used slots); the next `add` returns with a store of capacity 1024 in which the
512 old slots and the index entries of the entities 0 to 511 are as before. -/
theorem add_preserves_contents_witness :
    ∃ (w : World Val) (ca ca1 : componentArray Val),
      runOps ([Op.registerComponent tPlayer] ++
        (List.range 512).map (fun e => Op.addComponent tPlayer e startValue)) (New Val)
        = Outcome.ok w ∧
      w.cm.componentArray = [ca] ∧ ca.entities.length = 512 ∧ ca.idx = 512 ∧
      ca.add 0 512 startValue = Outcome.ok ca1 ∧ ca1.entities.length = 1024 ∧
      ((∀ k, k < ca.entities.length → k ≠ ca.idx → ca1.entities[k]? = ca.entities[k]?) ∧
        (ca.idx ≤ ca.entities.length → ∀ k, k < ca.idx → ca1.entities[k]? = ca.entities[k]?) ∧
        (∀ e1, e1 ≠ 512 → ca1.entityToIdx e1 = ca.entityToIdx e1) ∧
        ca1.entityToIdx 512 = some ca.idx ∧
        ca1.idx = ca.idx + 1 ∧
        ca1.entities[ca.idx]? =
          some { Id := 512, Component := startValue, Alive := true, ChangedAt := 0 } ∧
        ca1.deads = ca.deads ∧
        (ca.idx < ca.entities.length → ca1.entities.length = ca.entities.length) ∧
        (ca.idx = ca.entities.length → ca1.entities.length = 2 * ca.entities.length)) := by
  obtain ⟨w1, hreg, hone1⟩ := OneStoreW.register_ok (V := Val) tPlayer
  have desc0 : StoreDesc (componentArray.new Val) 512 0 0 (slotsA 0) (mapA 0) :=
    ⟨List.length_replicate _ _, rfl, rfl,
      fun k => by
        show (List.replicate initialEntityArraySize (entityComponent.zero Val))[k]? = slotsA 0 k
        rw [List.getElem?_replicate]
        simp only [slotsA, capA, initialEntityArraySize]
        split_ifs <;> first | rfl | omega,
      fun e => rfl⟩
  obtain ⟨w3, ca3, hrun3, hone3, desc3⟩ := phaseA 512 (by decide) w1 _ hone1 desc0
  obtain ⟨ca4, hadd, _⟩ := desc3.add 0 512 startValue (Or.inl rfl) (by decide) (by decide)
  have e1 : runOps [Op.registerComponent tPlayer] (New Val) = Outcome.ok w1 := by
    rw [runOps_cons]
    show ((New Val).RegisterComponent tPlayer).bind _ = _
    rw [hreg]; rfl
  have hlen : ca3.entities.length = 512 := desc3.len
  have hidx : ca3.idx = 512 := desc3.idx
  have hthm := add_preserves_contents ca3 ca4 0 512 startValue hadd
  refine ⟨w3, ca3, ca4, ?_, hone3.arr, hlen, hidx, hadd, ?_, hthm⟩
  · rw [runOps_append, e1, Outcome.bind_ok, hrun3]
  · rw [hthm.2.2.2.2.2.2.2.2 (by rw [hlen, hidx]), hlen]

/-! ## The signature table at a tick boundary -/

/-- C26 at the re-add scenario.  All calls return and the world is the one
right after the cleanup that ends tick 1.  The mask of `Player` is 1, the
`Player` store has the indexed slot 1 for entity 0 with the liveness flag set
(and `GetComponent` returns `Player{7, 7}`), but entity 0 has no
signature-table entry: the cleanup evicted it, because `RemoveEntity` had put
entity 0 into the dead-entity set and the later `AddComponent` did not take it
out again. -/
theorem signatureTable_at_failing_input :
    (runOps
      [Op.registerComponent tPlayer, Op.newEntity, Op.addComponent tPlayer 0 (Val.Player 200 400),
       Op.cleanupTick, Op.removeEntity 0, Op.addComponent tPlayer 0 (Val.Player 7 7),
       Op.cleanupTick]
      (New Val)).isOk = true ∧
    readdWorld.frame = 2 ∧ readdWorld.oplog = [] ∧
    readdWorld.Sig tPlayer = .ok 1 ∧
    readdWorld.cm.componentArray.map (fun ca => (ca.entityToIdx 0, ca.entities[1]?)) =
      [(some 1, some { Id := 0, Component := Val.Player 7 7, Alive := true, ChangedAt := 1 })] ∧
    readdWorld.GetComponent tPlayer 0 = .ok (some (Val.Player 7 7)) ∧
    readdWorld.cm.entitySignatures 0 = none ∧
    sigOf readdWorld.cm.entitySignatures 0 &&& 1 = 0 := by
  refine ⟨?_, ?_, ?_, ?_, ?_, ?_, ?_, ?_⟩ <;> decide!

end lemmas

end ecs
